import Mathlib

/-!
# SmartDoorbell: access-control loop

A shallow embedding of the sensor-fusion loop of `SmartDoorbell/app/src/smart_doorbell.c`,
of the motion detector of `SmartDoorbell/app/src/camera.c`, of the audio worker of
`SmartDoorbell/app/src/sound.c`, and of the LED and joystick drivers `hal/src/led.c` and
`hal/src/joystick.c`.

Conventions of the embedding:

* every section of the `while (1)` body of `main` is a function from the state it
  touches and the values returned by the hardware calls of that section to the new
  state, the decision taken and the ordered list of actuator calls it issued;
* C arrays are lists; an access outside the array (undefined behaviour in C) makes
  the embedded function return `none`;
* `int`, `long` and `long long` variables are `Int` and their arithmetic is exact: the
  values that reach it are 12-bit ADC samples, `-1`, small counters and millisecond
  counts, far away from the limits of their types; the exception is section D, whose
  locals `x, y, z` can hold anything when the accelerometer is not open: its arithmetic
  is 32-bit, with `wrap_int` after every operation;
* a local variable that is read before the code assigns it (the locals `x, y, z` of
  section D when the accelerometer is not open) has its contents passed in as a
  parameter;
* console logging (`printf`, `perror`) is not an actuator and is left out.
-/

namespace SmartDoorbell

/-! ## Data model -/

/-- Enum `joystick_dir_t` of `hal/joystick.h`. -/
inductive joystick_dir_t where
  | JOY_NONE
  | JOY_UP
  | JOY_DOWN
  | JOY_LEFT
  | JOY_RIGHT
  | JOY_CENTER
  deriving DecidableEq, Repr

open joystick_dir_t

/-- Macro `PIN_LENGTH` of `smart_doorbell.c`. -/
def PIN_LENGTH : Nat := 4

/-- Constant array `SECRET_PIN` of `smart_doorbell.c`. -/
def SECRET_PIN : List joystick_dir_t := [JOY_LEFT, JOY_LEFT, JOY_UP, JOY_DOWN]

/-- Decision of a matcher: the branch of the `if (correct)` / `if (strcmp(..) == 0)`
test that was executed. -/
inductive Outcome where
  | Granted
  | Denied
  deriving DecidableEq, Repr

/-- Calls into the actuator and timing collaborators, in program order. -/
inductive Action where
  | sound_play_doorbell
  | sound_play_alarm
  | sound_play_correct
  | sound_play_incorrect
  | udp_send (msg : String)
  | hal_led_red_on
  | hal_led_red_off
  | hal_led_green_on
  | hal_led_green_off
  | hal_led_flash_red_n_times (n : Int) (total_ms : Int)
  | hal_joystick_wait_until_released
  | Accel_readXYZ
  | sleep (seconds : Nat)
  | usleep (micros : Nat)
  deriving DecidableEq, Repr

/-- Function `perform_unlock(method)`: the unlock sequence shared by PIN and RFID. -/
def perform_unlock (method : String) : List Action :=
  [ Action.sound_play_correct,
    Action.udp_send ("Door Unlocked by " ++ method),
    Action.hal_led_red_off,
    Action.hal_led_green_on,
    Action.sleep 3,
    Action.hal_led_green_off,
    Action.hal_led_red_on ]

/-! ## B. PIN code logic -/

/-- The variables `input_buffer` and `input_count` of `main`. -/
structure PinState where
  input_buffer : List joystick_dir_t
  input_count : Int
  deriving DecidableEq, Repr

/-- What one pass through a section of the loop body produced. -/
structure PinResult where
  state : PinState
  outcome : Option Outcome
  actions : List Action
  deriving DecidableEq, Repr

/-- The loop `for (i = 0; i < PIN_LENGTH; i++) if (input_buffer[i] != SECRET_PIN[i]) correct = false;`
with `k` iterations left, at index `i`. -/
def pin_compare_loop (input_buffer : List joystick_dir_t) : Nat → Nat → Bool → Option Bool
  | 0, _, correct => some correct
  | k + 1, i, correct =>
    match input_buffer[i]?, SECRET_PIN[i]? with
    | some a, some s => pin_compare_loop input_buffer k (i + 1) (if a ≠ s then false else correct)
    | _, _ => none

/-- Section B of the loop body for the direction `dir` returned by
`hal_joystick_read_direction()`. -/
def pin_feed (st : PinState) (dir : joystick_dir_t) : Option PinResult :=
  if dir ≠ JOY_NONE ∧ dir ≠ JOY_CENTER then
    -- input_buffer[input_count++] = dir;
    if 0 ≤ st.input_count ∧ st.input_count < (st.input_buffer.length : Int) then
      let input_buffer := st.input_buffer.set st.input_count.toNat dir
      let input_count := st.input_count + 1
      let feedback : List Action :=
        [ Action.hal_led_red_off, Action.hal_led_green_on, Action.usleep 100000,
          Action.hal_led_green_off, Action.hal_led_red_on,
          Action.hal_joystick_wait_until_released ]
      if input_count ≥ (PIN_LENGTH : Int) then
        match pin_compare_loop input_buffer PIN_LENGTH 0 true with
        | some true =>
          some { state := { input_buffer := input_buffer, input_count := 0 },
                 outcome := some Outcome.Granted,
                 actions := feedback ++ perform_unlock "PIN" }
        | some false =>
          some { state := { input_buffer := input_buffer, input_count := 0 },
                 outcome := some Outcome.Denied,
                 actions := feedback ++
                   [Action.sound_play_incorrect, Action.hal_led_flash_red_n_times 3 500] }
        | none => none
      else
        some { state := { input_buffer := input_buffer, input_count := input_count },
               outcome := none, actions := feedback }
    else none
  else
    some { state := st, outcome := none, actions := [] }

/-- Section B run on a sequence of directions, one per tick; returns the final state
and the outcome of every tick, in order. -/
def pin_feeds : PinState → List joystick_dir_t → Option (PinState × List (Option Outcome))
  | st, [] => some (st, [])
  | st, d :: ds =>
    match pin_feed st d with
    | none => none
    | some r =>
      match pin_feeds r.state ds with
      | none => none
      | some (st', outs) => some (st', r.outcome :: outs)

/-- A direction that section B stores: neither `JOY_NONE` nor `JOY_CENTER`. -/
def is_pin_symbol (d : joystick_dir_t) : Bool :=
  decide (d ≠ JOY_NONE ∧ d ≠ JOY_CENTER)

/-- The most recent four stored directions of a sequence (all of them when there are
fewer than four), oldest first. -/
def recent4 (ds : List joystick_dir_t) : List joystick_dir_t :=
  (ds.filter is_pin_symbol).drop ((ds.filter is_pin_symbol).length - 4)

/-- States of section B reachable from the declaration `input_buffer[PIN_LENGTH]`
(contents not initialised) and `input_count = 0`. -/
inductive PinReachable : PinState → Prop where
  | init (buf : List joystick_dir_t) (h : buf.length = PIN_LENGTH) :
      PinReachable { input_buffer := buf, input_count := 0 }
  | tick (st : PinState) (dir : joystick_dir_t) (r : PinResult)
      (h : PinReachable st) (hr : pin_feed st dir = some r) : PinReachable r.state

/-! ## C. RFID UART logic -/

/-- C `strlen` on a byte buffer: index of the first NUL byte. -/
def strlen : List Nat → Option Nat
  | [] => none
  | b :: t => if b = 0 then some 0 else (strlen t).map (· + 1)

/-- C `strcspn(s, reject)`: length of the longest prefix of the string `s` holding no
byte of `reject` (the bytes of the reject literal, its NUL left out). -/
def strcspn : List Nat → List Nat → Option Nat
  | [], _ => none
  | b :: t, reject =>
    if b = 0 ∨ b ∈ reject then some 0 else (strcspn t reject).map (· + 1)

/-- C `strcmp`: zero when both strings agree up to and including their NUL, else the
difference of the first pair of bytes that differ. -/
def strcmp : List Nat → List Nat → Option Int
  | a :: s, b :: t =>
    if a ≠ b then some ((a : Int) - (b : Int)) else if a = 0 then some 0 else strcmp s t
  | _, _ => none

/-- The bytes of the tag `5A5992`. -/
def SECRET_TAG : List Nat := [0x35, 0x41, 0x35, 0x39, 0x39, 0x32]

/-- Macro `RFID_SECRET_KEY`, the string literal with its NUL terminator. -/
def RFID_SECRET_KEY : List Nat := SECRET_TAG ++ [0]

/-- What the system call `read(uart_fd, buffer, max_len)` did: delivered the pending
bytes `chunk` (at most `max_len` of them are copied), or failed with `EAGAIN`, or
failed with another error. -/
inductive UartRead where
  | bytes (chunk : List Nat)
  | eagain
  | error
  deriving DecidableEq, Repr

/-- Function `hal_uart_read(buffer, max_len)` of `hal/src/uart.c`; returns the buffer
and the return value. -/
def hal_uart_read (uart_fd : Int) (buffer : List Nat) (max_len : Nat) (rd : UartRead) :
    Option (List Nat × Int) :=
  if uart_fd = -1 then some (buffer, -1)
  else
    match rd with
    | UartRead.bytes chunk =>
      let got := chunk.take max_len
      if got.length ≤ buffer.length then
        some (got ++ buffer.drop got.length, (got.length : Int))
      else none
    | UartRead.eagain => some (buffer, 0)
    | UartRead.error => some (buffer, -1)

/-- Store `buffer[i] = v`; `none` outside the array. -/
def store (buffer : List Nat) (i : Nat) (v : Nat) : Option (List Nat) :=
  if i < buffer.length then some (buffer.set i v) else none

/-- What one pass through section C produced. -/
structure RfidResult where
  rfid_buffer : List Nat
  outcome : Option Outcome
  actions : List Action
  deriving DecidableEq, Repr

/-- RFID Matcher: the statement `if (strlen(rfid_buffer) > 0) { ... }` of section C. -/
def rfid_check (rfid_buffer : List Nat) : Option (Option Outcome × List Action) :=
  match strlen rfid_buffer with
  | none => none
  | some len =>
    if len > 0 then
      match strcmp rfid_buffer RFID_SECRET_KEY with
      | none => none
      | some c =>
        if c = 0 then some (some Outcome.Granted, perform_unlock "RFID")
        else some (some Outcome.Denied,
          [Action.sound_play_incorrect, Action.hal_led_flash_red_n_times 2 200])
    else some (none, [])

/-- Section C of the loop body; `sizeof(rfid_buffer)` is the length of the list. -/
def rfid_step (uart_fd : Int) (rfid_buffer : List Nat) (rd : UartRead) : Option RfidResult :=
  match hal_uart_read uart_fd rfid_buffer (rfid_buffer.length - 1) rd with
  | none => none
  | some (buf, bytes_read) =>
    if bytes_read > 0 then
      match store buf bytes_read.toNat 0 with
      | none => none
      | some buf1 =>
        match strcspn buf1 [0x0D, 0x0A] with
        | none => none
        | some n =>
          match store buf1 n 0 with
          | none => none
          | some buf2 =>
            match rfid_check buf2 with
            | none => none
            | some (o, acts) => some { rfid_buffer := buf2, outcome := o, actions := acts }
    else some { rfid_buffer := buf, outcome := none, actions := [] }

/-- A byte that is neither NUL nor carriage return nor line feed. -/
def is_token_byte (b : Nat) : Bool := decide (b ≠ 0 ∧ b ≠ 0x0D ∧ b ≠ 0x0A)

/-- The token of a chunk: its bytes before the first carriage return, line feed or NUL. -/
def token_of (chunk : List Nat) : List Nat := chunk.takeWhile is_token_byte

/-- The decision of section C on a token, as the spec words it: none for the empty
token, `Granted` with the unlock sequence for the secret tag, `Denied` with the deny
feedback for any other token. -/
def rfid_decision (token : List Nat) : Option Outcome × List Action :=
  if token = [] then (none, [])
  else if token = SECRET_TAG then (some Outcome.Granted, perform_unlock "RFID")
  else (some Outcome.Denied,
    [Action.sound_play_incorrect, Action.hal_led_flash_red_n_times 2 200])

/-! ## D. Tamper detection -/

/-- Macro `TAMPER_THRESHOLD`. -/
def TAMPER_THRESHOLD : Int := 1000

/-- Result of the `ioctl(fd, SPI_IOC_MESSAGE(1), &tr)` transfer of one ADC read: the
return value and the received bytes `rx[1]`, `rx[2]`. -/
structure SpiTransfer where
  ret : Int
  rx1 : Nat
  rx2 : Nat
  deriving DecidableEq, Repr

/-- Function `hal_spi_adc_read_ch(fd, ch, speed_hz)` of `hal/src/spi_adc.c`. -/
def hal_spi_adc_read_ch (fd : Int) (ch : Int) (tr : SpiTransfer) : Int :=
  if fd < 0 ∨ ch < 0 ∨ ch > 7 then -1
  else if tr.ret < 1 then -1
  else ((((tr.rx1 &&& 0x0F) <<< 8) ||| tr.rx2 : Nat) : Int)

/-- Macros `ACC_X_CH`, `ACC_Y_CH`, `ACC_Z_CH` of `hal/src/accelerometer.c`. -/
def ACC_X_CH : Int := 2
def ACC_Y_CH : Int := 1
def ACC_Z_CH : Int := 0

/-- Function `Accel_readXYZ(&x, &y, &z)`: `bus ch` is the transfer the ADC answers with
on channel `ch` during this call; `(x, y, z)` are the previous contents of the three
variables, which stay as they are when the device is not open. -/
def Accel_readXYZ (spi_fd : Int) (bus : Int → SpiTransfer) (x y z : Int) : Int × Int × Int :=
  if spi_fd < 0 then (x, y, z)
  else (hal_spi_adc_read_ch spi_fd ACC_X_CH (bus ACC_X_CH),
        hal_spi_adc_read_ch spi_fd ACC_Y_CH (bus ACC_Y_CH),
        hal_spi_adc_read_ch spi_fd ACC_Z_CH (bus ACC_Z_CH))

/-- The accelerometer baseline `last_x, last_y, last_z` of `main`. -/
structure TamperState where
  last_x : Int
  last_y : Int
  last_z : Int
  deriving DecidableEq, Repr

/-- The value a 32-bit `int` holds when an operation has the mathematical result `v`:
`v` itself inside the range of `int`, and `v` reduced modulo `2^32` into that range
outside of it (signed overflow, undefined in C, wraps on the two's complement target). -/
def wrap_int (v : Int) : Int := (v + 2147483648) % 4294967296 - 2147483648

/-- C `abs` on `int`. -/
def abs_int (v : Int) : Int := if v < 0 then wrap_int (-v) else v

/-- The expression `abs(x - last_x) + abs(y - last_y) + abs(z - last_z)`, every
operation in 32-bit `int`. -/
def tamper_delta (st : TamperState) (x y z : Int) : Int :=
  wrap_int
    (wrap_int (abs_int (wrap_int (x - st.last_x)) + abs_int (wrap_int (y - st.last_y)))
      + abs_int (wrap_int (z - st.last_z)))

/-- Tamper Detector: the test `delta > TAMPER_THRESHOLD`. -/
def tamper_check (st : TamperState) (x y z : Int) : Bool :=
  decide (tamper_delta st x y z > TAMPER_THRESHOLD)

/-- What one pass through section D produced. -/
structure TamperResult where
  state : TamperState
  tamper : Bool
  actions : List Action
  deriving DecidableEq, Repr

/-- The alarm blink `for (i = 0; i < 5; i++) { red_on; usleep; red_off; usleep }`. -/
def alarm_blink : Nat → List Action
  | 0 => []
  | k + 1 =>
    [Action.hal_led_red_on, Action.usleep 50000, Action.hal_led_red_off, Action.usleep 50000]
      ++ alarm_blink k

/-- Section D of the loop body. `bus` answers the read at the top of the section,
`bus_settled` the read after `sleep(2)`; `(x0, y0, z0)` are the contents of the locals
`x, y, z` before the first read. -/
def tamper_step (spi_fd : Int) (bus bus_settled : Int → SpiTransfer) (x0 y0 z0 : Int)
    (st : TamperState) : TamperResult :=
  let (x, y, z) := Accel_readXYZ spi_fd bus x0 y0 z0
  let delta := tamper_delta st x y z
  if delta > TAMPER_THRESHOLD then
    let (lx, ly, lz) := Accel_readXYZ spi_fd bus_settled st.last_x st.last_y st.last_z
    { state := { last_x := lx, last_y := ly, last_z := lz },
      tamper := true,
      actions := [Action.Accel_readXYZ, Action.sound_play_alarm,
                  Action.udp_send "TAMPER DETECTED: Device Shaken!"]
                 ++ alarm_blink 5
                 ++ [Action.hal_led_red_on, Action.sleep 2, Action.Accel_readXYZ] }
  else
    { state := { last_x := x, last_y := y, last_z := z },
      tamper := false,
      actions := [Action.Accel_readXYZ] }

/-! ## Floating-point arithmetic of `camera.c`

The two floating-point expressions of `camera_check_motion` are evaluated exactly as
IEEE 754 prescribes (binary32 for `float`, binary64 for `double`, round to nearest,
ties to even, every operation rounded once). All values are non-negative and far
from the overflow and subnormal ranges, so a value is a pair mantissa and exponent. -/

/-- Non-negative dyadic number `m * 2 ^ e`. -/
structure Dyadic where
  m : Nat
  e : Int
  deriving DecidableEq, Repr

/-- Number of significant bits of `n`, counted by halving at most `fuel` times. -/
def bit_length_aux : Nat → Nat → Nat
  | 0, _ => 0
  | fuel + 1, n => if n = 0 then 0 else bit_length_aux fuel (n / 2) + 1

/-- Number of significant bits of `n`. -/
def bit_length (n : Nat) : Nat := bit_length_aux n n

/-- Round `m * 2 ^ e` (plus a positive amount below one unit of `m` when `sticky`)
to `p` significant bits, to nearest, ties to even. -/
def round_to (p : Nat) (m : Nat) (sticky : Bool) (e : Int) : Dyadic :=
  if bit_length m ≤ p then { m := m, e := e }
  else
    let sh := bit_length m - p
    let q := m / 2 ^ sh
    let r := m % 2 ^ sh
    let half := 2 ^ (sh - 1)
    let up : Bool := decide (r > half) || (decide (r = half) && (sticky || decide (q % 2 = 1)))
    { m := if up then q + 1 else q, e := e + (sh : Int) }

/-- Conversion of a non-negative integer to a `p`-bit float. -/
def of_nat (p : Nat) (n : Nat) : Dyadic := round_to p n false 0

/-- Product of two floats, rounded to `p` bits. -/
def fmul (p : Nat) (a b : Dyadic) : Dyadic := round_to p (a.m * b.m) false (a.e + b.e)

/-- Sum of two floats, rounded to `p` bits. -/
def fadd (p : Nat) (a b : Dyadic) : Dyadic :=
  let e := min a.e b.e
  round_to p (a.m * 2 ^ (a.e - e).toNat + b.m * 2 ^ (b.e - e).toNat) false e

/-- Quotient of two floats with `b ≠ 0`, rounded to `p` bits. -/
def fdiv (p : Nat) (a b : Dyadic) : Dyadic :=
  let k := p + 2 + bit_length b.m
  round_to p (a.m * 2 ^ k / b.m) (decide (a.m * 2 ^ k % b.m ≠ 0)) (a.e - b.e - (k : Int))

/-- Comparison `a > b`. -/
def fgt (a b : Dyadic) : Bool :=
  let e := min a.e b.e
  decide (a.m * 2 ^ (a.e - e).toNat > b.m * 2 ^ (b.e - e).toNat)

/-- Conversion to an integer type: the fraction is discarded. -/
def ftrunc (a : Dyadic) : Nat :=
  if 0 ≤ a.e then a.m * 2 ^ a.e.toNat else a.m / 2 ^ (-a.e).toNat

/-- The `double` nearest to the decimal literal `num / den`. -/
def double_literal (num den : Nat) : Dyadic := fdiv 53 { m := num, e := 0 } { m := den, e := 0 }

/-! ## Motion detector (`camera.c`) -/

/-- Macro `MOTION_THRESH`: the `double` constant `0.15`. -/
def MOTION_THRESH : Dyadic := double_literal 15 100

/-- Macro `PIXEL_THRESH`. -/
def PIXEL_THRESH : Nat := 60

/-- A decoded frame as `load_jpeg` returns it: dimensions and the RGB bytes, three per
pixel, row after row. -/
structure Frame where
  w : Nat
  h : Nat
  data : List Nat
  deriving DecidableEq, Repr

/-- The static variables `bg_buffer` (`none` for `NULL`), `img_w`, `img_h`. -/
structure CamState where
  bg_buffer : Option (List Nat)
  img_w : Nat
  img_h : Nat
  deriving DecidableEq, Repr

/-- State after `camera_init`: the initial values of the static variables. -/
def cam_initial : CamState := { bg_buffer := none, img_w := 0, img_h := 0 }

/-- The expression `(unsigned char)((bg*0.8) + (curr*0.2))`, evaluated in `double`. -/
def blend (bg curr : Nat) : Nat :=
  ftrunc (fadd 53 (fmul 53 (of_nat 53 bg) (double_literal 8 10))
                  (fmul 53 (of_nat 53 curr) (double_literal 2 10)))

/-- The loop `for (i = 0; i < total_bytes; i += 3)` with `k` iterations left, at index
`i`; it runs `w * h` times since `total_bytes = w * h * 3`. Returns the background and
`diff_count`. -/
def motion_loop (curr : List Nat) : Nat → Nat → List Nat → Nat → Option (List Nat × Nat)
  | 0, _, bg, diff_count => some (bg, diff_count)
  | k + 1, i, bg, diff_count =>
    match curr[i]?, bg[i]? with
    | some c, some b =>
      let diff := ((c : Int) - (b : Int)).natAbs
      motion_loop curr k (i + 3) (bg.set i (blend b c))
        (if diff > PIXEL_THRESH then diff_count + 1 else diff_count)
    | _, _ => none

/-- The expression `((float)diff_count / (float)(w*h)) > MOTION_THRESH`. A zero
divisor gives NaN for `0/0` (every comparison with NaN is false) and infinity
otherwise. -/
def motion_verdict (diff_count pixels : Nat) : Bool :=
  let a := of_nat 24 diff_count
  let b := of_nat 24 pixels
  if b.m = 0 then decide (a.m ≠ 0) else fgt (fdiv 24 a b) MOTION_THRESH

/-- Function `camera_check_motion()`; `curr` is what `load_jpeg(IMG_PATH, &w, &h)`
returned (`none` for `NULL`). Returns the static variables and the return value. -/
def camera_check_motion (st : CamState) (curr : Option Frame) : Option (CamState × Bool) :=
  match curr with
  | none => some (st, false)
  | some f =>
    match st.bg_buffer with
    | none => some ({ bg_buffer := some f.data, img_w := f.w, img_h := f.h }, false)
    | some bg =>
      if f.w ≠ st.img_w ∨ f.h ≠ st.img_h then
        some ({ bg_buffer := some f.data, img_w := f.w, img_h := f.h }, false)
      else
        match motion_loop f.data (f.w * f.h) 0 bg 0 with
        | none => none
        | some (bg', diff_count) =>
          some ({ st with bg_buffer := some bg' }, motion_verdict diff_count (f.w * f.h))

/-- A frame whose buffer holds three bytes for each of its `w * h` pixels, small
enough for `w * h * 3` to fit the `int` it is computed in. -/
def Frame.well_formed (f : Frame) : Prop :=
  f.data.length = f.w * f.h * 3 ∧ f.w * f.h * 3 < 2 ^ 31 ∧ ∀ b ∈ f.data, b < 256

instance (f : Frame) : Decidable f.well_formed := by
  unfold Frame.well_formed; infer_instance

/-! ## Abstract view of the PIN buffer, used in the proofs -/

/-- The stored directions after one more tick: `p` lists the `input_count` directions
currently held in `input_buffer`. -/
def pin_push (p : List joystick_dir_t) (d : joystick_dir_t) : List joystick_dir_t :=
  if is_pin_symbol d then (if p.length + 1 ≥ 4 then [] else p ++ [d]) else p

/-- The outcome of one more tick in terms of the stored directions. -/
def pin_out (p : List joystick_dir_t) (d : joystick_dir_t) : Option Outcome :=
  if is_pin_symbol d ∧ p.length + 1 ≥ 4 then
    some (if p ++ [d] = SECRET_PIN then Outcome.Granted else Outcome.Denied)
  else none

/-- The stored directions after a sequence of ticks. -/
def pin_pending : List joystick_dir_t → List joystick_dir_t → List joystick_dir_t
  | p, [] => p
  | p, d :: ds => pin_pending (pin_push p d) ds

/-- The outcomes of a sequence of ticks in terms of the stored directions. -/
def pin_outs : List joystick_dir_t → List joystick_dir_t → List (Option Outcome)
  | _, [] => []
  | p, d :: ds => pin_out p d :: pin_outs (pin_push p d) ds

/-- The state `st` holds exactly the directions `p`: `input_count` of them, at the
front of a four-element `input_buffer`. -/
def PinHolds (st : PinState) (p : List joystick_dir_t) : Prop :=
  st.input_count = (p.length : Int) ∧ p.length ≤ 3 ∧ st.input_buffer.length = 4 ∧
    st.input_buffer.take p.length = p ∧ ∀ x ∈ p, is_pin_symbol x = true

/-- The outcome of the last tick of a run of section B (`none` when there was no tick
or the last tick took no decision). -/
def pin_last_outcome (st : PinState) (ds : List joystick_dir_t) : Option Outcome :=
  match pin_feeds st ds with
  | some (_, outs) => outs.getLast?.join
  | none => none

/-! ## Pixel-level view of the motion detector, as the spec words it -/

/-- Pixel `q` counts as changed: the red bytes of frame and background at index `3 * q`
differ by more than `PIXEL_THRESH`. -/
def changed_pixel (curr bg : List Nat) (q : Nat) : Bool :=
  decide (PIXEL_THRESH < ((curr.getD (3 * q) 0 : Int) - (bg.getD (3 * q) 0 : Int)).natAbs)

/-- The number of changed pixels among the first `pixels` ones. -/
def changed_pixels (curr bg : List Nat) (pixels : Nat) : Nat :=
  (List.range' 0 pixels).countP (changed_pixel curr bg)

/-- The moving average `0.8 * b + 0.2 * n` truncated toward zero, in integers. -/
def moving_average (b n : Nat) : Nat := (4 * b + n) / 5

/-- The static variables hold a background of three bytes per pixel. -/
def CamState.has_background (st : CamState) (bg : List Nat) : Prop :=
  st.bg_buffer = some bg ∧ bg.length = st.img_w * st.img_h * 3 ∧ ∀ b ∈ bg, b < 256

instance (st : CamState) (bg : List Nat) : Decidable (st.has_background bg) := by
  unfold CamState.has_background; infer_instance

/-- The frame `f` fed to `camera_check_motion` `n` times in a row. -/
def camera_feeds (f : Frame) : Nat → CamState → Option CamState
  | 0, st => some st
  | n + 1, st =>
    match camera_check_motion st (some f) with
    | none => none
    | some (st', _) => camera_feeds f n st'

/-! ## Operand tables of the blend, used in the proofs -/

/-- The value of a dyadic number in units of `2 ^ (-55)`, for exponents from `-55` on. -/
def units55 (a : Dyadic) : Nat := a.m * 2 ^ (a.e + 55).toNat

/-- The rounded product `x * c` of a byte with the constant `c`, where `c` is `num / 5`
rounded to `double`: its exponent lies between `e0` and `-45`, and its value is within
the stated distance of the exact `x * num / 5`. -/
def product_ok (c : Dyadic) (num : Nat) (e0 : Int) (x : Nat) : Bool :=
  let a := fmul 53 (of_nat 53 x) c
  decide (e0 ≤ a.e) && decide (a.e ≤ -45) &&
    decide (5 * units55 a ≤ num * x * 2 ^ 55 + 5120) &&
    decide (num * x * 2 ^ 55 ≤ 5 * units55 a + 2 ^ (bit_length (units55 a) - 53))

/-- The moving average toward the frame byte `n`, applied `k` times to `b`. -/
def average_steps (n : Nat) : Nat → Nat → Nat
  | 0, b => b
  | k + 1, b => average_steps n k (moving_average b n)

/-! ## Audio worker (`sound.c`)

The queue variables are only touched between `pthread_mutex_lock` and
`pthread_mutex_unlock`, so a run of the two threads is a sequence of whole critical
sections: `queue_sound` calls of the control thread and takes of the worker. The runs
considered lie between `sound_init` and `sound_cleanup`, where `running` is true. -/

/-- Macro `QUEUE_SIZE`. -/
def QUEUE_SIZE : Int := 16

/-- The static variables `command_queue`, `head`, `tail`. -/
structure SoundQueue where
  command_queue : List Int
  head : Int
  tail : Int
  deriving DecidableEq, Repr

/-- The queue after `sound_init`: `head = tail = 0` over the zero-initialised array. -/
def sound_init : SoundQueue :=
  { command_queue := List.replicate 16 0, head := 0, tail := 0 }

/-- Function `is_queue_empty`. -/
def is_queue_empty (q : SoundQueue) : Bool := decide (q.head = q.tail)

/-- Function `is_queue_full`; `%` on `int` truncates toward zero. -/
def is_queue_full (q : SoundQueue) : Bool :=
  decide (Int.tmod (q.tail + 1) QUEUE_SIZE = q.head)

/-- Function `queue_sound(cmd)`. -/
def queue_sound (q : SoundQueue) (cmd : Int) : Option SoundQueue :=
  if ¬ is_queue_full q then
    if 0 ≤ q.tail ∧ q.tail < (q.command_queue.length : Int) then
      some { command_queue := q.command_queue.set q.tail.toNat cmd,
             head := q.head,
             tail := Int.tmod (q.tail + 1) QUEUE_SIZE }
    else none
  else some q

/-- The statements `current_cmd = command_queue[head]; head = (head + 1) % QUEUE_SIZE;`
of `sound_thread_func`, reached once the wait loop has found the queue not empty. -/
def sound_thread_take (q : SoundQueue) : Option (Int × SoundQueue) :=
  if 0 ≤ q.head ∧ q.head < (q.command_queue.length : Int) then
    match q.command_queue[q.head.toNat]? with
    | some cmd => some (cmd, { q with head := Int.tmod (q.head + 1) QUEUE_SIZE })
    | none => none
  else none

/-- Functions `sound_play_doorbell`, `sound_play_alarm`, `sound_play_correct`,
`sound_play_incorrect` and `sound_stop`. -/
def sound_play_doorbell (q : SoundQueue) : Option SoundQueue := queue_sound q 1
def sound_play_alarm (q : SoundQueue) : Option SoundQueue := queue_sound q 2
def sound_play_correct (q : SoundQueue) : Option SoundQueue := queue_sound q 3
def sound_play_incorrect (q : SoundQueue) : Option SoundQueue := queue_sound q 4
def sound_stop (q : SoundQueue) : Option SoundQueue := queue_sound q 5

/-- Macros `DOORBELL_WAV`, `ALARM_WAV`, `CORRECT_WAV`, `INCORRECT_WAV`, `APLAY_CMD`. -/
def DOORBELL_WAV : String := "audio-files/dingdong.wav"
def ALARM_WAV : String := "audio-files/alarm.wav"
def CORRECT_WAV : String := "audio-files/correct.wav"
def INCORRECT_WAV : String := "audio-files/incorrect.wav"
def APLAY_CMD : String := "aplay -q"

/-- The `switch (current_cmd)` of `sound_thread_func`: the chosen asset, or `none` when
`file_to_play` stays `NULL`. Case 5 does not reach the use of the result. -/
def file_to_play (current_cmd : Int) : Option String :=
  if current_cmd = 1 then some DOORBELL_WAV
  else if current_cmd = 2 then some ALARM_WAV
  else if current_cmd = 3 then some CORRECT_WAV
  else if current_cmd = 4 then some INCORRECT_WAV
  else none

/-- The command dispatch of `sound_thread_func` for one dequeued command: the list of
command lines passed to `system`, in order. -/
def sound_thread_dispatch (current_cmd : Int) : List String :=
  if current_cmd = 5 then ["killall -q aplay"]
  else
    match file_to_play current_cmd with
    | some file => [APLAY_CMD ++ " " ++ file ++ " &"]
    | none => []

/-- One critical section: a `queue_sound` call of the control thread or a pass of the
worker through its wait loop. -/
inductive QueueOp where
  | enqueue (cmd : Int)
  | dequeue
  deriving DecidableEq, Repr

/-- One critical section on the queue; returns the command the worker took, if any.
A worker that finds the queue empty goes back to `pthread_cond_wait`. -/
def queue_step (q : SoundQueue) : QueueOp → Option (SoundQueue × Option Int)
  | QueueOp.enqueue cmd =>
    match queue_sound q cmd with
    | some q' => some (q', none)
    | none => none
  | QueueOp.dequeue =>
    if is_queue_empty q then some (q, none)
    else
      match sound_thread_take q with
      | some (cmd, q') => some (q', some cmd)
      | none => none

/-- A sequence of critical sections; returns the queue and the commands the worker
took, in order. -/
def queue_run : SoundQueue → List QueueOp → Option (SoundQueue × List Int)
  | q, [] => some (q, [])
  | q, op :: ops =>
    match queue_step q op with
    | none => none
    | some (q', taken) =>
      match queue_run q' ops with
      | none => none
      | some (q'', out) => some (q'', taken.toList ++ out)

/-- States of the queue reachable from `sound_init`. -/
inductive QueueReachable : SoundQueue → Prop where
  | init : QueueReachable sound_init
  | step (q : SoundQueue) (op : QueueOp) (q' : SoundQueue) (taken : Option Int)
      (h : QueueReachable q) (hs : queue_step q op = some (q', taken)) : QueueReachable q'

/-- The entries of the ring `cq` from index `h` on, `k` of them, wrapping at 16. -/
def ring_contents (cq : List Int) : Nat → Nat → List Int
  | _, 0 => []
  | h, k + 1 => cq.getD h 0 :: ring_contents cq ((h + 1) % 16) k

/-- The live entries of the queue, oldest first: from `head` up to `tail`. -/
def queue_contents (q : SoundQueue) : List Int :=
  ring_contents q.command_queue q.head.toNat ((q.tail - q.head) % 16).toNat

/-- The queue as the spec words it: a list of at most 15 commands, new ones appended at
the back unless 15 are held, the oldest taken from the front. -/
def fifo_step (l : List Int) : QueueOp → List Int × Option Int
  | QueueOp.enqueue cmd => (if l.length < 15 then l ++ [cmd] else l, none)
  | QueueOp.dequeue =>
    match l with
    | [] => ([], none)
    | x :: rest => (rest, some x)

/-- A sequence of operations on the list queue; returns the list and the commands
taken, in order. -/
def fifo_run : List Int → List QueueOp → List Int × List Int
  | l, [] => (l, [])
  | l, op :: ops =>
    ((fifo_run (fifo_step l op).1 ops).1, (fifo_step l op).2.toList ++ (fifo_run (fifo_step l op).1 ops).2)

/-- The commands of a sequence of operations that were accepted: enqueued while fewer
than 15 were held. -/
def fifo_accepted : List Int → List QueueOp → List Int
  | _, [] => []
  | l, QueueOp.enqueue cmd :: ops =>
    if l.length < 15 then cmd :: fifo_accepted (l ++ [cmd]) ops else fifo_accepted l ops
  | l, QueueOp.dequeue :: ops => fifo_accepted l.tail ops

/-- The indices are inside the 16-element array. -/
def QueueInv (q : SoundQueue) : Prop :=
  q.command_queue.length = 16 ∧ (0 ≤ q.head ∧ q.head < 16) ∧ (0 ≤ q.tail ∧ q.tail < 16)

/-! ## Section B over the stream of joystick readings

Section B calls `hal_joystick_read_direction()` once at its top and then, after a
stored direction, again and again inside `hal_joystick_wait_until_released()`. The
embedding below feeds the readings one at a time to the control thread, which is
either at the top of section B or inside the wait loop. -/

/-- The statement `input_buffer[input_count++] = dir;`. -/
def pin_store (st : PinState) (dir : joystick_dir_t) : Option PinState :=
  if 0 ≤ st.input_count ∧ st.input_count < (st.input_buffer.length : Int) then
    some { input_buffer := st.input_buffer.set st.input_count.toNat dir,
           input_count := st.input_count + 1 }
  else none

/-- The statement `if (input_count >= PIN_LENGTH) { ... input_count = 0; }`, which runs
after `hal_joystick_wait_until_released()` has returned. -/
def pin_judge (st : PinState) : Option (PinState × Option Outcome) :=
  if st.input_count ≥ (PIN_LENGTH : Int) then
    match pin_compare_loop st.input_buffer PIN_LENGTH 0 true with
    | some true => some ({ input_buffer := st.input_buffer, input_count := 0 }, some Outcome.Granted)
    | some false => some ({ input_buffer := st.input_buffer, input_count := 0 }, some Outcome.Denied)
    | none => none
  else some (st, none)

/-- Where the control thread takes its next reading: at the top of section B, or in the
loop of `hal_joystick_wait_until_released`. -/
inductive PinPc where
  | polling
  | awaiting_release
  deriving DecidableEq, Repr

/-- What became of one reading. -/
inductive ReadingEvent where
  /-- Read at the top of section B and stored in `input_buffer`. -/
  | appended (d : joystick_dir_t)
  /-- Read at the top of section B, `JOY_NONE` or `JOY_CENTER`: section B is skipped. -/
  | ignored (d : joystick_dir_t)
  /-- Read in the wait loop, not `JOY_NONE`: the loop sleeps and reads again. -/
  | held (d : joystick_dir_t)
  /-- Read in the wait loop, `JOY_NONE`: the wait returns and the buffer is judged. -/
  | released (outcome : Option Outcome)
  deriving DecidableEq, Repr

/-- The control thread takes one reading. -/
def pin_loop_step (st : PinState) (pc : PinPc) (d : joystick_dir_t) :
    Option (PinState × PinPc × ReadingEvent) :=
  match pc with
  | PinPc.polling =>
    if d ≠ JOY_NONE ∧ d ≠ JOY_CENTER then
      match pin_store st d with
      | some st' => some (st', PinPc.awaiting_release, ReadingEvent.appended d)
      | none => none
    else some (st, PinPc.polling, ReadingEvent.ignored d)
  | PinPc.awaiting_release =>
    if d = JOY_NONE then
      match pin_judge st with
      | some (st', o) => some (st', PinPc.polling, ReadingEvent.released o)
      | none => none
    else some (st, PinPc.awaiting_release, ReadingEvent.held d)

/-- The control thread takes a sequence of readings; returns where it stands and what
became of every reading, in order. -/
def pin_loop_run : PinState → PinPc → List joystick_dir_t →
    Option (PinState × PinPc × List ReadingEvent)
  | st, pc, [] => some (st, pc, [])
  | st, pc, d :: ds =>
    match pin_loop_step st pc d with
    | none => none
    | some (st', pc', ev) =>
      match pin_loop_run st' pc' ds with
      | none => none
      | some (st'', pc'', evs) => some (st'', pc'', ev :: evs)

/-- Invariant of the run: at the top of section B the buffer holds at most three
directions; in the wait loop it is such a buffer with one more direction stored. -/
def PinLoopInv (st : PinState) : PinPc → Prop
  | PinPc.polling => ∃ p, PinHolds st p
  | PinPc.awaiting_release =>
    ∃ st0 p d, PinHolds st0 p ∧ (d ≠ JOY_NONE ∧ d ≠ JOY_CENTER) ∧ pin_store st0 d = some st

/-! ## A. Doorbell button -/

/-- Section A of the loop body: `button_is_pressed` is what `hal_joystick_is_pressed()`
returned in this tick. Returns the new value of `button_was_pressed` and the calls
issued. -/
def doorbell_step (button_was_pressed button_is_pressed : Bool) : Bool × List Action :=
  (button_is_pressed,
   if button_is_pressed && !button_was_pressed then
     [Action.sound_play_doorbell, Action.udp_send "Doorbell Button Pressed"]
   else [])

/-- Section A run on the button samples of successive ticks; returns the calls of every
tick, in order. -/
def doorbell_run : Bool → List Bool → List (List Action)
  | _, [] => []
  | button_was_pressed, s :: ss =>
    (doorbell_step button_was_pressed s).2 ::
      doorbell_run (doorbell_step button_was_pressed s).1 ss

/-- A doorbell event, as the spec words it: the Doorbell sound is enqueued and the
notification is sent. -/
def doorbell_event : List Action :=
  [Action.sound_play_doorbell, Action.udp_send "Doorbell Button Pressed"]

/-- The samples of successive ticks, each paired with the sample of the tick before it;
the button counts as not pressed before the first tick. -/
def with_previous (samples : List Bool) : List (Bool × Bool) :=
  (false :: samples).zip samples

/-- A false-to-true transition: not pressed in the previous tick, pressed in this one. -/
def is_rising (p : Bool × Bool) : Bool := !p.1 && p.2

/-- The number of false-to-true transitions of a sample sequence. -/
def rising_edges (samples : List Bool) : Nat :=
  (with_previous samples).countP is_rising

/-! ## E. Motion logic -/

/-- Macro `ESP32_IP` of `smart_doorbell.c`. -/
def ESP32_IP : String := "192.168.4.1"

/-- Calls issued by section E, in program order. -/
inductive MotionCall where
  | camera_capture (ip : String)
  | camera_check_motion
  | udp_send (msg : String)
  | sleep (seconds : Nat)
  deriving DecidableEq, Repr

/-- What one pass through section E produced: the variable `last_motion_check`, the
static variables of `camera.c` and the calls issued. -/
structure MotionResult where
  last_motion_check : Int
  cam : CamState
  calls : List MotionCall
  deriving DecidableEq, Repr

/-- Section E of the loop body. `input_count` is the variable of section B as this tick
left it, `now` is what `current_ms()` returned, `capture` is the return value of
`camera_capture(ESP32_IP)` and `curr` is what `load_jpeg` returns inside
`camera_check_motion()`; the last two are consulted only where the code makes the
call. -/
def motion_step (input_count last_motion_check now capture : Int) (curr : Option Frame)
    (cam : CamState) : Option MotionResult :=
  if now - last_motion_check > 200 then
    if input_count = 0 then
      if capture = 0 then
        match camera_check_motion cam curr with
        | none => none
        | some (cam', true) =>
          some { last_motion_check := now, cam := cam',
                 calls := [MotionCall.camera_capture ESP32_IP, MotionCall.camera_check_motion,
                           MotionCall.udp_send "Motion Detected at Front Door",
                           MotionCall.sleep 5] }
        | some (cam', false) =>
          some { last_motion_check := now, cam := cam',
                 calls := [MotionCall.camera_capture ESP32_IP, MotionCall.camera_check_motion] }
      else
        some { last_motion_check := now, cam := cam,
               calls := [MotionCall.camera_capture ESP32_IP] }
    else some { last_motion_check := now, cam := cam, calls := [] }
  else some { last_motion_check := last_motion_check, cam := cam, calls := [] }

/-! ## LED driver (`hal/src/led.c`) -/

/-- Calls of the LED driver into the system: `write_led(path, value)`, which writes the
brightness file, and `nanosleep(&req, NULL)` with the two fields of `req`. -/
inductive HalCall where
  | write_led (path : String) (value : Int)
  | nanosleep (tv_sec tv_nsec : Int)
  deriving DecidableEq, Repr

/-- Constant `LED_RED_PATH` of `led.c`. -/
def LED_RED_PATH : String := "/sys/class/leds/PWR/brightness"

/-- Function `hal_led_red_on()`. -/
def hal_led_red_on : List HalCall := [HalCall.write_led LED_RED_PATH 1]

/-- Function `hal_led_red_off()`. -/
def hal_led_red_off : List HalCall := [HalCall.write_led LED_RED_PATH 0]

/-- The loop `for (int i = 0; i < n; ++i) { ... }` of `hal_led_flash_red_n_times`, with
`k` iterations left; `/` and `%` of C truncate toward zero. -/
def flash_red_loop (period_ms half_ms : Int) : Nat → List HalCall
  | 0 => []
  | k + 1 =>
    hal_led_red_on ++
    [HalCall.nanosleep (Int.tdiv half_ms 1000) (Int.tmod half_ms 1000 * 1000000)] ++
    hal_led_red_off ++
    [HalCall.nanosleep (Int.tdiv (period_ms - half_ms) 1000)
      (Int.tmod (period_ms - half_ms) 1000 * 1000000)] ++
    flash_red_loop period_ms half_ms k

/-- Function `hal_led_flash_red_n_times(n, total_ms)`. -/
def hal_led_flash_red_n_times (n total_ms : Int) : List HalCall :=
  if n ≤ 0 ∨ total_ms ≤ 0 then []
  else
    let period_ms := Int.tdiv total_ms n
    let half_ms := Int.tdiv period_ms 2
    flash_red_loop period_ms half_ms n.toNat

/-- The duration a call asks the system to sleep for, in nanoseconds. -/
def requested_ns : HalCall → Int
  | HalCall.nanosleep tv_sec tv_nsec => tv_sec * 1000000000 + tv_nsec
  | HalCall.write_led _ _ => 0

/-- The sum of all requested sleep durations of a call sequence, in nanoseconds. -/
def total_requested_ns (calls : List HalCall) : Int := (calls.map requested_ns).sum

/-- One red on/off cycle whose two sleeps ask for `on_ms` and `off_ms` milliseconds. -/
def red_cycle (on_ms off_ms : Int) : List HalCall :=
  [HalCall.write_led LED_RED_PATH 1,
   HalCall.nanosleep (on_ms / 1000) (on_ms % 1000 * 1000000),
   HalCall.write_led LED_RED_PATH 0,
   HalCall.nanosleep (off_ms / 1000) (off_ms % 1000 * 1000000)]

/-! ## Direction source (`hal/src/joystick.c`) -/

/-- Function `hal_joystick_read_raw(&xv, &yv)`: `bus ch` is the transfer the ADC answers
with on channel `ch`; `none` stands for the return value -1, `some (xv, yv)` for the
return value 0 with the two readings stored. -/
def hal_joystick_read_raw (spi_fd : Int) (bus : Int → SpiTransfer) : Option (Int × Int) :=
  if spi_fd < 0 then none
  else
    let xv := hal_spi_adc_read_ch spi_fd 6 (bus 6)
    let yv := hal_spi_adc_read_ch spi_fd 7 (bus 7)
    if xv < 0 ∨ yv < 0 then none else some (xv, yv)

/-- Function `hal_joystick_read_direction()`; `x_center`, `y_center` are the static
variables set by the calibration of `hal_joystick_init`. -/
def hal_joystick_read_direction (spi_fd x_center y_center : Int) (bus : Int → SpiTransfer) :
    joystick_dir_t :=
  match hal_joystick_read_raw spi_fd bus with
  | none => JOY_NONE
  | some (xv, yv) =>
    let threshold : Int := 1000
    let dx := xv - x_center
    let dy := yv - y_center
    let absdx := if dx < 0 then -dx else dx
    let absdy := if dy < 0 then -dy else dy
    if absdy > threshold ∧ absdy ≥ absdx then
      if dy > 0 then JOY_UP else JOY_DOWN
    else if absdx > threshold ∧ absdx > absdy then
      if dx > 0 then JOY_RIGHT else JOY_LEFT
    else JOY_NONE

/-! # Theorems -/

/-! ## PIN matcher -/

theorem pin_compare_loop_four (a b c d : joystick_dir_t) (rest : List joystick_dir_t) :
    pin_compare_loop (a :: b :: c :: d :: rest) PIN_LENGTH 0 true
      = some (decide ([a, b, c, d] = SECRET_PIN)) := by
  simp only [pin_compare_loop, SECRET_PIN, PIN_LENGTH, List.getElem?_cons_zero,
    List.getElem?_cons_succ]
  by_cases h1 : a = JOY_LEFT <;> by_cases h2 : b = JOY_LEFT <;> by_cases h3 : c = JOY_UP <;>
    by_cases h4 : d = JOY_DOWN <;> simp [h1, h2, h3, h4]

theorem pin_feed_holds (st : PinState) (p : List joystick_dir_t) (d : joystick_dir_t)
    (h : PinHolds st p) :
    ∃ r, pin_feed st d = some r ∧ PinHolds r.state (pin_push p d) ∧ r.outcome = pin_out p d := by
  obtain ⟨buf, cnt⟩ := st
  obtain ⟨hc, hl, hb, ht, hv⟩ := h
  simp only at hc hb ht
  subst hc
  match buf, hb with
  | [a, b, c, e], _ =>
    match p, hl, ht, hv with
    | [], _, _, _ =>
      cases d <;> simp [pin_feed, pin_push, pin_out, is_pin_symbol, PinHolds, PIN_LENGTH]
    | [x], _, ht, hv =>
      simp [is_pin_symbol] at ht hv; subst ht
      cases d <;> simp [pin_feed, pin_push, pin_out, is_pin_symbol, PinHolds, PIN_LENGTH, hv]
    | [x, y], _, ht, hv =>
      simp [is_pin_symbol] at ht hv
      obtain ⟨h1, h2⟩ := ht
      subst h1 h2
      cases d <;> simp [pin_feed, pin_push, pin_out, is_pin_symbol, PinHolds, PIN_LENGTH, hv]
    | [x, y, z], _, ht, hv =>
      simp [is_pin_symbol] at ht hv
      obtain ⟨h1, h2, h3⟩ := ht
      subst h1 h2 h3
      by_cases hd : is_pin_symbol d = true
      · have hd' : d ≠ JOY_NONE ∧ d ≠ JOY_CENTER := by simpa [is_pin_symbol] using hd
        have hcmp := pin_compare_loop_four a b c d []
        by_cases hs : [a, b, c, d] = SECRET_PIN
        · simp [hs, PIN_LENGTH] at hcmp
          simp [pin_feed, pin_push, pin_out, PinHolds, PIN_LENGTH, hd, hd', hcmp, hs]
          rfl
        · simp [hs, PIN_LENGTH] at hcmp
          simp [pin_feed, pin_push, pin_out, PinHolds, PIN_LENGTH, hd, hd', hcmp, hs]
      · have hd' : ¬ (d ≠ JOY_NONE ∧ d ≠ JOY_CENTER) := by simpa [is_pin_symbol] using hd
        simp [pin_feed, pin_push, pin_out, PinHolds, hd, hd', is_pin_symbol, hv]


theorem pin_feeds_holds (ds : List joystick_dir_t) :
    ∀ (st : PinState) (p : List joystick_dir_t), PinHolds st p →
      ∃ st', pin_feeds st ds = some (st', pin_outs p ds) ∧ PinHolds st' (pin_pending p ds) := by
  induction ds with
  | nil => intro st p h; exact ⟨st, rfl, h⟩
  | cons d ds ih =>
    intro st p h
    obtain ⟨r, hr, hh, ho⟩ := pin_feed_holds st p d h
    obtain ⟨st', hst', hh'⟩ := ih r.state (pin_push p d) hh
    exact ⟨st', by simp [pin_feeds, hr, hst', pin_outs, ho], hh'⟩

theorem pin_pending_snoc (ds : List joystick_dir_t) (d : joystick_dir_t) :
    ∀ p, pin_pending p (ds ++ [d]) = pin_push (pin_pending p ds) d := by
  induction ds with
  | nil => intro p; rfl
  | cons x ds ih => intro p; simp [pin_pending, ih]

theorem pin_outs_snoc (ds : List joystick_dir_t) (d : joystick_dir_t) :
    ∀ p, pin_outs p (ds ++ [d]) = pin_outs p ds ++ [pin_out (pin_pending p ds) d] := by
  induction ds with
  | nil => intro p; rfl
  | cons x ds ih => intro p; simp [pin_outs, pin_pending, ih]

theorem pin_outs_length (ds : List joystick_dir_t) :
    ∀ p, (pin_outs p ds).length = ds.length := by
  induction ds with
  | nil => intro p; rfl
  | cons x ds ih => intro p; simp [pin_outs, ih]

/-- The stored directions after a run from the empty buffer are the stored symbols
fed since the last multiple of four. -/
theorem pin_pending_eq (ds : List joystick_dir_t) :
    pin_pending [] ds = (ds.filter is_pin_symbol).drop
      ((ds.filter is_pin_symbol).length - (ds.filter is_pin_symbol).length % 4) := by
  induction ds using List.reverseRecOn with
  | nil => rfl
  | append_singleton ds d ih =>
    rw [pin_pending_snoc, ih]
    generalize hv : ds.filter is_pin_symbol = v
    have hlen : (v.drop (v.length - v.length % 4)).length = v.length % 4 := by
      rw [List.length_drop]; have := Nat.mod_le v.length 4; omega
    by_cases hd : is_pin_symbol d = true
    · simp only [List.filter_append, hv, pin_push, hd, if_true, List.filter_cons, List.filter_nil,
        List.length_append, List.length_singleton, hlen]
      have hm := Nat.mod_lt v.length (show 4 > 0 by decide)
      by_cases h3 : v.length % 4 = 3
      · have : (v.length + 1) % 4 = 0 := by omega
        simp [h3, this]
      · have h4 : (v.length + 1) % 4 = v.length % 4 + 1 := by omega
        have h5 : ¬ (v.length % 4 + 1 ≥ 4) := by omega
        have h6 : v.length + 1 - (v.length % 4 + 1) = v.length - v.length % 4 := by omega
        have h7 : v.length - v.length % 4 ≤ v.length := Nat.sub_le _ _
        simp only [h5, if_false, h4, h6]
        rw [List.drop_append_of_le_length h7]
    · simp [List.filter_append, hv, pin_push, hd]

theorem pin_holds_init (buf : List joystick_dir_t) (h : buf.length = PIN_LENGTH) :
    PinHolds { input_buffer := buf, input_count := 0 } [] := by
  simp [PinHolds, PIN_LENGTH] at *; exact h

theorem pin_reachable_holds (st : PinState) (h : PinReachable st) : ∃ p, PinHolds st p := by
  induction h with
  | init buf hb => exact ⟨[], pin_holds_init buf hb⟩
  | tick st dir r _ hr ih =>
    obtain ⟨p, hp⟩ := ih
    obtain ⟨r', hr', hh, -⟩ := pin_feed_holds st p dir hp
    rw [hr] at hr'
    cases hr'
    exact ⟨_, hh⟩

/-- Four stored directions fed to an empty four-element buffer: no decision on the
first three ticks, an exact comparison with `SECRET_PIN` on the fourth. -/
theorem pin_fresh_attempt (buf : List joystick_dir_t) (d1 d2 d3 d4 : joystick_dir_t)
    (h : buf.length = PIN_LENGTH)
    (h1 : is_pin_symbol d1 = true) (h2 : is_pin_symbol d2 = true)
    (h3 : is_pin_symbol d3 = true) (h4 : is_pin_symbol d4 = true) :
    pin_feeds { input_buffer := buf, input_count := 0 } [d1, d2, d3, d4] =
      some ({ input_buffer := [d1, d2, d3, d4], input_count := 0 },
        [none, none, none,
          some (if [d1, d2, d3, d4] = SECRET_PIN then Outcome.Granted else Outcome.Denied)]) := by
  match buf, h with
  | [a, b, c, e], _ =>
    have g1 : d1 ≠ JOY_NONE ∧ d1 ≠ JOY_CENTER := by simpa [is_pin_symbol] using h1
    have g2 : d2 ≠ JOY_NONE ∧ d2 ≠ JOY_CENTER := by simpa [is_pin_symbol] using h2
    have g3 : d3 ≠ JOY_NONE ∧ d3 ≠ JOY_CENTER := by simpa [is_pin_symbol] using h3
    have g4 : d4 ≠ JOY_NONE ∧ d4 ≠ JOY_CENTER := by simpa [is_pin_symbol] using h4
    have hcmp := pin_compare_loop_four d1 d2 d3 d4 []
    simp only [PIN_LENGTH] at hcmp
    by_cases hs : [d1, d2, d3, d4] = SECRET_PIN
    · simp only [hs, decide_True] at hcmp
      simp [pin_feeds, pin_feed, g1, g2, g3, g4, PIN_LENGTH, hcmp, hs]
    · simp only [hs, decide_False] at hcmp
      simp [pin_feeds, pin_feed, g1, g2, g3, g4, PIN_LENGTH, hcmp, hs]

/-- C1, as stated, fails: after `[Up, Left, Left, Up, Down]` the most recent four stored
directions are `SECRET_PIN`, yet the last tick takes no decision, because the buffer
was cleared by the comparison on the fourth tick. -/
theorem pin_sliding_window_counterexample :
    ¬ (pin_last_outcome { input_buffer := [JOY_NONE, JOY_NONE, JOY_NONE, JOY_NONE], input_count := 0 }
          [JOY_UP, JOY_LEFT, JOY_LEFT, JOY_UP, JOY_DOWN] = some Outcome.Granted
        ↔ recent4 [JOY_UP, JOY_LEFT, JOY_LEFT, JOY_UP, JOY_DOWN] = SECRET_PIN) := by
  decide

/-- C1 (amended): for every sequence of directions fed one per tick from an empty
buffer, the run is defined, and the last tick produces `Granted` if and only if the
last direction is a stored one (neither None nor Center), the number of stored
directions of the sequence is a multiple of four, and the most recent four of them
equal `SECRET_PIN` in order. -/
theorem pin_granted_iff (buf : List joystick_dir_t) (ds : List joystick_dir_t)
    (h : buf.length = PIN_LENGTH) :
    (pin_feeds { input_buffer := buf, input_count := 0 } ds).isSome = true ∧
    (pin_last_outcome { input_buffer := buf, input_count := 0 } ds = some Outcome.Granted ↔
      (∃ d, ds.getLast? = some d ∧ is_pin_symbol d = true) ∧
      4 ∣ (ds.filter is_pin_symbol).length ∧ recent4 ds = SECRET_PIN) := by
  obtain ⟨st', hrun, -⟩ := pin_feeds_holds ds _ [] (pin_holds_init buf h)
  refine ⟨by simp [hrun], ?_⟩
  simp only [pin_last_outcome, hrun]
  induction ds using List.reverseRecOn with
  | nil => simp [pin_outs]
  | append_singleton ds d _ =>
    rw [pin_outs_snoc, pin_pending_eq]
    simp only [List.getLast?_append, List.getLast?_singleton, Option.join,
      Option.bind_some, id, recent4, List.filter_append]
    generalize hv : ds.filter is_pin_symbol = v
    have hm := Nat.mod_lt v.length (show 4 > 0 by decide)
    have hlen : (v.drop (v.length - v.length % 4)).length = v.length % 4 := by
      rw [List.length_drop]; have := Nat.mod_le v.length 4; omega
    by_cases hd : is_pin_symbol d = true
    · by_cases h3 : v.length % 4 = 3
      · have h6 : v.length + 1 - 4 = v.length - v.length % 4 := by omega
        have h7 : v.length - v.length % 4 ≤ v.length := Nat.sub_le _ _
        have h8 : 4 ∣ v.length + 1 := by omega
        have h9 : (v.drop (v.length - v.length % 4)).length + 1 ≥ 4 := by omega
        simp only [pin_out, hd, h9, and_self, if_true, List.filter_cons, List.filter_nil,
          List.length_append, List.length_singleton, h6, List.drop_append_of_le_length h7, h8,
          true_and, Option.some.injEq, exists_eq_left']
        by_cases hs : v.drop (v.length - v.length % 4) ++ [d] = SECRET_PIN <;> simp [hs, hd]
      · have h8 : ¬ 4 ∣ v.length + 1 := by omega
        have h9 : ¬ (v.drop (v.length - v.length % 4)).length + 1 ≥ 4 := by omega
        have h10 : ¬ (3 ≤ v.length - (v.length - v.length % 4)) := by omega
        simp [pin_out, hd, h9, h8, h10]
    · simp [pin_out, hd]


/-- Witness of `pin_granted_iff` on `[Left, Left, Up, Down]`. -/
theorem pin_granted_iff_witness :
    [JOY_UP, JOY_UP, JOY_UP, JOY_UP].length = PIN_LENGTH ∧
    ((pin_feeds { input_buffer := [JOY_UP, JOY_UP, JOY_UP, JOY_UP], input_count := 0 }
        [JOY_LEFT, JOY_LEFT, JOY_UP, JOY_DOWN]).isSome = true ∧
     (pin_last_outcome { input_buffer := [JOY_UP, JOY_UP, JOY_UP, JOY_UP], input_count := 0 }
        [JOY_LEFT, JOY_LEFT, JOY_UP, JOY_DOWN] = some Outcome.Granted ↔
      (∃ d, [JOY_LEFT, JOY_LEFT, JOY_UP, JOY_DOWN].getLast? = some d ∧ is_pin_symbol d = true) ∧
      4 ∣ ([JOY_LEFT, JOY_LEFT, JOY_UP, JOY_DOWN].filter is_pin_symbol).length ∧
      recent4 [JOY_LEFT, JOY_LEFT, JOY_UP, JOY_DOWN] = SECRET_PIN)) :=
  ⟨by decide, pin_granted_iff _ _ (by decide)⟩

/-- C2: starting from an empty PinBuffer, four non-None/non-Center directions fed in
order produce no outcome on the first three feeds, and on the fourth feed `Granted` if
the four directions are exactly `[Left, Left, Up, Down]` and `Denied` otherwise; the
buffer is empty again afterwards. -/
theorem pin_exact_comparison (buf : List joystick_dir_t) (d1 d2 d3 d4 : joystick_dir_t)
    (h : buf.length = PIN_LENGTH)
    (h1 : d1 ≠ JOY_NONE ∧ d1 ≠ JOY_CENTER) (h2 : d2 ≠ JOY_NONE ∧ d2 ≠ JOY_CENTER)
    (h3 : d3 ≠ JOY_NONE ∧ d3 ≠ JOY_CENTER) (h4 : d4 ≠ JOY_NONE ∧ d4 ≠ JOY_CENTER) :
    ∃ st, pin_feeds { input_buffer := buf, input_count := 0 } [d1, d2, d3, d4] =
        some (st, [none, none, none,
          some (if [d1, d2, d3, d4] = [JOY_LEFT, JOY_LEFT, JOY_UP, JOY_DOWN]
                then Outcome.Granted else Outcome.Denied)]) ∧
      st.input_count = 0 :=
  ⟨_, pin_fresh_attempt buf d1 d2 d3 d4 h (by simpa [is_pin_symbol] using h1)
    (by simpa [is_pin_symbol] using h2) (by simpa [is_pin_symbol] using h3)
    (by simpa [is_pin_symbol] using h4), rfl⟩

/-- Witness of `pin_exact_comparison`: `[Left, Left, Up, Down]` is granted and
`[Left, Left, Up, Up]` is denied. -/
theorem pin_exact_comparison_witness :
    (∃ st, pin_feeds { input_buffer := [JOY_NONE, JOY_NONE, JOY_NONE, JOY_NONE], input_count := 0 }
        [JOY_LEFT, JOY_LEFT, JOY_UP, JOY_DOWN] =
        some (st, [none, none, none, some Outcome.Granted]) ∧ st.input_count = 0) ∧
    (∃ st, pin_feeds { input_buffer := [JOY_NONE, JOY_NONE, JOY_NONE, JOY_NONE], input_count := 0 }
        [JOY_LEFT, JOY_LEFT, JOY_UP, JOY_UP] =
        some (st, [none, none, none, some Outcome.Denied]) ∧ st.input_count = 0) :=
  ⟨pin_exact_comparison [JOY_NONE, JOY_NONE, JOY_NONE, JOY_NONE] JOY_LEFT JOY_LEFT JOY_UP JOY_DOWN
      (by decide) (by decide) (by decide) (by decide) (by decide),
   pin_exact_comparison [JOY_NONE, JOY_NONE, JOY_NONE, JOY_NONE] JOY_LEFT JOY_LEFT JOY_UP JOY_UP
      (by decide) (by decide) (by decide) (by decide) (by decide)⟩

/-- Whenever section B takes a decision it stores `input_count = 0` and leaves the
buffer with as many cells as before. -/
theorem pin_feed_outcome_state (st : PinState) (dir : joystick_dir_t) (r : PinResult)
    (h : pin_feed st dir = some r) (ho : r.outcome ≠ none) :
    r.state.input_count = 0 ∧ r.state.input_buffer.length = st.input_buffer.length := by
  unfold pin_feed at h
  split at h
  · split at h
    · simp only at h
      split at h
      · split at h
        · cases h; simp
        · cases h; simp
        · cases h
      · cases h; simp at ho
    · cases h
  · cases h; simp at ho

/-- C3: for every PIN Matcher state and every fed direction, if the feed produces an
outcome then `input_count` is 0 immediately afterwards, and (the buffer being the
four-element array) the next four non-None/non-Center directions are judged on their
own: no outcome on the first three, `Granted` or `Denied` on the fourth by exact
comparison with `SECRET_PIN`. -/
theorem pin_outcome_clears_buffer (st : PinState) (dir : joystick_dir_t) (r : PinResult)
    (h : pin_feed st dir = some r) (ho : r.outcome ≠ none) :
    r.state.input_count = 0 ∧
    (st.input_buffer.length = PIN_LENGTH →
      ∀ d1 d2 d3 d4 : joystick_dir_t,
        is_pin_symbol d1 = true → is_pin_symbol d2 = true →
        is_pin_symbol d3 = true → is_pin_symbol d4 = true →
        pin_feeds r.state [d1, d2, d3, d4] =
          some ({ input_buffer := [d1, d2, d3, d4], input_count := 0 },
            [none, none, none,
              some (if [d1, d2, d3, d4] = SECRET_PIN then Outcome.Granted
                    else Outcome.Denied)])) := by
  obtain ⟨hc, hl⟩ := pin_feed_outcome_state st dir r h ho
  refine ⟨hc, ?_⟩
  intro hlen d1 d2 d3 d4 h1 h2 h3 h4
  have hst : r.state = { input_buffer := r.state.input_buffer, input_count := 0 } := by
    rw [← hc]
  rw [hst]
  exact pin_fresh_attempt _ d1 d2 d3 d4 (by rw [hl, hlen]) h1 h2 h3 h4

/-- Witness of `pin_outcome_clears_buffer`: the fourth direction of a wrong PIN. -/
theorem pin_outcome_clears_buffer_witness :
    ({ state := { input_buffer := [JOY_LEFT, JOY_LEFT, JOY_UP, JOY_UP], input_count := 0 },
       outcome := some Outcome.Denied,
       actions := [Action.hal_led_red_off, Action.hal_led_green_on, Action.usleep 100000,
         Action.hal_led_green_off, Action.hal_led_red_on,
         Action.hal_joystick_wait_until_released, Action.sound_play_incorrect,
         Action.hal_led_flash_red_n_times 3 500] } : PinResult).state.input_count = 0 ∧
    ([JOY_LEFT, JOY_LEFT, JOY_UP, JOY_NONE].length = PIN_LENGTH →
      ∀ d1 d2 d3 d4 : joystick_dir_t,
        is_pin_symbol d1 = true → is_pin_symbol d2 = true →
        is_pin_symbol d3 = true → is_pin_symbol d4 = true →
        pin_feeds { input_buffer := [JOY_LEFT, JOY_LEFT, JOY_UP, JOY_UP], input_count := 0 }
            [d1, d2, d3, d4] =
          some ({ input_buffer := [d1, d2, d3, d4], input_count := 0 },
            [none, none, none,
              some (if [d1, d2, d3, d4] = SECRET_PIN then Outcome.Granted
                    else Outcome.Denied)])) :=
  pin_outcome_clears_buffer
    { input_buffer := [JOY_LEFT, JOY_LEFT, JOY_UP, JOY_NONE], input_count := 3 } JOY_UP _
    (by decide) (by decide)

/-- C4: in every reachable state of section B, at the top of a tick,
`0 ≤ input_count ≤ 3` and the buffer has its four cells, every stored element
(index below `input_count`) is one of Up/Down/Left/Right, the write
`input_buffer[input_count++] = dir` of a stored direction is inside the buffer, and
feeding None or Center leaves buffer and count unchanged, produces no outcome and
calls no actuator. -/
theorem pin_buffer_invariant (st : PinState) (h : PinReachable st) :
    (0 ≤ st.input_count ∧ st.input_count ≤ 3) ∧
    st.input_buffer.length = PIN_LENGTH ∧
    (∀ i : Nat, (i : Int) < st.input_count →
      ∃ x, st.input_buffer[i]? = some x ∧
        (x = JOY_UP ∨ x = JOY_DOWN ∨ x = JOY_LEFT ∨ x = JOY_RIGHT)) ∧
    (∀ dir, dir ≠ JOY_NONE ∧ dir ≠ JOY_CENTER →
      st.input_count.toNat < st.input_buffer.length ∧ ∃ r, pin_feed st dir = some r) ∧
    (∀ dir, dir = JOY_NONE ∨ dir = JOY_CENTER →
      pin_feed st dir = some { state := st, outcome := none, actions := [] }) := by
  obtain ⟨p, hp⟩ := pin_reachable_holds st h
  have hp' := hp
  obtain ⟨hc, hl, hb, ht, hv⟩ := hp
  refine ⟨⟨by omega, by omega⟩, hb, ?_, ?_, ?_⟩
  · intro i hi
    have hip : i < p.length := by omega
    have hx : p[i]? = some p[i] := List.getElem?_eq_getElem hip
    refine ⟨p[i], ?_, ?_⟩
    · rw [← hx, ← ht, List.getElem?_take_of_lt hip]
    · have := hv p[i] (List.getElem_mem hip)
      revert this
      cases p[i] <;> simp [is_pin_symbol]
  · intro dir _
    obtain ⟨r, hr, -, -⟩ := pin_feed_holds st p dir hp'
    exact ⟨by omega, r, hr⟩
  · intro dir hdir
    rcases hdir with rfl | rfl <;> simp [pin_feed]

/-- Witness of `pin_buffer_invariant`: the state after two stored directions. -/
theorem pin_buffer_invariant_witness :
    PinReachable { input_buffer := [JOY_LEFT, JOY_UP, JOY_NONE, JOY_NONE], input_count := 2 } ∧
    ((0 ≤ (2 : Int) ∧ (2 : Int) ≤ 3) ∧
     [JOY_LEFT, JOY_UP, JOY_NONE, JOY_NONE].length = PIN_LENGTH ∧
     (∀ i : Nat, (i : Int) < 2 →
       ∃ x, [JOY_LEFT, JOY_UP, JOY_NONE, JOY_NONE][i]? = some x ∧
         (x = JOY_UP ∨ x = JOY_DOWN ∨ x = JOY_LEFT ∨ x = JOY_RIGHT)) ∧
     (∀ dir, dir ≠ JOY_NONE ∧ dir ≠ JOY_CENTER →
       (2 : Int).toNat < [JOY_LEFT, JOY_UP, JOY_NONE, JOY_NONE].length ∧
       ∃ r, pin_feed { input_buffer := [JOY_LEFT, JOY_UP, JOY_NONE, JOY_NONE], input_count := 2 }
         dir = some r) ∧
     (∀ dir, dir = JOY_NONE ∨ dir = JOY_CENTER →
       pin_feed { input_buffer := [JOY_LEFT, JOY_UP, JOY_NONE, JOY_NONE], input_count := 2 } dir =
         some { state := { input_buffer := [JOY_LEFT, JOY_UP, JOY_NONE, JOY_NONE],
                           input_count := 2 },
                outcome := none, actions := [] })) :=
  have hr : PinReachable
      { input_buffer := [JOY_LEFT, JOY_UP, JOY_NONE, JOY_NONE], input_count := 2 } :=
    PinReachable.tick { input_buffer := [JOY_LEFT, JOY_NONE, JOY_NONE, JOY_NONE], input_count := 1 }
      JOY_UP
      { state := { input_buffer := [JOY_LEFT, JOY_UP, JOY_NONE, JOY_NONE], input_count := 2 },
        outcome := none,
        actions := [Action.hal_led_red_off, Action.hal_led_green_on, Action.usleep 100000,
          Action.hal_led_green_off, Action.hal_led_red_on,
          Action.hal_joystick_wait_until_released] }
      (PinReachable.tick
        { input_buffer := [JOY_NONE, JOY_NONE, JOY_NONE, JOY_NONE], input_count := 0 }
        JOY_LEFT
        { state := { input_buffer := [JOY_LEFT, JOY_NONE, JOY_NONE, JOY_NONE], input_count := 1 },
          outcome := none,
          actions := [Action.hal_led_red_off, Action.hal_led_green_on, Action.usleep 100000,
            Action.hal_led_green_off, Action.hal_led_red_on,
            Action.hal_joystick_wait_until_released] }
        (PinReachable.init _ (by decide)) (by decide))
      (by decide)
  ⟨hr, pin_buffer_invariant _ hr⟩

/-! ## RFID matcher -/

theorem strlen_token (token rest : List Nat) (hz : ∀ b ∈ token, b ≠ 0) :
    strlen (token ++ 0 :: rest) = some token.length := by
  induction token with
  | nil => simp [strlen]
  | cons a t ih =>
    have ha : a ≠ 0 := hz a (List.mem_cons_self _ _)
    have ht : ∀ b ∈ t, b ≠ 0 := fun b hb => hz b (List.mem_cons_of_mem _ hb)
    simp [strlen, ha, ih ht]

theorem strcmp_token (token : List Nat) (hz : ∀ b ∈ token, b ≠ 0) :
    ∀ (key rest : List Nat), (∀ b ∈ key, b ≠ 0) →
      ∃ c, strcmp (token ++ 0 :: rest) (key ++ [0]) = some c ∧ (c = 0 ↔ token = key) := by
  induction token with
  | nil =>
    intro key rest hk
    cases key with
    | nil => exact ⟨0, by simp [strcmp], by simp⟩
    | cons k ks =>
      have hk0 : k ≠ 0 := hk k (List.mem_cons_self _ _)
      refine ⟨(0 : Int) - (k : Int), by simp [strcmp, hk0, Ne.symm hk0], ?_⟩
      constructor
      · intro h; omega
      · intro h; cases h
  | cons a t ih =>
    intro key rest hk
    have ha : a ≠ 0 := hz a (List.mem_cons_self _ _)
    have ht : ∀ b ∈ t, b ≠ 0 := fun b hb => hz b (List.mem_cons_of_mem _ hb)
    cases key with
    | nil =>
      refine ⟨(a : Int) - 0, by simp [strcmp, ha], ?_⟩
      constructor
      · intro h; omega
      · intro h; cases h
    | cons k ks =>
      have hks : ∀ b ∈ ks, b ≠ 0 := fun b hb => hk b (List.mem_cons_of_mem _ hb)
      by_cases hak : a = k
      · subst hak
        obtain ⟨c, hc, hiff⟩ := ih ht ks rest hks
        exact ⟨c, by simp [strcmp, ha, hc], by simp [hiff]⟩
      · refine ⟨(a : Int) - (k : Int), by simp [strcmp, hak], ?_⟩
        constructor
        · intro h; omega
        · intro h; cases h; exact absurd rfl hak

theorem rfid_check_token (token rest : List Nat) (hz : ∀ b ∈ token, b ≠ 0) :
    rfid_check (token ++ 0 :: rest) =
      some (rfid_decision token) := by
  unfold rfid_decision
  obtain ⟨c, hc, hiff⟩ := strcmp_token token hz SECRET_TAG rest (by decide)
  have hkey : RFID_SECRET_KEY = SECRET_TAG ++ [0] := rfl
  by_cases hne : token = []
  · subst hne; simp [rfid_check, strlen]
  · have hpos : token.length > 0 := List.length_pos.mpr hne
    by_cases ht : token = SECRET_TAG
    · have hc0 : c = 0 := hiff.mpr ht
      subst hc0
      subst ht
      have hl := strlen_token SECRET_TAG rest hz
      simp only [rfid_check, hl, hkey, hc]
      simp [SECRET_TAG]
    · have hc0 : c ≠ 0 := fun h => ht (hiff.mp h)
      simp [rfid_check, strlen_token token rest hz, hpos, hkey, hc, hne, ht, hc0]



theorem token_of_no_nul (chunk : List Nat) : ∀ b ∈ token_of chunk, b ≠ 0 := by
  intro b hb
  have := List.mem_takeWhile_imp hb
  simp [is_token_byte] at this
  exact this.1

theorem strcspn_chunk (got rest : List Nat) :
    strcspn (got ++ 0 :: rest) [0x0D, 0x0A] = some (token_of got).length := by
  induction got with
  | nil => simp [strcspn, token_of]
  | cons a t ih =>
    by_cases ha : is_token_byte a = true
    · have h2 : ¬ (a = 0 ∨ a ∈ [0x0D, 0x0A]) := by
        simp [is_token_byte] at ha; simp; omega
      simp only [token_of] at ih
      simp only [List.cons_append, strcspn, h2, if_false, List.append_eq, ih, token_of, List.takeWhile_cons,
        ha, if_true, Option.map_some', List.length_cons]
    · have h2 : a = 0 ∨ a ∈ [0x0D, 0x0A] := by
        simp [is_token_byte] at ha; simp; omega
      simp only [List.cons_append, strcspn, h2, if_true, token_of, List.takeWhile_cons, ha,
        List.length_nil]
      rfl

theorem set_token (got rest : List Nat) :
    ∃ tail, (got ++ 0 :: rest).set (token_of got).length 0 = token_of got ++ 0 :: tail := by
  induction got with
  | nil => exact ⟨rest, by simp [token_of]⟩
  | cons a t ih =>
    by_cases h1 : is_token_byte a = true
    · obtain ⟨tail, ht⟩ := ih
      refine ⟨tail, ?_⟩
      simp only [token_of] at ht
      simp [token_of, List.takeWhile_cons, h1, ht]
    · exact ⟨t ++ 0 :: rest, by simp [token_of, List.takeWhile_cons, h1]⟩

/-- Section C on a chunk of received bytes: the buffer ends up holding the token of the
chunk as a C string, and the decision is the one of the token. -/
theorem rfid_step_bytes (uart_fd : Int) (rfid_buffer chunk : List Nat) (hfd : uart_fd ≠ -1)
    (hne : chunk.take (rfid_buffer.length - 1) ≠ []) :
    ∃ tail, rfid_step uart_fd rfid_buffer (UartRead.bytes chunk) =
      some { rfid_buffer := token_of (chunk.take (rfid_buffer.length - 1)) ++ 0 :: tail,
             outcome := (rfid_decision (token_of (chunk.take (rfid_buffer.length - 1)))).1,
             actions := (rfid_decision (token_of (chunk.take (rfid_buffer.length - 1)))).2 } := by
  generalize hg : chunk.take (rfid_buffer.length - 1) = got at hne ⊢
  have hgl : got.length ≤ rfid_buffer.length - 1 := by
    rw [← hg, List.length_take]; exact Nat.min_le_left _ _
  have hpos : 0 < got.length := List.length_pos.mpr hne
  have hlt : got.length < rfid_buffer.length := by omega
  have hdrop : (rfid_buffer.drop got.length).length > 0 := by
    rw [List.length_drop]; omega
  match hd : rfid_buffer.drop got.length, hdrop with
  | x :: rest, _ =>
    obtain ⟨tail, htail⟩ := set_token got rest
    refine ⟨tail, ?_⟩
    have hstore : store (got ++ x :: rest) got.length 0 = some (got ++ 0 :: rest) := by
      simp [store]
    have hstore2 : store (got ++ 0 :: rest) (token_of got).length 0
        = some (token_of got ++ 0 :: tail) := by
      have : (token_of got).length < (got ++ 0 :: rest).length := by
        have := (List.takeWhile_prefix is_token_byte (l := got)).length_le
        simp only [token_of, List.length_append, List.length_cons]
        omega
      simp only [store, this, if_true, htail]
    have hchk := rfid_check_token (token_of got) tail (token_of_no_nul got)
    have hbr : ((got.length : Int) > 0) := by omega
    simp only [rfid_step, hal_uart_read, hfd, if_false, hg, Nat.le_of_lt hlt, if_true, hd, hbr,
      Int.toNat_ofNat, hstore, strcspn_chunk, hstore2, hchk]


theorem token_of_take_nil (chunk : List Nat) (n : Nat) (h : token_of chunk = []) :
    token_of (chunk.take n) = [] := by
  cases chunk with
  | nil => simp [token_of]
  | cons a t =>
    cases n with
    | zero => simp [token_of]
    | succ n =>
      by_cases ha : is_token_byte a = true
      · simp [token_of, List.takeWhile_cons, ha] at h
      · simp [token_of, List.takeWhile_cons, ha]

/-- C5: for every non-empty token (a C string in `rfid_buffer`, whatever follows its
NUL), the RFID Matcher grants if and only if the token is byte-for-byte the secret tag
`5A5992`, whose bytes are the character codes of that text, and denies otherwise. -/
theorem rfid_exact_match (token rest : List Nat) (hz : ∀ b ∈ token, b ≠ 0)
    (hne : token ≠ []) :
    SECRET_TAG = "5A5992".toList.map Char.toNat ∧
    rfid_check (token ++ 0 :: rest) =
      some (if token = SECRET_TAG then (some Outcome.Granted, perform_unlock "RFID")
            else (some Outcome.Denied,
              [Action.sound_play_incorrect, Action.hal_led_flash_red_n_times 2 200])) := by
  refine ⟨by decide, ?_⟩
  rw [rfid_check_token token rest hz]
  simp [rfid_decision, hne]

/-- Witness of `rfid_exact_match`: the comparison is case-sensitive, `5A5992` is
granted and `5a5992` is denied. -/
theorem rfid_exact_match_witness :
    ("5A5992".toList.map Char.toNat ≠ [] ∧
      rfid_check ("5A5992".toList.map Char.toNat ++ 0 :: []) =
        some (some Outcome.Granted, perform_unlock "RFID")) ∧
    ("5a5992".toList.map Char.toNat ≠ [] ∧
      rfid_check ("5a5992".toList.map Char.toNat ++ 0 :: []) =
        some (some Outcome.Denied,
          [Action.sound_play_incorrect, Action.hal_led_flash_red_n_times 2 200])) :=
  ⟨⟨by decide, (rfid_exact_match ("5A5992".toList.map Char.toNat) [] (by decide) (by decide)).2⟩,
   ⟨by decide, (rfid_exact_match ("5a5992".toList.map Char.toNat) [] (by decide) (by decide)).2⟩⟩

/-- C6: whenever `hal_uart_read` returns no bytes (a return value of 0 or -1), or the
received chunk has an empty token (it is empty or starts with carriage return, line
feed or NUL), section C takes no decision and calls no actuator: no sound, no LED, no
notification. -/
theorem rfid_no_decision (uart_fd : Int) (rfid_buffer : List Nat) (rd : UartRead)
    (h : (∃ buf n, hal_uart_read uart_fd rfid_buffer (rfid_buffer.length - 1) rd = some (buf, n)
            ∧ n ≤ 0) ∨
         (∃ chunk, rd = UartRead.bytes chunk ∧ token_of chunk = [])) :
    ∃ buf, rfid_step uart_fd rfid_buffer rd =
      some { rfid_buffer := buf, outcome := none, actions := [] } := by
  rcases h with ⟨buf, n, hread, hn⟩ | ⟨chunk, rfl, htok⟩
  · have hn' : ¬ n > 0 := by omega
    exact ⟨buf, by simp only [rfid_step, hread, hn', if_false]⟩
  · by_cases hfd : uart_fd = -1
    · exact ⟨rfid_buffer, by simp [rfid_step, hal_uart_read, hfd]⟩
    · by_cases hg : chunk.take (rfid_buffer.length - 1) = []
      · exact ⟨rfid_buffer, by simp [rfid_step, hal_uart_read, hfd, hg]⟩
      · obtain ⟨tail, ht⟩ := rfid_step_bytes uart_fd rfid_buffer chunk hfd hg
        rw [token_of_take_nil chunk _ htok] at ht
        exact ⟨_, ht⟩

/-- Witness of `rfid_no_decision`: nothing pending on the line, and a bare line end. -/
theorem rfid_no_decision_witness :
    (∃ buf, rfid_step 3 (List.replicate 64 0) UartRead.eagain =
      some { rfid_buffer := buf, outcome := none, actions := [] }) ∧
    (∃ buf, rfid_step 3 (List.replicate 64 0) (UartRead.bytes [0x0D, 0x0A]) =
      some { rfid_buffer := buf, outcome := none, actions := [] }) :=
  ⟨rfid_no_decision 3 (List.replicate 64 0) UartRead.eagain
      (Or.inl ⟨List.replicate 64 0, 0, by decide, by decide⟩),
   rfid_no_decision 3 (List.replicate 64 0) (UartRead.bytes [0x0D, 0x0A])
      (Or.inr ⟨[0x0D, 0x0A], rfl, by decide⟩)⟩

/-! ## Tamper detector -/

/-- A result inside the range of `int` is held as it is. -/
theorem wrap_int_of_fits (v : Int) (h1 : -2147483648 ≤ v) (h2 : v ≤ 2147483647) :
    wrap_int v = v := by
  unfold wrap_int
  omega

/-- C `abs` away from `INT_MIN` is the absolute value. -/
theorem abs_int_of_fits (v : Int) (h1 : -2147483647 ≤ v) (h2 : v ≤ 2147483647) :
    abs_int v = |v| := by
  unfold abs_int
  split
  · rename_i h
    rw [wrap_int_of_fits (-v) (by omega) (by omega), abs_of_neg h]
  · rename_i h
    rw [abs_of_nonneg (by omega)]

/-- The delta of section D is the L1 distance whenever that distance fits in `int`. -/
theorem tamper_delta_eq (st : TamperState) (x y z : Int)
    (hfit : |x - st.last_x| + |y - st.last_y| + |z - st.last_z| ≤ 2147483647) :
    tamper_delta st x y z = |x - st.last_x| + |y - st.last_y| + |z - st.last_z| := by
  have hx0 := abs_nonneg (x - st.last_x)
  have hy0 := abs_nonneg (y - st.last_y)
  have hz0 := abs_nonneg (z - st.last_z)
  have hx := abs_le.mp (show |x - st.last_x| ≤ 2147483647 by omega)
  have hy := abs_le.mp (show |y - st.last_y| ≤ 2147483647 by omega)
  have hz := abs_le.mp (show |z - st.last_z| ≤ 2147483647 by omega)
  unfold tamper_delta
  rw [wrap_int_of_fits (x - st.last_x) (by omega) hx.2,
    wrap_int_of_fits (y - st.last_y) (by omega) hy.2,
    wrap_int_of_fits (z - st.last_z) (by omega) hz.2,
    abs_int_of_fits _ hx.1 hx.2, abs_int_of_fits _ hy.1 hy.2, abs_int_of_fits _ hz.1 hz.2,
    wrap_int_of_fits (|x - st.last_x| + |y - st.last_y|) (by omega) (by omega),
    wrap_int_of_fits _ (by omega) (by omega)]

/-- The L1 distance between two triples of ADC readings (0..4095, or -1 for a failed
read) fits in `int`. -/
theorem adc_distance_fits (st : TamperState) (x y z : Int)
    (hs : (-1 ≤ x ∧ x ≤ 4095) ∧ (-1 ≤ y ∧ y ≤ 4095) ∧ (-1 ≤ z ∧ z ≤ 4095))
    (hb : (-1 ≤ st.last_x ∧ st.last_x ≤ 4095) ∧ (-1 ≤ st.last_y ∧ st.last_y ≤ 4095) ∧
      (-1 ≤ st.last_z ∧ st.last_z ≤ 4095)) :
    |x - st.last_x| + |y - st.last_y| + |z - st.last_z| ≤ 2147483647 := by
  have hx : |x - st.last_x| ≤ 4096 := abs_le.mpr ⟨by omega, by omega⟩
  have hy : |y - st.last_y| ≤ 4096 := abs_le.mpr ⟨by omega, by omega⟩
  have hz : |z - st.last_z| ≤ 4096 := abs_le.mpr ⟨by omega, by omega⟩
  omega

theorem tamper_step_tamper (spi_fd : Int) (bus bus_settled : Int → SpiTransfer)
    (x0 y0 z0 : Int) (st : TamperState) :
    (tamper_step spi_fd bus bus_settled x0 y0 z0 st).tamper =
      tamper_check st (Accel_readXYZ spi_fd bus x0 y0 z0).1
        (Accel_readXYZ spi_fd bus x0 y0 z0).2.1 (Accel_readXYZ spi_fd bus x0 y0 z0).2.2 := by
  simp only [tamper_step, tamper_check]
  split <;> simp_all

/-- C7 (counterexample): the claim does not hold for every baseline and sample. With the
accelerometer not open the locals `x, y, z` are never written and hold whatever was
there; if that is `(2000000000, 2000000000, 0)` against the baseline `(0, 0, 0)`, the
L1 distance 4000000000 is above 1000 but does not fit in `int`: the delta the code
computes is `-294967296`, no tamper is reported and the values are taken for the new
baseline. -/
theorem tamper_overflow_counterexample :
    |(2000000000 : Int) - 0| + |(2000000000 : Int) - 0| + |(0 : Int) - 0| > 1000 ∧
    tamper_delta { last_x := 0, last_y := 0, last_z := 0 } 2000000000 2000000000 0 =
      -294967296 ∧
    tamper_check { last_x := 0, last_y := 0, last_z := 0 } 2000000000 2000000000 0 = false ∧
    Accel_readXYZ (-1) (fun _ => { ret := 1, rx1 := 0, rx2 := 0 }) 2000000000 2000000000 0 =
      (2000000000, 2000000000, 0) ∧
    tamper_step (-1) (fun _ => { ret := 1, rx1 := 0, rx2 := 0 })
        (fun _ => { ret := 1, rx1 := 0, rx2 := 0 }) 2000000000 2000000000 0
        { last_x := 0, last_y := 0, last_z := 0 } =
      { state := { last_x := 2000000000, last_y := 2000000000, last_z := 0 },
        tamper := false, actions := [Action.Accel_readXYZ] } ∧
    ¬ (tamper_check { last_x := 0, last_y := 0, last_z := 0 } 2000000000 2000000000 0 = true ↔
      |(2000000000 : Int) - 0| + |(2000000000 : Int) - 0| + |(0 : Int) - 0| > 1000) := by
  have hd : |(2000000000 : Int) - 0| + |(2000000000 : Int) - 0| + |(0 : Int) - 0| > 1000 := by
    norm_num
  have hc : tamper_check { last_x := 0, last_y := 0, last_z := 0 } 2000000000 2000000000 0
      = false := by decide
  refine ⟨hd, by decide, hc, by decide, by decide, ?_⟩
  intro h
  have := h.mpr hd
  rw [hc] at this
  cases this

/-- C7 (amended): for every baseline and sample whose L1 distance
`|x-last_x| + |y-last_y| + |z-last_z|` fits in `int` (it does for all ADC readings,
0..4095 or -1), the tamper detector, and section D of the loop on the sample it read,
reports tamper if and only if that distance is above 1000, strictly; a sample equal to
the baseline never reports tamper, a sample at L1 distance exactly 1000 does not, one
at distance 1001 does. -/
theorem tamper_threshold_strict (st : TamperState) (x y z : Int) :
    (|x - st.last_x| + |y - st.last_y| + |z - st.last_z| ≤ 2147483647 →
      (tamper_check st x y z = true ↔
        |x - st.last_x| + |y - st.last_y| + |z - st.last_z| > 1000) ∧
      (∀ (spi_fd : Int) (bus bus_settled : Int → SpiTransfer) (x0 y0 z0 : Int),
        Accel_readXYZ spi_fd bus x0 y0 z0 = (x, y, z) →
        ((tamper_step spi_fd bus bus_settled x0 y0 z0 st).tamper = true ↔
          |x - st.last_x| + |y - st.last_y| + |z - st.last_z| > 1000))) ∧
    (((-1 ≤ x ∧ x ≤ 4095) ∧ (-1 ≤ y ∧ y ≤ 4095) ∧ (-1 ≤ z ∧ z ≤ 4095)) →
      ((-1 ≤ st.last_x ∧ st.last_x ≤ 4095) ∧ (-1 ≤ st.last_y ∧ st.last_y ≤ 4095) ∧
        (-1 ≤ st.last_z ∧ st.last_z ≤ 4095)) →
      |x - st.last_x| + |y - st.last_y| + |z - st.last_z| ≤ 2147483647) ∧
    tamper_check st st.last_x st.last_y st.last_z = false ∧
    (|x - st.last_x| + |y - st.last_y| + |z - st.last_z| = 1000 →
      tamper_check st x y z = false) ∧
    (|x - st.last_x| + |y - st.last_y| + |z - st.last_z| = 1001 →
      tamper_check st x y z = true) := by
  have key : |x - st.last_x| + |y - st.last_y| + |z - st.last_z| ≤ 2147483647 →
      (tamper_check st x y z = true ↔
        |x - st.last_x| + |y - st.last_y| + |z - st.last_z| > 1000) := by
    intro hfit
    simp [tamper_check, tamper_delta_eq st x y z hfit, TAMPER_THRESHOLD]
  refine ⟨?_, adc_distance_fits st x y z, ?_, ?_, ?_⟩
  · intro hfit
    refine ⟨key hfit, ?_⟩
    intro spi_fd bus bus_settled x0 y0 z0 hread
    rw [tamper_step_tamper, hread]
    exact key hfit
  · have h0 : tamper_delta st st.last_x st.last_y st.last_z = 0 := by
      rw [tamper_delta_eq st _ _ _ (by simp)]
      simp
    simp [tamper_check, h0, TAMPER_THRESHOLD]
  · intro h
    have : ¬ (tamper_check st x y z = true) := by rw [key (by omega), h]; decide
    simpa using this
  · intro h
    rw [key (by omega), h]; decide

/-- Witness of `tamper_threshold_strict`: from the baseline `(2000, 2000, 2000)` the
sample `(2400, 1700, 2300)` is at distance exactly 1000 and the sample
`(2400, 1700, 2301)` at distance 1001; both distances fit in `int`. -/
theorem tamper_threshold_strict_witness :
    (|(2400 : Int) - 2000| + |(1700 : Int) - 2000| + |(2301 : Int) - 2000| ≤ 2147483647 ∧
      (tamper_check { last_x := 2000, last_y := 2000, last_z := 2000 } 2400 1700 2301 = true ↔
        |(2400 : Int) - 2000| + |(1700 : Int) - 2000| + |(2301 : Int) - 2000| > 1000)) ∧
    tamper_check { last_x := 2000, last_y := 2000, last_z := 2000 } 2400 1700 2300 = false ∧
    tamper_check { last_x := 2000, last_y := 2000, last_z := 2000 } 2400 1700 2301 = true :=
  ⟨⟨by decide,
    ((tamper_threshold_strict { last_x := 2000, last_y := 2000, last_z := 2000 }
      2400 1700 2301).1 (by decide)).1⟩,
   (tamper_threshold_strict { last_x := 2000, last_y := 2000, last_z := 2000 }
      2400 1700 2300).2.2.2.1 (by decide),
   (tamper_threshold_strict { last_x := 2000, last_y := 2000, last_z := 2000 }
      2400 1700 2301).2.2.2.2 (by decide)⟩

/-- No changed pixel never exceeds the ratio threshold, whatever the pixel count. -/
theorem motion_verdict_zero (pixels : Nat) : motion_verdict 0 pixels = false := by
  have h0 : of_nat 24 0 = { m := 0, e := 0 } := by decide
  simp only [motion_verdict, h0]
  split
  · simp
  · simp [fdiv, fgt, round_to, bit_length, bit_length_aux]

/-- The loop over a background that agrees with the frame from index `i` on counts no
changed pixel. -/
theorem motion_loop_same (curr : List Nat) (k : Nat) :
    ∀ (i : Nat) (bg : List Nat) (diff_count : Nat),
      i + 3 * k ≤ curr.length + 2 → (∀ j, i ≤ j → bg[j]? = curr[j]?) →
      ∃ bg', motion_loop curr k i bg diff_count = some (bg', diff_count) := by
  induction k with
  | zero => intro i bg dc _ _; exact ⟨bg, rfl⟩
  | succ k ih =>
    intro i bg dc hlen hsame
    have hi : i < curr.length := by omega
    have hc : curr[i]? = some curr[i] := List.getElem?_eq_getElem hi
    have hb : bg[i]? = some curr[i] := by rw [hsame i (Nat.le_refl i), hc]
    have hnext : ∀ j, i + 3 ≤ j → (bg.set i (blend curr[i] curr[i]))[j]? = curr[j]? := by
      intro j hj
      rw [List.getElem?_set_ne (by omega)]
      exact hsame j (by omega)
    obtain ⟨bg', hbg'⟩ := ih (i + 3) (bg.set i (blend curr[i] curr[i])) dc (by omega) hnext
    refine ⟨bg', ?_⟩
    simp only [motion_loop, hc, hb, sub_self, Int.natAbs_zero, PIXEL_THRESH]
    simpa using hbg'

/-- C9: whenever no background model exists (`bg_buffer` is `NULL`) or the width or
height of the new frame differs from `img_w`/`img_h`, `camera_check_motion` returns
false whatever the frame holds, and afterwards the background is exactly the new
frame and the stored dimensions are the frame's. -/
theorem camera_adopts_first_frame (st : CamState) (f : Frame)
    (h : st.bg_buffer = none ∨ f.w ≠ st.img_w ∨ f.h ≠ st.img_h) :
    camera_check_motion st (some f) =
      some ({ bg_buffer := some f.data, img_w := f.w, img_h := f.h }, false) := by
  unfold camera_check_motion
  cases hbg : st.bg_buffer with
  | none => rfl
  | some bg =>
    have h' : f.w ≠ st.img_w ∨ f.h ≠ st.img_h := by
      rcases h with h | h
      · rw [hbg] at h; cases h
      · exact h
    simp only [h', if_true]

/-- Witness of `camera_adopts_first_frame`: a 1x2 frame replaces a 1x1 background. -/
theorem camera_adopts_first_frame_witness :
    ((some [7, 7, 7] : Option (List Nat)) = none ∨ 1 ≠ 1 ∨ 2 ≠ 1) ∧
    camera_check_motion { bg_buffer := some [7, 7, 7], img_w := 1, img_h := 1 }
        (some { w := 1, h := 2, data := [200, 10, 10, 0, 10, 10] }) =
      some ({ bg_buffer := some [200, 10, 10, 0, 10, 10], img_w := 1, img_h := 2 }, false) :=
  ⟨by decide,
   camera_adopts_first_frame { bg_buffer := some [7, 7, 7], img_w := 1, img_h := 1 }
     { w := 1, h := 2, data := [200, 10, 10, 0, 10, 10] } (by decide)⟩

/-- C10: for every well-formed frame `f`, of any dimensions, feeding `f` to a fresh
detector and then feeding `f` again returns false on both calls. -/
theorem camera_same_frame_twice (f : Frame) (hwf : f.well_formed) :
    camera_check_motion cam_initial (some f) =
      some ({ bg_buffer := some f.data, img_w := f.w, img_h := f.h }, false) ∧
    ∃ st, camera_check_motion { bg_buffer := some f.data, img_w := f.w, img_h := f.h }
      (some f) = some (st, false) := by
  refine ⟨rfl, ?_⟩
  obtain ⟨hlen, -, -⟩ := hwf
  obtain ⟨bg', hbg'⟩ := motion_loop_same f.data (f.w * f.h) 0 f.data 0 (by omega)
    (fun _ _ => rfl)
  refine ⟨{ bg_buffer := some bg', img_w := f.w, img_h := f.h }, ?_⟩
  simp [camera_check_motion, hbg', motion_verdict_zero]

/-- Witness of `camera_same_frame_twice`: a 2x1 frame with one bright pixel. -/
theorem camera_same_frame_twice_witness :
    Frame.well_formed { w := 2, h := 1, data := [255, 0, 0, 3, 4, 5] } ∧
    (camera_check_motion cam_initial (some { w := 2, h := 1, data := [255, 0, 0, 3, 4, 5] }) =
      some ({ bg_buffer := some [255, 0, 0, 3, 4, 5], img_w := 2, img_h := 1 }, false) ∧
    ∃ st, camera_check_motion { bg_buffer := some [255, 0, 0, 3, 4, 5], img_w := 2, img_h := 1 }
      (some { w := 2, h := 1, data := [255, 0, 0, 3, 4, 5] }) = some (st, false)) :=
  ⟨by decide, camera_same_frame_twice _ (by decide)⟩

/-! ## Floating-point lemmas -/

theorem bit_length_aux_le_iff (fuel : Nat) :
    ∀ n j : Nat, n ≤ fuel → (bit_length_aux fuel n ≤ j ↔ n < 2 ^ j) := by
  induction fuel with
  | zero =>
    intro n j hn
    have : n = 0 := by omega
    subst this
    simp [bit_length_aux]
  | succ fuel ih =>
    intro n j hn
    by_cases h0 : n = 0
    · subst h0; simp [bit_length_aux]
    · have hhalf : n / 2 ≤ fuel := by omega
      simp only [bit_length_aux, h0, if_false]
      cases j with
      | zero =>
        simp only [pow_zero]
        omega
      | succ j =>
        rw [Nat.add_le_add_iff_right, ih (n / 2) j hhalf, pow_succ]
        omega

/-- The bit length is the least `j` with `n < 2 ^ j`. -/
theorem bit_length_le_iff (n j : Nat) : bit_length n ≤ j ↔ n < 2 ^ j :=
  bit_length_aux_le_iff n n j (Nat.le_refl n)

theorem lt_two_pow_bit_length (n : Nat) : n < 2 ^ bit_length n :=
  (bit_length_le_iff n _).mp (Nat.le_refl _)

theorem two_pow_bit_length_le (n : Nat) (h : 0 < n) : 2 ^ (bit_length n - 1) ≤ n := by
  by_contra hlt
  have h1 : bit_length n ≤ bit_length n - 1 := (bit_length_le_iff n _).mpr (by omega)
  have h2 : bit_length n = 0 := by omega
  have h3 := lt_two_pow_bit_length n
  rw [h2] at h3
  simp at h3
  omega

theorem bit_length_mono {a b : Nat} (h : a ≤ b) : bit_length a ≤ bit_length b :=
  (bit_length_le_iff a _).mpr (Nat.lt_of_le_of_lt h (lt_two_pow_bit_length b))

/-- Rounding a mantissa that already fits is exact. -/
theorem round_to_exact (p m : Nat) (sticky : Bool) (e : Int) (h : bit_length m ≤ p) :
    round_to p m sticky e = { m := m, e := e } := by
  simp [round_to, h]

/-- Rounding a longer mantissa: the exponent grows by the number of dropped bits and
the mantissa is the quotient or its successor, the successor whenever the dropped bits
are above one half. -/
theorem round_to_inexact (p m : Nat) (e : Int) (h : ¬ bit_length m ≤ p) :
    (round_to p m false e).e = e + ((bit_length m - p : Nat) : Int) ∧
    m / 2 ^ (bit_length m - p) ≤ (round_to p m false e).m ∧
    (round_to p m false e).m ≤ m / 2 ^ (bit_length m - p) + 1 ∧
    (2 ^ (bit_length m - p - 1) < m % 2 ^ (bit_length m - p) →
      (round_to p m false e).m = m / 2 ^ (bit_length m - p) + 1) := by
  simp only [round_to, h, if_false]
  refine ⟨trivial, ?_, ?_, ?_⟩
  · split <;> omega
  · split <;> omega
  · intro hr
    simp [hr]

set_option maxRecDepth 1000000 in
theorem product_ok_background : ∀ x < 256, product_ok (double_literal 8 10) 4 (-53) x = true := by
  decide!

set_option maxRecDepth 1000000 in
theorem product_ok_frame : ∀ x < 256, product_ok (double_literal 2 10) 1 (-55) x = true := by
  decide!

/-- Truncating a rounded sum: when the exact sum, in units of `2 ^ (-55)`, is within a
few units above `k / 5` and within one rounding step below it, the integer part of the
rounded sum is `k / 5`. -/
theorem ftrunc_round_sum (ms t k : Nat) (ht : t ≤ 10) (hk : k < 1280)
    (hhi : 5 * (ms * 2 ^ t) ≤ k * 2 ^ 55 + 10240)
    (hlo : k * 2 ^ 55 ≤ 5 * (ms * 2 ^ t) + 2 * 2 ^ (bit_length (ms * 2 ^ t) - 53)) :
    ftrunc (round_to 53 ms false ((t : Int) - 55)) = k / 5 := by
  have hT : 0 < 2 ^ t := Nat.two_pow_pos _
  have hmsL := lt_two_pow_bit_length ms
  have hS64 : ms * 2 ^ t < 2 ^ 64 := by
    have : (2 : Nat) ^ 55 = 36028797018963968 := by norm_num
    have : (2 : Nat) ^ 64 = 18446744073709551616 := by norm_num
    omega
  have hblS : bit_length (ms * 2 ^ t) ≤ bit_length ms + t := by
    rw [bit_length_le_iff, pow_add]
    exact Nat.mul_lt_mul_of_pos_right hmsL hT
  by_cases hL : bit_length ms ≤ 53
  · -- no rounding
    rw [round_to_exact 53 ms false _ hL]
    have hneg : ¬ (0 : Int) ≤ (t : Int) - 55 := by omega
    have hexp : (-((t : Int) - 55)).toNat = 55 - t := by omega
    simp only [ftrunc, hneg, if_false, hexp]
    have hDG : 2 ^ (55 - t) * 2 ^ t = 2 ^ 55 := by rw [← pow_add]; congr 1; omega
    have hg : 2 ^ (bit_length (ms * 2 ^ t) - 53) ≤ 2 ^ t :=
      Nat.pow_le_pow_right (by decide) (by omega)
    have hG : 2 ^ t ≤ 2 ^ 10 := Nat.pow_le_pow_right (by decide) ht
    have h55 : (2 : Nat) ^ 55 = 36028797018963968 := by norm_num
    have h10 : (2 : Nat) ^ 10 = 1024 := by norm_num
    apply Nat.div_eq_of_lt_le
    · by_contra hc
      have h1 : ms + 1 ≤ k / 5 * 2 ^ (55 - t) := by omega
      have h2 := Nat.mul_le_mul_right (2 ^ t) h1
      rw [Nat.mul_assoc, hDG, Nat.add_mul, Nat.one_mul] at h2
      omega
    · by_contra hc
      have h1 : (k / 5 + 1) * 2 ^ (55 - t) ≤ ms := Nat.le_of_not_lt hc
      have h2 := Nat.mul_le_mul_right (2 ^ t) h1
      rw [Nat.mul_assoc, hDG] at h2
      omega
  · -- rounding drops `sh` bits
    obtain ⟨he, hq1, hq2, hup⟩ := round_to_inexact 53 ms ((t : Int) - 55) hL
    generalize hsh : bit_length ms - 53 = sh at he hq1 hq2 hup
    have hsh1 : 1 ≤ sh := by omega
    have hms0 : 0 < ms := by
      rcases Nat.eq_zero_or_pos ms with h0 | h0
      · exfalso; apply hL; rw [h0]; rw [bit_length_le_iff]; norm_num
      · exact h0
    have hlow := two_pow_bit_length_le ms hms0
    have hsum : sh + t ≤ 11 := by
      have h1 : 2 ^ (bit_length ms - 1) * 2 ^ t ≤ ms * 2 ^ t := Nat.mul_le_mul_right _ hlow
      rw [← pow_add] at h1
      have h2 : 2 ^ (bit_length ms - 1 + t) < 2 ^ 64 := Nat.lt_of_le_of_lt h1 hS64
      have h3 := (Nat.pow_lt_pow_iff_right (by decide : 1 < 2)).mp h2
      omega
    generalize hres : round_to 53 ms false ((t : Int) - 55) = res at he hq1 hq2 hup
    have hneg : ¬ (0 : Int) ≤ res.e := by rw [he]; omega
    have hexp : (-res.e).toNat = 55 - (sh + t) := by rw [he]; omega
    simp only [ftrunc, hneg, if_false, hexp]
    have hDG : 2 ^ (55 - (sh + t)) * 2 ^ (sh + t) = 2 ^ 55 := by
      rw [← pow_add]; congr 1; omega
    have hG : 2 ^ (sh + t) ≤ 2 ^ 11 := Nat.pow_le_pow_right (by decide) hsum
    have hGpos : 0 < 2 ^ (sh + t) := Nat.two_pow_pos _
    have hg : 2 ^ (bit_length (ms * 2 ^ t) - 53) ≤ 2 ^ (sh + t) :=
      Nat.pow_le_pow_right (by decide) (by omega)
    have h55 : (2 : Nat) ^ 55 = 36028797018963968 := by norm_num
    have h11 : (2 : Nat) ^ 11 = 2048 := by norm_num
    -- the sum split at the dropped bits
    have hG2 : 2 ^ (sh + t) = 2 ^ sh * 2 ^ t := pow_add 2 sh t
    have hsplit : ms * 2 ^ t = ms / 2 ^ sh * 2 ^ (sh + t) + ms % 2 ^ sh * 2 ^ t := by
      conv_lhs => rw [← Nat.div_add_mod ms (2 ^ sh)]
      rw [hG2]; ring
    have hrlt : ms % 2 ^ sh * 2 ^ t < 2 ^ (sh + t) := by
      rw [hG2]
      exact Nat.mul_lt_mul_of_pos_right (Nat.mod_lt _ (Nat.two_pow_pos _)) hT
    have hhalf : 2 * (2 ^ (sh - 1) * 2 ^ t) = 2 ^ (sh + t) := by
      rw [hG2, ← Nat.mul_assoc, ← pow_succ']
      congr 2; omega
    generalize hX : ms / 2 ^ sh * 2 ^ (sh + t) = X at hsplit
    generalize hY : ms % 2 ^ sh * 2 ^ t = Y at hsplit hrlt
    have hP1 : X ≤ res.m * 2 ^ (sh + t) := by
      rw [← hX]; exact Nat.mul_le_mul_right _ hq1
    have hP2 : res.m * 2 ^ (sh + t) ≤ X + 2 ^ (sh + t) := by
      have := Nat.mul_le_mul_right (2 ^ (sh + t)) hq2
      rw [Nat.add_mul, Nat.one_mul, hX] at this
      exact this
    apply Nat.div_eq_of_lt_le
    · by_contra hc
      have h1 : res.m + 1 ≤ k / 5 * 2 ^ (55 - (sh + t)) := by omega
      have h2 := Nat.mul_le_mul_right (2 ^ (sh + t)) h1
      rw [Nat.mul_assoc, hDG, Nat.add_mul, Nat.one_mul] at h2
      by_cases hr : 2 ^ (sh - 1) < ms % 2 ^ sh
      · have hm : res.m = ms / 2 ^ sh + 1 := hup hr
        have hP3 : res.m * 2 ^ (sh + t) = X + 2 ^ (sh + t) := by
          rw [hm, Nat.add_mul, Nat.one_mul, hX]
        omega
      · have hr' : ms % 2 ^ sh ≤ 2 ^ (sh - 1) := by omega
        have hY2 : 2 * Y ≤ 2 ^ (sh + t) := by
          rw [← hY, ← hhalf]
          exact Nat.mul_le_mul_left 2 (Nat.mul_le_mul_right _ hr')
        omega
    · by_contra hc
      have h1 : (k / 5 + 1) * 2 ^ (55 - (sh + t)) ≤ res.m := Nat.le_of_not_lt hc
      have h2 := Nat.mul_le_mul_right (2 ^ (sh + t)) h1
      rw [Nat.mul_assoc, hDG] at h2
      omega

/-- The blend computed in `double` is the integer moving average, for all bytes. -/
theorem blend_eq_moving_average (b n : Nat) (hb : b < 256) (hn : n < 256) :
    blend b n = moving_average b n := by
  have hA := product_ok_background b hb
  have hB := product_ok_frame n hn
  simp only [product_ok, Bool.and_eq_true, decide_eq_true_eq] at hA hB
  obtain ⟨⟨⟨hA1, hA2⟩, hA3⟩, hA4⟩ := hA
  obtain ⟨⟨⟨hB1, hB2⟩, hB3⟩, hB4⟩ := hB
  unfold blend moving_average
  generalize fmul 53 (of_nat 53 b) (double_literal 8 10) = A at hA1 hA2 hA3 hA4
  generalize fmul 53 (of_nat 53 n) (double_literal 2 10) = B at hB1 hB2 hB3 hB4
  simp only [fadd]
  obtain ⟨t, ht, hte⟩ : ∃ t : Nat, t ≤ 10 ∧ min A.e B.e = (t : Int) - 55 := by
    refine ⟨(min A.e B.e + 55).toNat, ?_, ?_⟩ <;> omega
  have hsum : (A.m * 2 ^ (A.e - min A.e B.e).toNat + B.m * 2 ^ (B.e - min A.e B.e).toNat) * 2 ^ t
      = units55 A + units55 B := by
    have h1 : (A.e + 55).toNat = (A.e - min A.e B.e).toNat + t := by omega
    have h2 : (B.e + 55).toNat = (B.e - min A.e B.e).toNat + t := by omega
    simp only [units55, h1, h2, pow_add]
    ring
  generalize A.m * 2 ^ (A.e - min A.e B.e).toNat + B.m * 2 ^ (B.e - min A.e B.e).toNat = ms
    at hsum
  rw [hte]
  have hmA : 2 ^ (bit_length (units55 A) - 53) ≤ 2 ^ (bit_length (ms * 2 ^ t) - 53) :=
    Nat.pow_le_pow_right (by decide)
      (Nat.sub_le_sub_right (bit_length_mono (by rw [hsum]; omega)) 53)
  have hmB : 2 ^ (bit_length (units55 B) - 53) ≤ 2 ^ (bit_length (ms * 2 ^ t) - 53) :=
    Nat.pow_le_pow_right (by decide)
      (Nat.sub_le_sub_right (bit_length_mono (by rw [hsum]; omega)) 53)
  have h55 : (2 : Nat) ^ 55 = 36028797018963968 := by norm_num
  exact ftrunc_round_sum ms t (4 * b + n) ht (by omega) (by omega) (by omega)

/-- The loop from pixel `p` on: it ends, adds the number of changed pixels to
`diff_count`, and replaces exactly the red byte of every pixel it visits. -/
theorem motion_loop_spec (curr : List Nat) (k : Nat) :
    ∀ (p : Nat) (bg : List Nat) (diff_count : Nat),
      3 * (p + k) ≤ curr.length → 3 * (p + k) ≤ bg.length →
      ∃ bg', motion_loop curr k (3 * p) bg diff_count =
          some (bg', diff_count + (List.range' p k).countP (changed_pixel curr bg)) ∧
        bg'.length = bg.length ∧
        ∀ j, bg'[j]? =
          if j % 3 = 0 ∧ 3 * p ≤ j ∧ j < 3 * (p + k) then
            some (blend (bg.getD j 0) (curr.getD j 0))
          else bg[j]? := by
  induction k with
  | zero =>
    intro p bg dc _ _
    refine ⟨bg, by simp [motion_loop], rfl, ?_⟩
    intro j
    rw [if_neg (by omega)]
  | succ k ih =>
    intro p bg dc hc hb
    have hic : 3 * p < curr.length := by omega
    have hib : 3 * p < bg.length := by omega
    have hcq : curr[3 * p]? = some curr[3 * p] := List.getElem?_eq_getElem hic
    have hbq : bg[3 * p]? = some bg[3 * p] := List.getElem?_eq_getElem hib
    have hcd : curr.getD (3 * p) 0 = curr[3 * p] := by
      simp [List.getD_eq_getElem?_getD, hcq]
    have hbd : bg.getD (3 * p) 0 = bg[3 * p] := by
      simp [List.getD_eq_getElem?_getD, hbq]
    obtain ⟨bg', hrun, hlen, hget⟩ :=
      ih (p + 1) (bg.set (3 * p) (blend bg[3 * p] curr[3 * p]))
        (if ((curr[3 * p] : Int) - (bg[3 * p] : Int)).natAbs > PIXEL_THRESH then dc + 1 else dc)
        (by omega) (by rw [List.length_set]; omega)
    have hcount : (List.range' (p + 1) k).countP
          (changed_pixel curr (bg.set (3 * p) (blend bg[3 * p] curr[3 * p]))) =
        (List.range' (p + 1) k).countP (changed_pixel curr bg) := by
      apply List.countP_congr
      intro q hq
      have hq' : p + 1 ≤ q := (List.mem_range'_1.mp hq).1
      have hne : 3 * p ≠ 3 * q := by omega
      simp [changed_pixel, List.getD_eq_getElem?_getD, List.getElem?_set_ne hne]
    refine ⟨bg', ?_, by rw [hlen, List.length_set], ?_⟩
    · have h3 : 3 * (p + 1) = 3 * p + 3 := by ring
      rw [h3] at hrun
      simp only [motion_loop, hcq, hbq]
      rw [hrun, hcount, List.range'_succ, List.countP_cons]
      simp only [changed_pixel, hcd, hbd]
      by_cases hch : ((curr[3 * p] : Int) - (bg[3 * p] : Int)).natAbs > PIXEL_THRESH
      · have : PIXEL_THRESH < ((curr[3 * p] : Int) - (bg[3 * p] : Int)).natAbs := hch
        simp [hch, this]; omega
      · have : ¬ PIXEL_THRESH < ((curr[3 * p] : Int) - (bg[3 * p] : Int)).natAbs := hch
        simp [hch, this]
    · intro j
      rw [hget j]
      by_cases hj : j = 3 * p
      · subst hj
        have h1 : ¬ ((3 * p) % 3 = 0 ∧ 3 * (p + 1) ≤ 3 * p ∧ 3 * p < 3 * (p + 1 + k)) := by omega
        have h2 : (3 * p) % 3 = 0 ∧ 3 * p ≤ 3 * p ∧ 3 * p < 3 * (p + (k + 1)) := by omega
        rw [if_neg h1, if_pos h2, hcd, hbd, List.getElem?_set_self hib]
      · have hne : 3 * p ≠ j := fun h => hj h.symm
        by_cases hcond : j % 3 = 0 ∧ 3 * (p + 1) ≤ j ∧ j < 3 * (p + 1 + k)
        · have h2 : j % 3 = 0 ∧ 3 * p ≤ j ∧ j < 3 * (p + (k + 1)) := by omega
          rw [if_pos hcond, if_pos h2]
          simp [List.getD_eq_getElem?_getD, List.getElem?_set_ne hne]
        · have h2 : ¬ (j % 3 = 0 ∧ 3 * p ≤ j ∧ j < 3 * (p + (k + 1))) := by omega
          rw [if_neg hcond, if_neg h2, List.getElem?_set_ne hne]

/-- A call that compares a well-formed frame against a background of the same
dimensions: the loop ends, the verdict is the one of the number of changed pixels, and
the new background differs from the old one exactly at the red bytes, which hold the
moving average. -/
theorem camera_check_motion_compare (st : CamState) (bg : List Nat) (f : Frame)
    (hbg : st.has_background bg) (hwf : f.well_formed)
    (hw : f.w = st.img_w) (hh : f.h = st.img_h) :
    ∃ bg', camera_check_motion st (some f) =
        some ({ bg_buffer := some bg', img_w := st.img_w, img_h := st.img_h },
          motion_verdict (changed_pixels f.data bg (f.w * f.h)) (f.w * f.h)) ∧
      ({ bg_buffer := some bg', img_w := st.img_w, img_h := st.img_h } : CamState).has_background
        bg' ∧
      ∀ j, bg'[j]? =
        if j % 3 = 0 ∧ j < bg.length then some (moving_average (bg.getD j 0) (f.data.getD j 0))
        else bg[j]? := by
  obtain ⟨hst, hlen, hbytes⟩ := hbg
  obtain ⟨hflen, -, hfbytes⟩ := hwf
  have hlen' : bg.length = f.w * f.h * 3 := by rw [hlen, hw, hh]
  obtain ⟨bg', hrun, hl, hget⟩ := motion_loop_spec f.data (f.w * f.h) 0 bg 0
    (by omega) (by omega)
  have hget' : ∀ j, bg'[j]? =
      if j % 3 = 0 ∧ j < bg.length then some (moving_average (bg.getD j 0) (f.data.getD j 0))
      else bg[j]? := by
    intro j
    rw [hget j]
    by_cases hj : j % 3 = 0 ∧ j < bg.length
    · have hj' : j % 3 = 0 ∧ 3 * 0 ≤ j ∧ j < 3 * (0 + f.w * f.h) := by omega
      rw [if_pos hj, if_pos hj']
      have h1 : bg.getD j 0 < 256 := by
        have hjl : j < bg.length := hj.2
        rw [List.getD_eq_getElem?_getD, List.getElem?_eq_getElem hjl]
        exact hbytes _ (List.getElem_mem hjl)
      have h2 : f.data.getD j 0 < 256 := by
        have hjl : j < f.data.length := by omega
        rw [List.getD_eq_getElem?_getD, List.getElem?_eq_getElem hjl]
        exact hfbytes _ (List.getElem_mem hjl)
      rw [blend_eq_moving_average _ _ h1 h2]
    · have hj' : ¬ (j % 3 = 0 ∧ 3 * 0 ≤ j ∧ j < 3 * (0 + f.w * f.h)) := by omega
      rw [if_neg hj, if_neg hj']
  refine ⟨bg', ?_, ⟨rfl, by simp only; rw [hl, hlen], ?_⟩, hget'⟩
  · have hne : ¬ (f.w ≠ st.img_w ∨ f.h ≠ st.img_h) := by simp [hw, hh]
    simp only [camera_check_motion, hst, hne, if_false]
    simp only [Nat.mul_zero, Nat.zero_add] at hrun
    rw [hrun]
    simp [changed_pixels]
  · intro x hx
    obtain ⟨j, hj, rfl⟩ := List.getElem_of_mem hx
    have hq : bg'[j]? = some bg'[j] := List.getElem?_eq_getElem hj
    rw [hget' j] at hq
    have hjb : j < bg.length := by omega
    by_cases hj3 : j % 3 = 0
    · rw [if_pos ⟨hj3, hjb⟩] at hq
      have h1 : bg.getD j 0 < 256 := by
        rw [List.getD_eq_getElem?_getD, List.getElem?_eq_getElem hjb]
        exact hbytes _ (List.getElem_mem hjb)
      have h2 : f.data.getD j 0 < 256 := by
        have hjl : j < f.data.length := by omega
        rw [List.getD_eq_getElem?_getD, List.getElem?_eq_getElem hjl]
        exact hfbytes _ (List.getElem_mem hjl)
      have := Option.some.inj hq
      rw [← this]
      simp only [moving_average]
      omega
    · rw [if_neg (by omega), List.getElem?_eq_getElem hjb] at hq
      have := Option.some.inj hq
      rw [← this]
      exact hbytes _ (List.getElem_mem hjb)

/-- C12 (code at the failing input): a 5x4 frame in which exactly 3 of the 20 pixels
changed, exactly 15 percent, against an all-zero background: `camera_check_motion`
returns true, because `(float)3 / (float)20` is the `float` nearest to 0.15, which lies
above the `double` constant 0.15. The same happens for 15 changed pixels out of 100. -/
theorem camera_exact_ratio_reports_motion :
    changed_pixels (List.replicate 9 255 ++ List.replicate 51 0) (List.replicate 60 0) 20 * 100
      = 15 * (5 * 4) ∧
    Option.map Prod.snd
      (camera_check_motion { bg_buffer := some (List.replicate 60 0), img_w := 5, img_h := 4 }
        (some { w := 5, h := 4, data := List.replicate 9 255 ++ List.replicate 51 0 }))
      = some true ∧
    motion_verdict 15 100 = true := by
  decide

/-- C13: on every call that compares a frame against an existing background of the same
dimensions, whatever the verdict, the call ends and every sampled (red-channel)
background byte `b` is replaced, given the frame byte `n`, by the moving average
`0.8*b + 0.2*n` computed in `double` and truncated, which is `(4*b + n) / 5`; the other
bytes are unchanged and every byte of the new background is in 0..255. -/
theorem camera_background_update (st : CamState) (bg : List Nat) (f : Frame)
    (hbg : st.has_background bg) (hwf : f.well_formed)
    (hw : f.w = st.img_w) (hh : f.h = st.img_h) :
    (∀ b n, b < 256 → n < 256 → blend b n = (4 * b + n) / 5 ∧ blend b n < 256) ∧
    ∃ bg' verdict, camera_check_motion st (some f) =
        some ({ bg_buffer := some bg', img_w := st.img_w, img_h := st.img_h }, verdict) ∧
      bg'.length = bg.length ∧
      (∀ j, j < bg.length → j % 3 = 0 →
        bg'[j]? = some (blend (bg.getD j 0) (f.data.getD j 0)) ∧
        bg'[j]? = some ((4 * bg.getD j 0 + f.data.getD j 0) / 5)) ∧
      (∀ j, j % 3 ≠ 0 → bg'[j]? = bg[j]?) ∧
      (∀ x ∈ bg', x < 256) := by
  refine ⟨?_, ?_⟩
  · intro b n hb hn
    rw [blend_eq_moving_average b n hb hn]
    refine ⟨rfl, ?_⟩
    simp only [moving_average]
    omega
  · obtain ⟨bg', hrun, ⟨-, hlen, hbytes⟩, hget⟩ :=
      camera_check_motion_compare st bg f hbg hwf hw hh
    refine ⟨bg', _, hrun, ?_, ?_, ?_, hbytes⟩
    · simp only at hlen
      rw [hlen, hbg.2.1]
    · intro j hj hj3
      have h1 : bg.getD j 0 < 256 := by
        rw [List.getD_eq_getElem?_getD, List.getElem?_eq_getElem hj]
        exact hbg.2.2 _ (List.getElem_mem hj)
      have h2 : f.data.getD j 0 < 256 := by
        have hjl : j < f.data.length := by
          rw [hwf.1, hw, hh, ← hbg.2.1]; exact hj
        rw [List.getD_eq_getElem?_getD, List.getElem?_eq_getElem hjl]
        exact hwf.2.2 _ (List.getElem_mem hjl)
      rw [hget j, if_pos ⟨hj3, hj⟩, blend_eq_moving_average _ _ h1 h2]
      exact ⟨rfl, rfl⟩
    · intro j hj3
      rw [hget j, if_neg (by omega)]

/-- Witness of `camera_background_update`: a 1x2 frame against a background that is
brighter in the first pixel and darker in the second. -/
theorem camera_background_update_witness :
    ∃ bg' verdict,
      camera_check_motion { bg_buffer := some [200, 1, 2, 10, 3, 4], img_w := 1, img_h := 2 }
          (some { w := 1, h := 2, data := [100, 9, 9, 13, 9, 9] }) =
        some ({ bg_buffer := some bg', img_w := 1, img_h := 2 }, verdict) ∧
      bg'.length = 6 ∧
      (∀ j, j < 6 → j % 3 = 0 →
        bg'[j]? = some (blend ([200, 1, 2, 10, 3, 4].getD j 0) ([100, 9, 9, 13, 9, 9].getD j 0)) ∧
        bg'[j]? = some ((4 * [200, 1, 2, 10, 3, 4].getD j 0 + [100, 9, 9, 13, 9, 9].getD j 0) / 5)) ∧
      (∀ j, j % 3 ≠ 0 → bg'[j]? = [200, 1, 2, 10, 3, 4][j]?) ∧
      (∀ x ∈ bg', x < 256) :=
  (camera_background_update { bg_buffer := some [200, 1, 2, 10, 3, 4], img_w := 1, img_h := 2 }
    [200, 1, 2, 10, 3, 4] { w := 1, h := 2, data := [100, 9, 9, 13, 9, 9] }
    (by decide) (by decide) rfl rfl).2

/-- A byte at or above the frame byte decreases to it. -/
theorem average_steps_from_above (n : Nat) (k : Nat) :
    ∀ b, n ≤ b → n ≤ average_steps n k b ∧
      (average_steps n k b = n ∨ average_steps n k b + k ≤ b) := by
  induction k with
  | zero => intro b hb; exact ⟨hb, Or.inr (by simp [average_steps])⟩
  | succ k ih =>
    intro b hb
    have h1 : n ≤ moving_average b n := by simp only [moving_average]; omega
    have h2 : moving_average b n = n ∨ moving_average b n + 1 ≤ b := by
      simp only [moving_average]; omega
    obtain ⟨h3, h4⟩ := ih (moving_average b n) h1
    simp only [average_steps]
    refine ⟨h3, ?_⟩
    rcases h4 with h4 | h4
    · exact Or.inl h4
    · rcases h2 with h2 | h2
      · rw [h2] at h4 h3 ⊢
        left; omega
      · right; omega

/-- A byte below the frame byte increases, stays below it, and stalls within four of
it. -/
theorem average_steps_from_below (n : Nat) (k : Nat) :
    ∀ b, b < n → average_steps n k b < n ∧
      (n ≤ average_steps n k b + 4 ∨ b + k ≤ average_steps n k b) := by
  induction k with
  | zero => intro b hb; exact ⟨hb, Or.inr (by simp [average_steps])⟩
  | succ k ih =>
    intro b hb
    have h1 : moving_average b n < n := by simp only [moving_average]; omega
    have h2 : n ≤ b + 4 ∨ b + 1 ≤ moving_average b n := by
      simp only [moving_average]; omega
    have h0 : b ≤ moving_average b n := by simp only [moving_average]; omega
    obtain ⟨h3, h4⟩ := ih (moving_average b n) h1
    simp only [average_steps]
    refine ⟨h3, ?_⟩
    rcases h4 with h4 | h4
    · exact Or.inl h4
    · rcases h2 with h2 | h2
      · left
        have : moving_average b n ≤ average_steps n k (moving_average b n) := by omega
        omega
      · right; omega

/-- After 255 steps a byte has reached a value the moving average leaves alone: the
frame byte itself when it started at or above it, else a value one to four below. -/
theorem average_steps_settles (b n : Nat) (hb : b < 256) (hn : n < 256) :
    average_steps n 255 b ≤ n ∧ n ≤ average_steps n 255 b + 4 ∧
    (n ≤ b → average_steps n 255 b = n) ∧
    (b < n → average_steps n 255 b < n) ∧
    moving_average (average_steps n 255 b) n = average_steps n 255 b := by
  have hfix : ∀ r, r ≤ n → n ≤ r + 4 → moving_average r n = r := by
    intro r h1 h2; simp only [moving_average]; omega
  by_cases h : n ≤ b
  · obtain ⟨h1, h2⟩ := average_steps_from_above n 255 b h
    have h3 : average_steps n 255 b = n := by
      rcases h2 with h2 | h2
      · exact h2
      · omega
    rw [h3]
    exact ⟨Nat.le_refl _, by omega, fun _ => rfl, fun hlt => by omega,
      hfix n (Nat.le_refl _) (by omega)⟩
  · have hlt : b < n := by omega
    obtain ⟨h1, h2⟩ := average_steps_from_below n 255 b hlt
    have h3 : n ≤ average_steps n 255 b + 4 := by
      rcases h2 with h2 | h2
      · exact h2
      · omega
    exact ⟨by omega, h3, fun hle => by omega, fun _ => h1, hfix _ (by omega) h3⟩

/-- Feeding the same frame `N` times: every red byte of the background has gone
through `N` steps of the moving average toward the frame byte. -/
theorem camera_feeds_spec (f : Frame) (hwf : f.well_formed) (N : Nat) :
    ∀ (st : CamState) (bg : List Nat), st.has_background bg →
      f.w = st.img_w → f.h = st.img_h →
      ∃ bgN, camera_feeds f N st =
          some { bg_buffer := some bgN, img_w := st.img_w, img_h := st.img_h } ∧
        ({ bg_buffer := some bgN, img_w := st.img_w, img_h := st.img_h } :
          CamState).has_background bgN ∧
        ∀ j, bgN[j]? =
          if j % 3 = 0 ∧ j < bg.length then
            some (average_steps (f.data.getD j 0) N (bg.getD j 0))
          else bg[j]? := by
  induction N with
  | zero =>
    intro st bg hbg _ _
    refine ⟨bg, ?_, ⟨rfl, hbg.2.1, hbg.2.2⟩, ?_⟩
    · obtain ⟨bgb, w, h⟩ := st
      obtain ⟨h1, -, -⟩ := hbg
      simp only at h1
      subst h1
      rfl
    · intro j
      by_cases hj : j % 3 = 0 ∧ j < bg.length
      · rw [if_pos hj]
        simp only [average_steps]
        rw [List.getD_eq_getElem?_getD, List.getElem?_eq_getElem hj.2]
        rfl
      · rw [if_neg hj]
  | succ N ih =>
    intro st bg hbg hw hh
    obtain ⟨bg1, hrun, hbg1, hget1⟩ := camera_check_motion_compare st bg f hbg hwf hw hh
    obtain ⟨bgN, hrunN, hbgN, hgetN⟩ := ih _ bg1 hbg1 hw hh
    have hlen : bg1.length = bg.length := by
      have := hbg1.2.1
      simp only at this
      rw [this, hbg.2.1]
    refine ⟨bgN, ?_, hbgN, ?_⟩
    · simp only [camera_feeds, hrun]
      exact hrunN
    · intro j
      rw [hgetN j, hlen]
      by_cases hj : j % 3 = 0 ∧ j < bg.length
      · rw [if_pos hj, if_pos hj]
        have : bg1.getD j 0 = moving_average (bg.getD j 0) (f.data.getD j 0) := by
          rw [List.getD_eq_getElem?_getD, hget1 j, if_pos hj]
          rfl
        rw [this]
        rfl
      · rw [if_neg hj, if_neg hj, hget1 j, if_neg hj]

/-- C14, as stated, fails: against the background byte 0 the frame byte 1 is never
absorbed, however often the frame is fed, because `(4*0 + 1) / 5` truncates to 0. -/
theorem camera_convergence_counterexample :
    ¬ ∃ (N : Nat) (bgN : List Nat),
      camera_feeds { w := 1, h := 1, data := [1, 0, 0] } N
          { bg_buffer := some [0, 0, 0], img_w := 1, img_h := 1 } =
        some { bg_buffer := some bgN, img_w := 1, img_h := 1 } ∧
      bgN[0]? = some 1 := by
  have hstay : ∀ N, camera_feeds { w := 1, h := 1, data := [1, 0, 0] } N
      { bg_buffer := some [0, 0, 0], img_w := 1, img_h := 1 } =
      some { bg_buffer := some [0, 0, 0], img_w := 1, img_h := 1 } := by
    intro N
    induction N with
    | zero => rfl
    | succ N ih =>
      have hstep : camera_check_motion { bg_buffer := some [0, 0, 0], img_w := 1, img_h := 1 }
          (some { w := 1, h := 1, data := [1, 0, 0] }) =
          some ({ bg_buffer := some [0, 0, 0], img_w := 1, img_h := 1 }, false) := by decide
      simp only [camera_feeds, hstep]
      exact ih
  rintro ⟨N, bgN, hrun, h0⟩
  rw [hstay N] at hrun
  cases hrun
  simp at h0

/-- C14 (amended): for every existing background and every well-formed frame of the
same dimensions, after feeding the frame 255 times in a row every sampled background
byte is at most the frame byte and at most four below it, equal to it wherever the
background byte started at or above the frame byte (and strictly below it wherever
it started below); from then on feeding the frame again, any number of times, leaves
the background unchanged. -/
theorem camera_background_settles (st : CamState) (bg : List Nat) (f : Frame)
    (hbg : st.has_background bg) (hwf : f.well_formed)
    (hw : f.w = st.img_w) (hh : f.h = st.img_h) :
    ∃ bgN, camera_feeds f 255 st =
        some { bg_buffer := some bgN, img_w := st.img_w, img_h := st.img_h } ∧
      bgN.length = bg.length ∧
      (∀ j, j < bg.length → j % 3 = 0 →
        bgN.getD j 0 ≤ f.data.getD j 0 ∧ f.data.getD j 0 ≤ bgN.getD j 0 + 4 ∧
        (f.data.getD j 0 ≤ bg.getD j 0 → bgN.getD j 0 = f.data.getD j 0) ∧
        (bg.getD j 0 < f.data.getD j 0 → bgN.getD j 0 < f.data.getD j 0)) ∧
      (∀ j, j % 3 ≠ 0 → bgN[j]? = bg[j]?) ∧
      ∀ m, camera_feeds f m { bg_buffer := some bgN, img_w := st.img_w, img_h := st.img_h } =
        some { bg_buffer := some bgN, img_w := st.img_w, img_h := st.img_h } := by
  obtain ⟨bgN, hrun, hbgN, hget⟩ := camera_feeds_spec f hwf 255 st bg hbg hw hh
  have hlen : bgN.length = bg.length := by
    have := hbgN.2.1
    simp only at this
    rw [this, hbg.2.1]
  have hbyte : ∀ j, j < bg.length → bg.getD j 0 < 256 ∧ f.data.getD j 0 < 256 := by
    intro j hj
    have hjl : j < f.data.length := by rw [hwf.1, hw, hh, ← hbg.2.1]; exact hj
    constructor
    · rw [List.getD_eq_getElem?_getD, List.getElem?_eq_getElem hj]
      exact hbg.2.2 _ (List.getElem_mem hj)
    · rw [List.getD_eq_getElem?_getD, List.getElem?_eq_getElem hjl]
      exact hwf.2.2 _ (List.getElem_mem hjl)
  have hval : ∀ j, j < bg.length → j % 3 = 0 →
      bgN.getD j 0 = average_steps (f.data.getD j 0) 255 (bg.getD j 0) := by
    intro j hj hj3
    rw [List.getD_eq_getElem?_getD, hget j, if_pos ⟨hj3, hj⟩, Option.getD_some]
  refine ⟨bgN, hrun, hlen, ?_, ?_, ?_⟩
  · intro j hj hj3
    obtain ⟨hb, hn⟩ := hbyte j hj
    obtain ⟨h1, h2, h3, h4, -⟩ := average_steps_settles _ _ hb hn
    rw [hval j hj hj3]
    exact ⟨h1, h2, h3, h4⟩
  · intro j hj3
    rw [hget j, if_neg (by omega)]
  · have hstep : ∃ v, camera_check_motion
        { bg_buffer := some bgN, img_w := st.img_w, img_h := st.img_h } (some f) =
        some ({ bg_buffer := some bgN, img_w := st.img_w, img_h := st.img_h }, v) := by
      obtain ⟨bg2, hrun2, -, hget2⟩ := camera_check_motion_compare _ bgN f hbgN hwf hw hh
      have heq : bg2 = bgN := by
        apply List.ext_getElem?
        intro j
        rw [hget2 j]
        by_cases hj : j % 3 = 0 ∧ j < bgN.length
        · rw [if_pos hj]
          have hjb : j < bg.length := by omega
          obtain ⟨hb, hn⟩ := hbyte j hjb
          obtain ⟨-, -, -, -, h5⟩ := average_steps_settles _ _ hb hn
          rw [hval j hjb hj.1, h5, ← hval j hjb hj.1,
            List.getD_eq_getElem?_getD, List.getElem?_eq_getElem hj.2, Option.getD_some]
        · rw [if_neg hj]
      rw [heq] at hrun2
      exact ⟨_, hrun2⟩
    obtain ⟨v, hv⟩ := hstep
    intro m
    induction m with
    | zero => rfl
    | succ m ih =>
      simp only [camera_feeds, hv]
      exact ih

/-- Witness of `camera_background_settles`: a 1x2 frame against a background that is
brighter in the first pixel and darker in the second. -/
theorem camera_background_settles_witness :
    ∃ bgN, camera_feeds { w := 1, h := 2, data := [100, 9, 9, 13, 9, 9] } 255
          { bg_buffer := some [200, 1, 2, 10, 3, 4], img_w := 1, img_h := 2 } =
        some { bg_buffer := some bgN, img_w := 1, img_h := 2 } ∧
      bgN.length = 6 ∧
      (∀ j, j < 6 → j % 3 = 0 →
        bgN.getD j 0 ≤ [100, 9, 9, 13, 9, 9].getD j 0 ∧
        [100, 9, 9, 13, 9, 9].getD j 0 ≤ bgN.getD j 0 + 4 ∧
        ([100, 9, 9, 13, 9, 9].getD j 0 ≤ [200, 1, 2, 10, 3, 4].getD j 0 →
          bgN.getD j 0 = [100, 9, 9, 13, 9, 9].getD j 0) ∧
        ([200, 1, 2, 10, 3, 4].getD j 0 < [100, 9, 9, 13, 9, 9].getD j 0 →
          bgN.getD j 0 < [100, 9, 9, 13, 9, 9].getD j 0)) ∧
      (∀ j, j % 3 ≠ 0 → bgN[j]? = [200, 1, 2, 10, 3, 4][j]?) ∧
      ∀ m, camera_feeds { w := 1, h := 2, data := [100, 9, 9, 13, 9, 9] } m
          { bg_buffer := some bgN, img_w := 1, img_h := 2 } =
        some { bg_buffer := some bgN, img_w := 1, img_h := 2 } :=
  camera_background_settles { bg_buffer := some [200, 1, 2, 10, 3, 4], img_w := 1, img_h := 2 }
    [200, 1, 2, 10, 3, 4] { w := 1, h := 2, data := [100, 9, 9, 13, 9, 9] }
    (by decide) (by decide) rfl rfl

theorem countP_lt_range' (c n : Nat) (h : c ≤ n) :
    (List.range' 0 n).countP (fun q => decide (q < c)) = c := by
  have hsplit : List.range' 0 n = List.range' 0 c ++ List.range' c (n - c) := by
    have := List.range'_append 0 c (n - c) 1
    simp only [Nat.one_mul, Nat.zero_add] at this
    rw [this]
    congr 1
    omega
  rw [hsplit, List.countP_append]
  have h1 : (List.range' 0 c).countP (fun q => decide (q < c)) = c := by
    rw [List.countP_eq_length.mpr]
    · simp
    · intro q hq
      have := (List.mem_range'_1.mp hq).2
      simp; omega
  have h2 : (List.range' c (n - c)).countP (fun q => decide (q < c)) = 0 := by
    rw [List.countP_eq_zero]
    intro q hq
    have := (List.mem_range'_1.mp hq).1
    simp; omega
  rw [h1, h2]
  rfl

/-- Against an all-zero background, a frame whose first `c` pixels are white and whose
other pixels are black has exactly `c` changed pixels. -/
theorem changed_pixels_replicate (c n : Nat) (h : c ≤ n) :
    changed_pixels (List.replicate (3 * c) 255 ++ List.replicate (3 * (n - c)) 0)
      (List.replicate (3 * n) 0) n = c := by
  unfold changed_pixels
  refine Eq.trans ?_ (countP_lt_range' c n h)
  apply List.countP_congr
  intro q _
  have hbg : (List.replicate (3 * n) 0).getD (3 * q) 0 = 0 := by
    rw [List.getD_eq_getElem?_getD, List.getElem?_replicate]
    split <;> rfl
  have hfr : (List.replicate (3 * c) 255 ++ List.replicate (3 * (n - c)) 0).getD (3 * q) 0 =
      if q < c then 255 else 0 := by
    rw [List.getD_eq_getElem?_getD]
    by_cases hq : q < c
    · rw [List.getElem?_append_left (by rw [List.length_replicate]; omega),
        List.getElem?_replicate, if_pos (by omega), if_pos hq]
      rfl
    · rw [List.getElem?_append_right (by rw [List.length_replicate]; omega),
        List.getElem?_replicate, if_neg hq]
      split <;> rfl
  simp only [changed_pixel, hbg, hfr, PIXEL_THRESH]
  by_cases hq : q < c <;> simp [hq]

/-- C11 (counterexample): the claim does not hold for every `w x h`. A 5798x5797 frame
in which 5041651 of the 33611006 pixels changed, more than 15 percent, against an
all-zero background: `camera_check_motion` returns false, because `(float)(w*h)` rounds
the pixel count up to 33611008 and the `float` quotient falls below the `double`
constant 0.15. -/
theorem camera_large_frame_misses_motion :
    changed_pixels (List.replicate (3 * 5041651) 255 ++ List.replicate (3 * (33611006 - 5041651)) 0)
        (List.replicate (3 * 33611006) 0) 33611006 * 100 > 15 * (5798 * 5797) ∧
    Option.map Prod.snd
      (camera_check_motion
        { bg_buffer := some (List.replicate (3 * 33611006) 0), img_w := 5798, img_h := 5797 }
        (some { w := 5798, h := 5797,
                data := List.replicate (3 * 5041651) 255 ++
                  List.replicate (3 * (33611006 - 5041651)) 0 }))
      = some false := by
  have hcount := changed_pixels_replicate 5041651 33611006 (by decide)
  have hdim : 5798 * 5797 = 33611006 := by norm_num
  refine ⟨by rw [hcount]; norm_num, ?_⟩
  have hbg : CamState.has_background ⟨some (List.replicate (3 * 33611006) 0), 5798, 5797⟩
      (List.replicate (3 * 33611006) 0) := by
    refine ⟨rfl, ?_, ?_⟩
    · rw [List.length_replicate]
      norm_num
    · intro b hb
      rw [List.mem_replicate] at hb
      omega
  have hwf : Frame.well_formed ⟨5798, 5797,
      List.replicate (3 * 5041651) 255 ++ List.replicate (3 * (33611006 - 5041651)) 0⟩ := by
    refine ⟨?_, ?_, ?_⟩
    · simp only [List.length_append, List.length_replicate]
    · norm_num
    · intro b hb
      rw [List.mem_append, List.mem_replicate, List.mem_replicate] at hb
      omega
  obtain ⟨bg', hrun, -, -⟩ := camera_check_motion_compare _ _ _ hbg hwf rfl rfl
  rw [hrun]
  simp only [Option.map_some', hdim, hcount]
  have hv : motion_verdict 5041651 33611006 = false := by decide
  rw [hv]

/-! ## Audio worker -/

theorem ring_contents_length (cq : List Int) (k : Nat) :
    ∀ h, (ring_contents cq h k).length = k := by
  induction k with
  | zero => intro h; rfl
  | succ k ih => intro h; simp [ring_contents, ih]

/-- Writing at the slot just behind the last live entry appends to the contents. -/
theorem ring_contents_set (cq : List Int) (t : Nat) (c : Int) (ht : t < cq.length) (k : Nat) :
    ∀ h, h < 16 → k ≤ 15 → (h + k) % 16 = t →
      ring_contents (cq.set t c) h (k + 1) = ring_contents cq h k ++ [c] := by
  induction k with
  | zero =>
    intro h hh _ hk
    have : h = t := by omega
    subst this
    simp [ring_contents, List.getD_eq_getElem?_getD, List.getElem?_set_self ht]
  | succ k ih =>
    intro h hh hk15 hk
    have hne : t ≠ h := by omega
    have hrec := ih ((h + 1) % 16) (by omega) (by omega) (by omega)
    rw [ring_contents, hrec]
    simp [ring_contents, List.getD_eq_getElem?_getD, List.getElem?_set_ne hne]

theorem tmod_succ_16 (n : Nat) : Int.tmod ((n : Int) + 1) QUEUE_SIZE = (((n + 1) % 16 : Nat) : Int) := by
  rw [QUEUE_SIZE, Int.tmod_eq_emod (by omega) (by omega)]
  omega

/-- `queue_sound` on a queue with its indices in range: it is defined, keeps the
indices in range, and acts on the live entries as the bounded list queue does. -/
theorem queue_sound_spec (q : SoundQueue) (c : Int) (h : QueueInv q) :
    ∃ q', queue_sound q c = some q' ∧ QueueInv q' ∧
      queue_contents q' = (fifo_step (queue_contents q) (QueueOp.enqueue c)).1 ∧
      (is_queue_full q = true ↔ (queue_contents q).length = 15) ∧
      (is_queue_full q = true → q' = q) := by
  obtain ⟨cq, hd, tl⟩ := q
  obtain ⟨hlen, ⟨hh0, hh1⟩, ⟨ht0, ht1⟩⟩ := h
  simp only at hlen hh0 hh1 ht0 ht1
  obtain ⟨hn, rfl⟩ := Int.eq_ofNat_of_zero_le hh0
  obtain ⟨tn, rfl⟩ := Int.eq_ofNat_of_zero_le ht0
  have hfull : is_queue_full ⟨cq, hn, tn⟩ = true ↔ (tn + 1) % 16 = hn := by
    simp only [is_queue_full, tmod_succ_16, decide_eq_true_eq]
    omega
  have hcount : (queue_contents ⟨cq, hn, tn⟩).length = (((tn : Int) - (hn : Int)) % 16).toNat := by
    simp only [queue_contents, ring_contents_length]
  by_cases hf : (tn + 1) % 16 = hn
  · have hf' : is_queue_full ⟨cq, hn, tn⟩ = true := hfull.mpr hf
    have hl15 : ¬ (queue_contents ⟨cq, hn, tn⟩).length < 15 := by rw [hcount]; omega
    refine ⟨⟨cq, hn, tn⟩, by simp [queue_sound, hf'], ⟨hlen, ⟨hh0, hh1⟩, ⟨ht0, ht1⟩⟩, ?_, ?_, ?_⟩
    · simp only [fifo_step, hl15, if_false]
    · rw [hcount]; constructor
      · intro _; omega
      · intro _; exact hf'
    · intro _; rfl
  · have hf' : ¬ is_queue_full ⟨cq, hn, tn⟩ = true := fun hc => hf (hfull.mp hc)
    have hl15 : (queue_contents ⟨cq, hn, tn⟩).length < 15 := by rw [hcount]; omega
    have hb : (0 : Int) ≤ (tn : Int) ∧ (tn : Int) < (cq.length : Int) := by omega
    refine ⟨⟨cq.set tn c, hn, Int.tmod ((tn : Int) + 1) QUEUE_SIZE⟩, ?_, ?_, ?_, ?_, ?_⟩
    · simp [queue_sound, hf', hb]
    · refine ⟨by simp [hlen], ⟨hh0, hh1⟩, ?_⟩
      simp only [tmod_succ_16]
      omega
    · simp only [fifo_step, if_pos hl15]
      simp only [queue_contents, tmod_succ_16, Int.toNat_ofNat]
      have hk : ((((tn + 1) % 16 : Nat) : Int) - (hn : Int)) % 16
          = ((((tn : Int) - (hn : Int)) % 16).toNat + 1 : Nat) := by omega
      rw [hk, Int.toNat_ofNat]
      exact ring_contents_set cq tn c (by omega) (((tn : Int) - (hn : Int)) % 16).toNat hn
        (by omega) (by omega) (by omega)
    · rw [hcount]; constructor
      · intro hc; exact absurd hc hf'
      · intro _; omega
    · intro hc; exact absurd hc hf'

/-- The worker's take on a non-empty queue with its indices in range: it is defined,
keeps the indices in range, and removes the oldest live entry. -/
theorem sound_thread_take_spec (q : SoundQueue) (h : QueueInv q) :
    (is_queue_empty q = true ↔ queue_contents q = []) ∧
    (is_queue_empty q = false →
      ∃ c q', sound_thread_take q = some (c, q') ∧ QueueInv q' ∧
        queue_contents q = c :: queue_contents q') := by
  obtain ⟨cq, hd, tl⟩ := q
  obtain ⟨hlen, ⟨hh0, hh1⟩, ⟨ht0, ht1⟩⟩ := h
  simp only at hlen hh0 hh1 ht0 ht1
  obtain ⟨hn, rfl⟩ := Int.eq_ofNat_of_zero_le hh0
  obtain ⟨tn, rfl⟩ := Int.eq_ofNat_of_zero_le ht0
  have hcount : (queue_contents ⟨cq, hn, tn⟩).length = (((tn : Int) - (hn : Int)) % 16).toNat := by
    simp only [queue_contents, ring_contents_length]
  constructor
  · rw [← List.length_eq_zero, hcount]
    simp only [is_queue_empty, decide_eq_true_eq]
    omega
  · intro hne
    simp only [is_queue_empty, decide_eq_false_iff_not] at hne
    have hb : (0 : Int) ≤ (hn : Int) ∧ (hn : Int) < (cq.length : Int) := by omega
    have hlt : hn < cq.length := by omega
    refine ⟨cq[hn], ⟨cq, Int.tmod ((hn : Int) + 1) QUEUE_SIZE, tn⟩, ?_, ?_, ?_⟩
    · simp [sound_thread_take, hb, List.getElem?_eq_getElem hlt]
    · refine ⟨hlen, ?_, ⟨ht0, ht1⟩⟩
      simp only [tmod_succ_16]
      omega
    · simp only [queue_contents, tmod_succ_16, Int.toNat_ofNat]
      have hk : (((tn : Int) - (hn : Int)) % 16).toNat
          = (((tn : Int) - (((hn + 1) % 16 : Nat) : Int)) % 16).toNat + 1 := by omega
      rw [hk, ring_contents, List.getD_eq_getElem?_getD, List.getElem?_eq_getElem hlt]
      rfl

theorem queue_step_spec (q : SoundQueue) (op : QueueOp) (h : QueueInv q) :
    ∃ q', queue_step q op = some (q', (fifo_step (queue_contents q) op).2) ∧ QueueInv q' ∧
      queue_contents q' = (fifo_step (queue_contents q) op).1 := by
  cases op with
  | enqueue c =>
    obtain ⟨q', hq, hinv, hc, -, -⟩ := queue_sound_spec q c h
    exact ⟨q', by simp [queue_step, hq, fifo_step], hinv, hc⟩
  | dequeue =>
    obtain ⟨hempty, htake⟩ := sound_thread_take_spec q h
    by_cases he : is_queue_empty q = true
    · have hnil := hempty.mp he
      exact ⟨q, by simp [queue_step, he, hnil, fifo_step], h, by simp [hnil, fifo_step]⟩
    · have he' : is_queue_empty q = false := by simpa using he
      obtain ⟨c, q', ht, hinv, hc⟩ := htake he'
      exact ⟨q', by simp [queue_step, he', ht, hc, fifo_step], hinv, by simp [hc, fifo_step]⟩

/-- The ring buffer refines the bounded list queue along every sequence of
operations. -/
theorem queue_run_spec (ops : List QueueOp) :
    ∀ q, QueueInv q →
      ∃ q', queue_run q ops = some (q', (fifo_run (queue_contents q) ops).2) ∧ QueueInv q' ∧
        queue_contents q' = (fifo_run (queue_contents q) ops).1 := by
  induction ops with
  | nil => intro q h; exact ⟨q, rfl, h, rfl⟩
  | cons op ops ih =>
    intro q h
    obtain ⟨q1, hs, hinv1, hc1⟩ := queue_step_spec q op h
    obtain ⟨q2, hr, hinv2, hc2⟩ := ih q1 hinv1
    refine ⟨q2, ?_, hinv2, ?_⟩
    · simp only [queue_run, hs, hr, fifo_run, hc1]
    · simp only [fifo_run, hc2, hc1]

theorem sound_init_inv : QueueInv sound_init := by
  refine ⟨by decide, ⟨by decide, by decide⟩, ⟨by decide, by decide⟩⟩

theorem queue_reachable_inv (q : SoundQueue) (h : QueueReachable q) : QueueInv q := by
  induction h with
  | init => exact sound_init_inv
  | step q op q' taken _ hs ih =>
    obtain ⟨q1, hs1, hinv, -⟩ := queue_step_spec q op ih
    rw [hs] at hs1
    cases hs1
    exact hinv

theorem fifo_accepted_spec (ops : List QueueOp) :
    ∀ l, l ++ fifo_accepted l ops = (fifo_run l ops).2 ++ (fifo_run l ops).1 := by
  induction ops with
  | nil => intro l; simp [fifo_accepted, fifo_run]
  | cons op ops ih =>
    intro l
    cases op with
    | enqueue c =>
      by_cases hl : l.length < 15
      · have := ih (l ++ [c])
        simp only [fifo_accepted, fifo_run, fifo_step, hl, if_true, Option.toList, List.nil_append]
        rw [← this]; simp
      · have := ih l
        simp only [fifo_accepted, fifo_run, fifo_step, hl, if_false, Option.toList, List.nil_append]
        exact this
    | dequeue =>
      cases l with
      | nil =>
        have := ih []
        simp only [fifo_accepted, fifo_run, fifo_step, Option.toList, List.nil_append, List.tail_nil]
          at this ⊢
        exact this
      | cons x r =>
        have := ih r
        simp only [fifo_accepted, fifo_run, fifo_step, Option.toList, List.tail_cons,
          List.cons_append, List.nil_append, List.singleton_append]
        rw [this]

theorem fifo_run_enqueues (cs : List Int) :
    ∀ l, l.length ≤ 15 →
      fifo_run l (cs.map QueueOp.enqueue) = ((l ++ cs).take 15, []) := by
  induction cs with
  | nil => intro l hl; simp [fifo_run, List.take_of_length_le hl]
  | cons c cs ih =>
    intro l hl
    by_cases h15 : l.length < 15
    · have := ih (l ++ [c]) (by simp; omega)
      simp only [List.map_cons, fifo_run, fifo_step, h15, if_true, this, Option.toList]
      simp
    · have hl15 : l.length = 15 := by omega
      have := ih l hl
      simp only [List.map_cons, fifo_run, fifo_step, h15, if_false, this, Option.toList]
      simp [List.take_append_of_le_length (Nat.le_of_eq hl15.symm)]

/-- C15: in every state of the queue reachable from `sound_init` by any interleaving of
`queue_sound` calls and worker takes, the array has its 16 cells, `0 ≤ head < 16`,
`0 ≤ tail < 16`, and the number of live entries, `(tail - head) mod 16`, is at most
15. -/
theorem queue_capacity_invariant (q : SoundQueue) (h : QueueReachable q) :
    q.command_queue.length = 16 ∧
    (0 ≤ q.head ∧ q.head < 16) ∧ (0 ≤ q.tail ∧ q.tail < 16) ∧
    ((queue_contents q).length : Int) = (q.tail - q.head) % 16 ∧
    (q.tail - q.head) % 16 ≤ 15 ∧
    (queue_contents q).length ≤ 15 := by
  obtain ⟨hlen, hh, ht⟩ := queue_reachable_inv q h
  have hcount : ((queue_contents q).length : Int) = (q.tail - q.head) % 16 := by
    simp only [queue_contents, ring_contents_length]
    omega
  exact ⟨hlen, hh, ht, hcount, by omega, by omega⟩

/-- Witness of `queue_capacity_invariant`: the queue after one accepted command. -/
theorem queue_capacity_invariant_witness :
    QueueReachable { command_queue := 3 :: List.replicate 15 0, head := 0, tail := 1 } ∧
    ((3 :: List.replicate 15 (0 : Int)).length = 16 ∧
     (0 ≤ (0 : Int) ∧ (0 : Int) < 16) ∧ (0 ≤ (1 : Int) ∧ (1 : Int) < 16) ∧
     ((queue_contents
        { command_queue := 3 :: List.replicate 15 0, head := 0, tail := 1 }).length : Int)
       = ((1 : Int) - 0) % 16 ∧
     ((1 : Int) - 0) % 16 ≤ 15 ∧
     (queue_contents
        { command_queue := 3 :: List.replicate 15 0, head := 0, tail := 1 }).length ≤ 15) :=
  have hr : QueueReachable { command_queue := 3 :: List.replicate 15 0, head := 0, tail := 1 } :=
    QueueReachable.step sound_init (QueueOp.enqueue 3) _ none QueueReachable.init (by decide)
  ⟨hr, queue_capacity_invariant _ hr⟩

/-- C16: `queue_sound` on a full queue returns without changing `head`, `tail` or any
entry and reports nothing; on a reachable queue full means 15 live entries; and
enqueueing any commands into the empty queue with no consumption leaves exactly the
first 15 of them, in order (so of 20 commands the last 5 are discarded). -/
theorem queue_drops_when_full (q : SoundQueue) (cmd : Int) (cs : List Int) :
    (is_queue_full q = true → queue_sound q cmd = some q) ∧
    (QueueReachable q → (is_queue_full q = true ↔ (queue_contents q).length = 15)) ∧
    ∃ q', queue_run sound_init (cs.map QueueOp.enqueue) = some (q', []) ∧
      queue_contents q' = cs.take 15 := by
  refine ⟨?_, ?_, ?_⟩
  · intro hf
    simp [queue_sound, hf]
  · intro hr
    obtain ⟨_, _, _, _, hfull, _⟩ := queue_sound_spec q cmd (queue_reachable_inv q hr)
    exact hfull
  · obtain ⟨q', hrun, -, hc⟩ := queue_run_spec (cs.map QueueOp.enqueue) sound_init sound_init_inv
    have hinit : queue_contents sound_init = [] := by decide
    rw [hinit, fifo_run_enqueues cs [] (by simp)] at hrun hc
    exact ⟨q', hrun, by simpa using hc⟩

/-- Witness of `queue_drops_when_full`: twenty commands numbered 1 to 20 leave the
commands 1 to 15 in the queue, and one more `queue_sound` changes nothing. -/
theorem queue_drops_when_full_witness :
    (∃ q', queue_run sound_init
        ([1, 2, 3, 4, 5, 6, 7, 8, 9, 10, 11, 12, 13, 14, 15, 16, 17, 18, 19, 20].map
          QueueOp.enqueue) = some (q', []) ∧
      queue_contents q' = [1, 2, 3, 4, 5, 6, 7, 8, 9, 10, 11, 12, 13, 14, 15]) ∧
    queue_sound { command_queue := [1, 2, 3, 4, 5, 6, 7, 8, 9, 10, 11, 12, 13, 14, 15, 0],
                  head := 0, tail := 15 } 21 =
      some { command_queue := [1, 2, 3, 4, 5, 6, 7, 8, 9, 10, 11, 12, 13, 14, 15, 0],
             head := 0, tail := 15 } :=
  ⟨(queue_drops_when_full sound_init 0
      [1, 2, 3, 4, 5, 6, 7, 8, 9, 10, 11, 12, 13, 14, 15, 16, 17, 18, 19, 20]).2.2,
   (queue_drops_when_full
      { command_queue := [1, 2, 3, 4, 5, 6, 7, 8, 9, 10, 11, 12, 13, 14, 15, 0],
        head := 0, tail := 15 } 21 []).1 (by decide)⟩

/-- C17: for every sequence of enqueue and dequeue operations from the empty queue, the
ring buffer is defined and behaves exactly like the list queue bounded at 15: the
commands the worker takes are those the list queue hands out, the live entries are the
list, and the commands taken followed by the live entries are the accepted commands in
their order of arrival, so the commands taken are a prefix of the accepted ones. -/
theorem queue_is_fifo (ops : List QueueOp) :
    ∃ q, queue_run sound_init ops = some (q, (fifo_run [] ops).2) ∧
      queue_contents q = (fifo_run [] ops).1 ∧
      (fifo_run [] ops).2 ++ queue_contents q = fifo_accepted [] ops ∧
      (fifo_run [] ops).2 <+: fifo_accepted [] ops := by
  obtain ⟨q, hrun, -, hc⟩ := queue_run_spec ops sound_init sound_init_inv
  have hinit : queue_contents sound_init = [] := by decide
  rw [hinit] at hrun hc
  have hacc := fifo_accepted_spec ops []
  simp only [List.nil_append] at hacc
  refine ⟨q, hrun, hc, by rw [hc, hacc], ?_⟩
  rw [hacc]
  exact List.prefix_append _ _

/-- C18: every dequeued command from 1 to 4 issues exactly one playback request, for
its own asset (1 dingdong.wav, 2 alarm.wav, 3 correct.wav, 4 incorrect.wav, pairwise
distinct); 5 issues only the request that terminates playback; every other value
issues no request; and the five producers enqueue exactly these codes. -/
theorem sound_command_mapping (c : Int) (q : SoundQueue) :
    sound_thread_dispatch 1 = ["aplay -q audio-files/dingdong.wav &"] ∧
    sound_thread_dispatch 2 = ["aplay -q audio-files/alarm.wav &"] ∧
    sound_thread_dispatch 3 = ["aplay -q audio-files/correct.wav &"] ∧
    sound_thread_dispatch 4 = ["aplay -q audio-files/incorrect.wav &"] ∧
    sound_thread_dispatch 5 = ["killall -q aplay"] ∧
    (c < 1 ∨ 5 < c → sound_thread_dispatch c = []) ∧
    [DOORBELL_WAV, ALARM_WAV, CORRECT_WAV, INCORRECT_WAV].Nodup ∧
    sound_play_doorbell q = queue_sound q 1 ∧ sound_play_alarm q = queue_sound q 2 ∧
    sound_play_correct q = queue_sound q 3 ∧ sound_play_incorrect q = queue_sound q 4 ∧
    sound_stop q = queue_sound q 5 := by
  refine ⟨by decide, by decide, by decide, by decide, by decide, ?_, by decide,
    rfl, rfl, rfl, rfl, rfl⟩
  intro hc
  have h1 : c ≠ 1 := by omega
  have h2 : c ≠ 2 := by omega
  have h3 : c ≠ 3 := by omega
  have h4 : c ≠ 4 := by omega
  have h5 : c ≠ 5 := by omega
  simp [sound_thread_dispatch, file_to_play, h1, h2, h3, h4, h5]

/-- Witness of `sound_command_mapping`: the value 0 and the value 6 issue nothing. -/
theorem sound_command_mapping_witness :
    sound_thread_dispatch 0 = [] ∧ sound_thread_dispatch 6 = [] :=
  ⟨(sound_command_mapping 0 sound_init).2.2.2.2.2.1 (by decide),
   (sound_command_mapping 6 sound_init).2.2.2.2.2.1 (by decide)⟩

/-- C19 (code at the failing input): with the device open and the baseline at
`(2000, 2000, 2000)`, a tick in which all three SPI transfers fail (`ioctl` returns -1)
makes `hal_spi_adc_read_ch` return -1 three times; section D takes `(-1, -1, -1)` for a
sample, finds `delta = 6003 > 1000`, raises the tamper alarm and overwrites the
baseline. With a baseline near zero the same failure raises no alarm but still
replaces the baseline by `(-1, -1, -1)`. With the device not open the locals `x, y, z`
are never written, and whatever they hold, here `(5000, 0, 0)`, is taken for a
sample. -/
theorem tamper_read_failure_raises_alarm :
    hal_spi_adc_read_ch 3 ACC_X_CH { ret := -1, rx1 := 0, rx2 := 0 } = -1 ∧
    Accel_readXYZ 3 (fun _ => { ret := -1, rx1 := 0, rx2 := 0 }) 0 0 0 = (-1, -1, -1) ∧
    tamper_delta { last_x := 2000, last_y := 2000, last_z := 2000 } (-1) (-1) (-1) = 6003 ∧
    (tamper_step 3 (fun _ => { ret := -1, rx1 := 0, rx2 := 0 })
        (fun _ => { ret := -1, rx1 := 0, rx2 := 0 }) 0 0 0
        { last_x := 2000, last_y := 2000, last_z := 2000 }).tamper = true ∧
    (tamper_step 3 (fun _ => { ret := -1, rx1 := 0, rx2 := 0 })
        (fun _ => { ret := -1, rx1 := 0, rx2 := 0 }) 0 0 0
        { last_x := 2000, last_y := 2000, last_z := 2000 }).state =
      { last_x := -1, last_y := -1, last_z := -1 } ∧
    Action.sound_play_alarm ∈
      (tamper_step 3 (fun _ => { ret := -1, rx1 := 0, rx2 := 0 })
        (fun _ => { ret := -1, rx1 := 0, rx2 := 0 }) 0 0 0
        { last_x := 2000, last_y := 2000, last_z := 2000 }).actions ∧
    tamper_step 3 (fun _ => { ret := -1, rx1 := 0, rx2 := 0 })
        (fun _ => { ret := -1, rx1 := 0, rx2 := 0 }) 0 0 0
        { last_x := 100, last_y := 100, last_z := 100 } =
      { state := { last_x := -1, last_y := -1, last_z := -1 }, tamper := false,
        actions := [Action.Accel_readXYZ] } ∧
    (tamper_step (-1) (fun _ => { ret := 1, rx1 := 0, rx2 := 0 })
        (fun _ => { ret := 1, rx1 := 0, rx2 := 0 }) 5000 0 0
        { last_x := 0, last_y := 0, last_z := 0 }).tamper = true := by
  decide

/-! ## Debounce -/

/-- Section B is the store, the wait, and the judgement. -/
theorem pin_feed_eq_store_judge (st : PinState) (d : joystick_dir_t)
    (hd : d ≠ JOY_NONE ∧ d ≠ JOY_CENTER) :
    (pin_feed st d).map (fun r => (r.state, r.outcome)) = (pin_store st d).bind pin_judge := by
  unfold pin_feed pin_store
  rw [if_pos hd]
  by_cases hb : 0 ≤ st.input_count ∧ st.input_count < (st.input_buffer.length : Int)
  · rw [if_pos hb, if_pos hb]
    simp only [Option.bind_some, pin_judge]
    by_cases hc : st.input_count + 1 ≥ (PIN_LENGTH : Int)
    · cases hcmp : pin_compare_loop (st.input_buffer.set st.input_count.toNat d) PIN_LENGTH 0 true with
      | none => simp [hc, hcmp]
      | some b => cases b <;> simp [hc, hcmp]
    · simp [hc]
  · rw [if_neg hb, if_neg hb]
    rfl

/-- One reading from a state of the run: the step is defined and keeps the invariant. -/
theorem pin_loop_step_inv (st : PinState) (pc : PinPc) (d : joystick_dir_t)
    (h : PinLoopInv st pc) :
    ∃ st' pc' ev, pin_loop_step st pc d = some (st', pc', ev) ∧ PinLoopInv st' pc' := by
  cases pc with
  | polling =>
    obtain ⟨p, hp⟩ := h
    by_cases hd : d ≠ JOY_NONE ∧ d ≠ JOY_CENTER
    · obtain ⟨r, hr, -, -⟩ := pin_feed_holds st p d hp
      have heq := pin_feed_eq_store_judge st d hd
      rw [hr] at heq
      cases hs : pin_store st d with
      | none => rw [hs] at heq; simp at heq
      | some st1 =>
        refine ⟨st1, PinPc.awaiting_release, ReadingEvent.appended d, ?_, ⟨st, p, d, hp, hd, hs⟩⟩
        simp only [pin_loop_step, if_pos hd, hs]
    · exact ⟨st, PinPc.polling, ReadingEvent.ignored d, by simp only [pin_loop_step, if_neg hd],
        ⟨p, hp⟩⟩
  | awaiting_release =>
    obtain ⟨st0, p, d0, hp, hd0, hs⟩ := h
    by_cases hd : d = JOY_NONE
    · obtain ⟨r, hr, hh, -⟩ := pin_feed_holds st0 p d0 hp
      have heq := pin_feed_eq_store_judge st0 d0 hd0
      rw [hr, hs] at heq
      simp only [Option.map_some', Option.some_bind] at heq
      refine ⟨r.state, PinPc.polling, ReadingEvent.released r.outcome, ?_, ⟨_, hh⟩⟩
      simp only [pin_loop_step, if_pos hd, ← heq]
    · exact ⟨st, PinPc.awaiting_release, ReadingEvent.held d,
        by simp only [pin_loop_step, if_neg hd], ⟨st0, p, d0, hp, hd0, hs⟩⟩

/-- The run is defined on every sequence of readings. -/
theorem pin_loop_run_defined (ds : List joystick_dir_t) :
    ∀ st pc, PinLoopInv st pc → ∃ st' pc' evs, pin_loop_run st pc ds = some (st', pc', evs) := by
  induction ds with
  | nil => intro st pc _; exact ⟨st, pc, [], rfl⟩
  | cons d ds ih =>
    intro st pc h
    obtain ⟨st1, pc1, ev, hs, hinv⟩ := pin_loop_step_inv st pc d h
    obtain ⟨st2, pc2, evs, hr⟩ := ih st1 pc1 hinv
    exact ⟨st2, pc2, ev :: evs, by simp only [pin_loop_run, hs, hr]⟩

/-- What one reading gives rise to, by the place where it is taken. -/
theorem pin_loop_step_event (st st' : PinState) (pc pc' : PinPc) (d : joystick_dir_t)
    (ev : ReadingEvent) (h : pin_loop_step st pc d = some (st', pc', ev)) :
    (pc = PinPc.polling ∧
      (((d ≠ JOY_NONE ∧ d ≠ JOY_CENTER) ∧ ev = ReadingEvent.appended d ∧
          pc' = PinPc.awaiting_release) ∨
       (¬ (d ≠ JOY_NONE ∧ d ≠ JOY_CENTER) ∧ ev = ReadingEvent.ignored d ∧
          pc' = PinPc.polling))) ∨
    (pc = PinPc.awaiting_release ∧
      ((d = JOY_NONE ∧ (∃ o, ev = ReadingEvent.released o) ∧ pc' = PinPc.polling) ∨
       (d ≠ JOY_NONE ∧ ev = ReadingEvent.held d ∧ pc' = PinPc.awaiting_release))) := by
  cases pc with
  | polling =>
    left
    refine ⟨rfl, ?_⟩
    by_cases hd : d ≠ JOY_NONE ∧ d ≠ JOY_CENTER
    · left
      simp only [pin_loop_step, if_pos hd] at h
      cases hs : pin_store st d with
      | none => rw [hs] at h; cases h
      | some st1 =>
        rw [hs] at h
        cases h
        exact ⟨hd, rfl, rfl⟩
    · right
      simp only [pin_loop_step, if_neg hd] at h
      cases h
      exact ⟨hd, rfl, rfl⟩
  | awaiting_release =>
    right
    refine ⟨rfl, ?_⟩
    by_cases hd : d = JOY_NONE
    · left
      simp only [pin_loop_step, if_pos hd] at h
      cases hj : pin_judge st with
      | none => rw [hj] at h; cases h
      | some r =>
        obtain ⟨st1, o⟩ := r
        rw [hj] at h
        cases h
        exact ⟨hd, ⟨o, rfl⟩, rfl⟩
    · right
      simp only [pin_loop_step, if_neg hd] at h
      cases h
      exact ⟨hd, rfl, rfl⟩

/-- The events of a run, reading by reading: a release is a `JOY_NONE` reading, an
append is the reading it stores, and between two appends (and before the first append
of a run that starts inside the wait loop) there is a release. -/
theorem pin_loop_trace (ds : List joystick_dir_t) :
    ∀ (st : PinState) (pc : PinPc) (st' : PinState) (pc' : PinPc) (evs : List ReadingEvent),
      pin_loop_run st pc ds = some (st', pc', evs) →
      evs.length = ds.length ∧
      (∀ (k : Nat) (o : Option Outcome), evs[k]? = some (ReadingEvent.released o) → ds[k]? = some JOY_NONE) ∧
      (∀ (i : Nat) (d : joystick_dir_t), evs[i]? = some (ReadingEvent.appended d) → ds[i]? = some d) ∧
      (pc = PinPc.awaiting_release → ∀ (j : Nat) (d : joystick_dir_t), evs[j]? = some (ReadingEvent.appended d) →
        ∃ (k : Nat) (o : Option Outcome), k < j ∧ evs[k]? = some (ReadingEvent.released o)) ∧
      (∀ (i j : Nat) (di dj : joystick_dir_t), i < j → evs[i]? = some (ReadingEvent.appended di) →
        evs[j]? = some (ReadingEvent.appended dj) →
        ∃ (k : Nat) (o : Option Outcome), i < k ∧ k < j ∧ evs[k]? = some (ReadingEvent.released o)) := by
  induction ds with
  | nil =>
    intro st pc st' pc' evs h
    simp only [pin_loop_run, Option.some.injEq, Prod.mk.injEq] at h
    obtain ⟨-, -, rfl⟩ := h
    simp
  | cons d ds ih =>
    intro st pc st' pc' evs h
    simp only [pin_loop_run] at h
    cases hs : pin_loop_step st pc d with
    | none => rw [hs] at h; cases h
    | some r1 =>
      obtain ⟨st1, pc1, ev⟩ := r1
      rw [hs] at h
      simp only at h
      cases hr : pin_loop_run st1 pc1 ds with
      | none => rw [hr] at h; cases h
      | some r2 =>
        obtain ⟨st2, pc2, evs'⟩ := r2
        rw [hr] at h
        simp only [Option.some.injEq, Prod.mk.injEq] at h
        obtain ⟨-, -, rfl⟩ := h
        obtain ⟨hlen, hrel, happ, haw, hsep⟩ := ih st1 pc1 st2 pc2 evs' hr
        have hev := pin_loop_step_event st st1 pc pc1 d ev hs
        refine ⟨by simp [hlen], ?_, ?_, ?_, ?_⟩
        · intro k o hk
          cases k with
          | zero =>
            simp only [List.getElem?_cons_zero, Option.some.injEq] at hk
            subst hk
            rcases hev with ⟨-, ⟨-, he, -⟩ | ⟨-, he, -⟩⟩ | ⟨-, ⟨hd, -, -⟩ | ⟨-, he, -⟩⟩
            · cases he
            · cases he
            · simp [hd]
            · cases he
          | succ k =>
            simp only [List.getElem?_cons_succ] at hk ⊢
            exact hrel k o hk
        · intro i d' hi
          cases i with
          | zero =>
            simp only [List.getElem?_cons_zero, Option.some.injEq] at hi
            subst hi
            rcases hev with ⟨-, ⟨-, he, -⟩ | ⟨-, he, -⟩⟩ | ⟨-, ⟨-, ⟨o, he⟩, -⟩ | ⟨-, he, -⟩⟩
            · cases he; simp
            · cases he
            · cases he
            · cases he
          | succ i =>
            simp only [List.getElem?_cons_succ] at hi ⊢
            exact happ i d' hi
        · intro hpc j d' hj
          subst hpc
          cases j with
          | zero =>
            simp only [List.getElem?_cons_zero, Option.some.injEq] at hj
            subst hj
            rcases hev with ⟨hc, -⟩ | ⟨-, ⟨-, ⟨o, he⟩, -⟩ | ⟨-, he, -⟩⟩
            · cases hc
            · cases he
            · cases he
          | succ j =>
            simp only [List.getElem?_cons_succ] at hj
            rcases hev with ⟨hc, -⟩ | ⟨-, ⟨-, ⟨o, he⟩, -⟩ | ⟨-, -, hpc1⟩⟩
            · cases hc
            · exact ⟨0, o, by omega, by simp [he]⟩
            · obtain ⟨k, o, hk, hke⟩ := haw hpc1 j d' hj
              exact ⟨k + 1, o, by omega, by simpa using hke⟩
        · intro i j di dj hij hi hj
          cases j with
          | zero => omega
          | succ j =>
            simp only [List.getElem?_cons_succ] at hj
            cases i with
            | zero =>
              simp only [List.getElem?_cons_zero, Option.some.injEq] at hi
              subst hi
              rcases hev with ⟨-, ⟨-, -, hpc1⟩ | ⟨-, he, -⟩⟩ | ⟨-, ⟨-, ⟨o, he⟩, -⟩ | ⟨-, he, -⟩⟩
              · obtain ⟨k, o, hk, hke⟩ := haw hpc1 j dj hj
                exact ⟨k + 1, o, by omega, by omega, by simpa using hke⟩
              · cases he
              · cases he
              · cases he
            | succ i =>
              simp only [List.getElem?_cons_succ] at hi
              obtain ⟨k, o, hk1, hk2, hke⟩ := hsep i j di dj (by omega) hi hj
              exact ⟨k + 1, o, by omega, by omega, by simpa using hke⟩

/-- A direction that keeps being read inside the wait loop changes nothing. -/
theorem pin_loop_run_held (d : joystick_dir_t) (hd : d ≠ JOY_NONE) (st : PinState) (m : Nat) :
    pin_loop_run st PinPc.awaiting_release (List.replicate m d) =
      some (st, PinPc.awaiting_release, List.replicate m (ReadingEvent.held d)) := by
  induction m with
  | zero => rfl
  | succ m ih =>
    simp only [List.replicate_succ, pin_loop_run, pin_loop_step, if_neg hd, ih]

/-- C20: in every run of section B over any sequence of Direction Source readings,
starting with an empty buffer, the run is defined, every append stores the reading it
was taken from, and between any two appends to the PinBuffer there is a reading that
is `JOY_NONE` (the one on which `hal_joystick_wait_until_released` returned); a gesture
held over any number of consecutive readings is appended exactly once. -/
theorem joystick_debounce (buf : List joystick_dir_t) (readings : List joystick_dir_t)
    (h : buf.length = PIN_LENGTH) :
    (∃ st pc evs,
      pin_loop_run { input_buffer := buf, input_count := 0 } PinPc.polling readings =
        some (st, pc, evs) ∧
      evs.length = readings.length ∧
      (∀ (i : Nat) (d : joystick_dir_t), evs[i]? = some (ReadingEvent.appended d) → readings[i]? = some d) ∧
      (∀ (i j : Nat) (di dj : joystick_dir_t), i < j → evs[i]? = some (ReadingEvent.appended di) →
        evs[j]? = some (ReadingEvent.appended dj) →
        ∃ k : Nat, i < k ∧ k < j ∧ readings[k]? = some JOY_NONE)) ∧
    (∀ d m, d ≠ JOY_NONE ∧ d ≠ JOY_CENTER →
      ∃ st, pin_loop_run { input_buffer := buf, input_count := 0 } PinPc.polling
          (List.replicate (m + 1) d) =
        some (st, PinPc.awaiting_release,
          ReadingEvent.appended d :: List.replicate m (ReadingEvent.held d))) := by
  have hinv : PinLoopInv { input_buffer := buf, input_count := 0 } PinPc.polling :=
    ⟨[], pin_holds_init buf h⟩
  constructor
  · obtain ⟨st, pc, evs, hrun⟩ := pin_loop_run_defined readings _ _ hinv
    obtain ⟨hlen, hrel, happ, -, hsep⟩ := pin_loop_trace readings _ _ _ _ _ hrun
    refine ⟨st, pc, evs, hrun, hlen, happ, ?_⟩
    intro i j di dj hij hi hj
    obtain ⟨k, o, hk1, hk2, hke⟩ := hsep i j di dj hij hi hj
    exact ⟨k, hk1, hk2, hrel k o hke⟩
  · intro d m hd
    obtain ⟨st1, pc1, ev, hs, -⟩ := pin_loop_step_inv _ PinPc.polling d hinv
    have hev := pin_loop_step_event _ _ _ _ _ _ hs
    rcases hev with ⟨-, ⟨-, he, hpc⟩ | ⟨hnd, -, -⟩⟩ | ⟨hc, -⟩
    · subst he hpc
      refine ⟨st1, ?_⟩
      simp only [List.replicate_succ, pin_loop_run, hs, pin_loop_run_held d hd.1 st1 m]
    · exact absurd hd hnd
    · cases hc

/-- Witness of `joystick_debounce`: Left held for three readings, released, then Up. -/
theorem joystick_debounce_witness :
    [JOY_NONE, JOY_NONE, JOY_NONE, JOY_NONE].length = PIN_LENGTH ∧
    ((∃ st pc evs,
      pin_loop_run { input_buffer := [JOY_NONE, JOY_NONE, JOY_NONE, JOY_NONE], input_count := 0 }
          PinPc.polling [JOY_LEFT, JOY_LEFT, JOY_LEFT, JOY_NONE, JOY_NONE, JOY_UP] =
        some (st, pc, evs) ∧
      evs.length = [JOY_LEFT, JOY_LEFT, JOY_LEFT, JOY_NONE, JOY_NONE, JOY_UP].length ∧
      (∀ (i : Nat) (d : joystick_dir_t), evs[i]? = some (ReadingEvent.appended d) →
        [JOY_LEFT, JOY_LEFT, JOY_LEFT, JOY_NONE, JOY_NONE, JOY_UP][i]? = some d) ∧
      (∀ (i j : Nat) (di dj : joystick_dir_t), i < j →
        evs[i]? = some (ReadingEvent.appended di) →
        evs[j]? = some (ReadingEvent.appended dj) →
        ∃ k : Nat, i < k ∧ k < j ∧
          [JOY_LEFT, JOY_LEFT, JOY_LEFT, JOY_NONE, JOY_NONE, JOY_UP][k]? = some JOY_NONE)) ∧
    (∀ d m, d ≠ JOY_NONE ∧ d ≠ JOY_CENTER →
      ∃ st, pin_loop_run { input_buffer := [JOY_NONE, JOY_NONE, JOY_NONE, JOY_NONE],
                           input_count := 0 } PinPc.polling (List.replicate (m + 1) d) =
        some (st, PinPc.awaiting_release,
          ReadingEvent.appended d :: List.replicate m (ReadingEvent.held d)))) ∧
    pin_loop_run { input_buffer := [JOY_NONE, JOY_NONE, JOY_NONE, JOY_NONE], input_count := 0 }
        PinPc.polling [JOY_LEFT, JOY_LEFT, JOY_LEFT, JOY_NONE, JOY_NONE, JOY_UP] =
      some ({ input_buffer := [JOY_LEFT, JOY_UP, JOY_NONE, JOY_NONE], input_count := 2 },
        PinPc.awaiting_release,
        [ReadingEvent.appended JOY_LEFT, ReadingEvent.held JOY_LEFT, ReadingEvent.held JOY_LEFT,
         ReadingEvent.released none, ReadingEvent.ignored JOY_NONE,
         ReadingEvent.appended JOY_UP]) :=
  ⟨by decide, joystick_debounce _ _ (by decide), by decide⟩

/-- Rounding a longer mantissa, with or without a sticky remainder: the successor of
the quotient is taken whenever the dropped bits are above one half. -/
theorem round_to_inexact_sticky (p m : Nat) (sticky : Bool) (e : Int)
    (h : ¬ bit_length m ≤ p) :
    (round_to p m sticky e).e = e + ((bit_length m - p : Nat) : Int) ∧
    m / 2 ^ (bit_length m - p) ≤ (round_to p m sticky e).m ∧
    (round_to p m sticky e).m ≤ m / 2 ^ (bit_length m - p) + 1 ∧
    (2 ^ (bit_length m - p - 1) < m % 2 ^ (bit_length m - p) →
      (round_to p m sticky e).m = m / 2 ^ (bit_length m - p) + 1) := by
  simp only [round_to, h, if_false]
  refine ⟨trivial, ?_, ?_, ?_⟩
  · split <;> omega
  · split <;> omega
  · intro hr
    simp [hr]

/-- The `double` constant 0.15. -/
theorem motion_thresh_eq : MOTION_THRESH = { m := 5404319552844595, e := -55 } := by decide

/-- The ratio test on counts that `float` represents exactly: 15 percent or more of
changed pixels gives a verdict of motion. -/
theorem motion_verdict_sufficient (c n : Nat) (hn : n < 2 ^ 24) (hn0 : 0 < n) (hc : c ≤ n)
    (h : 15 * n ≤ 100 * c) : motion_verdict c n = true := by
  have hblc : bit_length c ≤ 24 := (bit_length_le_iff c 24).mpr (by omega)
  have hbln : bit_length n ≤ 24 := (bit_length_le_iff n 24).mpr hn
  have hLn1 : 1 ≤ bit_length n := by
    by_contra hcon
    have : bit_length n ≤ 0 := by omega
    rw [bit_length_le_iff] at this
    omega
  have hnG := lt_two_pow_bit_length n
  simp only [motion_verdict, of_nat, round_to_exact 24 c false 0 hblc,
    round_to_exact 24 n false 0 hbln]
  rw [if_neg (by omega)]
  simp only [fdiv, motion_thresh_eq]
  generalize hLn : bit_length n = Ln at hLn1 hnG hbln
  -- the integer quotient and its size
  have hkpow : 2 ^ (24 + 2 + Ln) = 2 ^ 26 * 2 ^ Ln := by rw [← pow_add]
  generalize hQ : c * 2 ^ (24 + 2 + Ln) / n = Q
  have hdm := Nat.div_add_mod (c * 2 ^ (24 + 2 + Ln)) n
  have hmod := Nat.mod_lt (c * 2 ^ (24 + 2 + Ln)) hn0
  rw [hQ] at hdm
  generalize hR : c * 2 ^ (24 + 2 + Ln) % n = R at hdm hmod
  have hGpos : 0 < 2 ^ Ln := Nat.two_pow_pos _
  have h26 : (2 : Nat) ^ 26 = 67108864 := by norm_num
  -- n * Q ≤ c * 2^26 * G < n * (Q + 1)
  have hcG : c * 2 ^ (24 + 2 + Ln) = 67108864 * (c * 2 ^ Ln) := by rw [hkpow, h26]; ring
  rw [hcG] at hdm
  -- bounds on Q in terms of G = 2 ^ Ln
  have hcle : c * 2 ^ Ln ≤ n * 2 ^ Ln := Nat.mul_le_mul_right _ hc
  have hnQ : n * Q ≤ 67108864 * (n * 2 ^ Ln) := by omega
  have hQle : Q ≤ 67108864 * 2 ^ Ln := by
    have : n * Q ≤ n * (67108864 * 2 ^ Ln) := by
      calc n * Q ≤ 67108864 * (n * 2 ^ Ln) := hnQ
        _ = n * (67108864 * 2 ^ Ln) := by ring
    exact Nat.le_of_mul_le_mul_left this hn0
  have hApos : 0 < n * 2 ^ Ln := Nat.mul_pos hn0 hGpos
  have h20 : 3 * (n * 2 ^ Ln) ≤ 20 * (c * 2 ^ Ln) := by
    have : (3 * n) * 2 ^ Ln ≤ (20 * c) * 2 ^ Ln := Nat.mul_le_mul_right _ (by omega)
    calc 3 * (n * 2 ^ Ln) = (3 * n) * 2 ^ Ln := by ring
      _ ≤ (20 * c) * 2 ^ Ln := this
      _ = 20 * (c * 2 ^ Ln) := by ring
  have h20s : 3 * n + 1 ≤ 20 * c → 3 * (n * 2 ^ Ln) + 2 ^ Ln ≤ 20 * (c * 2 ^ Ln) := by
    intro hs
    have : (3 * n + 1) * 2 ^ Ln ≤ (20 * c) * 2 ^ Ln := Nat.mul_le_mul_right _ hs
    calc 3 * (n * 2 ^ Ln) + 2 ^ Ln = (3 * n + 1) * 2 ^ Ln := by ring
      _ ≤ (20 * c) * 2 ^ Ln := this
      _ = 20 * (c * 2 ^ Ln) := by ring
  -- 20 * n * (Q + 1) > 3 * 2^26 * n * G
  have hkey : 201326592 * (n * 2 ^ Ln) < 20 * (n * Q) + 20 * n := by omega
  have hkeys : 3 * n + 1 ≤ 20 * c →
      201326592 * (n * 2 ^ Ln) + 67108864 * 2 ^ Ln < 20 * (n * Q) + 20 * n := by
    intro hs
    have := h20s hs
    omega
  have hQlow : 8388608 * 2 ^ Ln ≤ Q := by
    by_contra hcon
    have h1 : Q + 1 ≤ 8388608 * 2 ^ Ln := by omega
    have h2 : n * (Q + 1) ≤ n * (8388608 * 2 ^ Ln) := Nat.mul_le_mul_left _ h1
    have h3 : n * (Q + 1) = n * Q + n := by ring
    have h4 : n * (8388608 * 2 ^ Ln) = 8388608 * (n * 2 ^ Ln) := by ring
    omega
  have hQpos : 0 < Q := by omega
  have hLlow := two_pow_bit_length_le Q hQpos
  have hLup := lt_two_pow_bit_length Q
  have hL1 : ¬ bit_length Q ≤ 23 + Ln := by
    rw [bit_length_le_iff, pow_add]
    have : (2 : Nat) ^ 23 = 8388608 := by norm_num
    omega
  have hL2 : bit_length Q ≤ 27 + Ln := by
    rw [bit_length_le_iff, pow_add]
    have : (2 : Nat) ^ 27 = 134217728 := by norm_num
    omega
  have hround := round_to_inexact_sticky 24 Q (decide (R ≠ 0))
    (0 - 0 - ((24 + 2 + Ln : Nat) : Int)) (by omega)
  generalize round_to 24 Q (decide (R ≠ 0)) (0 - 0 - ((24 + 2 + Ln : Nat) : Int)) = res
    at hround
  obtain ⟨he, hq1, -, hup⟩ := hround
  obtain ⟨d, hd, hd3⟩ : ∃ d, bit_length Q = 24 + Ln + d ∧ d ≤ 3 :=
    ⟨bit_length Q - (24 + Ln), by omega, by omega⟩
  have hsh : bit_length Q - 24 = Ln + d := by omega
  rw [hsh] at he hq1 hup
  rw [hd] at hLlow
  have hmin : min res.e (-55) = -55 := by omega
  have hx : (res.e - (-55)).toNat = 29 + d := by omega
  simp only [fgt, hmin, hx, sub_self, Int.toNat_zero, pow_zero, Nat.mul_one, gt_iff_lt,
    decide_eq_true_eq]
  by_cases hd0 : d = 0
  · -- the quotient lies in [1/8, 1/4): the mantissa must reach 10066330
    subst hd0
    simp only [Nat.add_zero] at hq1 hup ⊢
    have h29 : (2 : Nat) ^ 29 = 536870912 := by norm_num
    rw [h29]
    suffices hm : 10066330 ≤ res.m by omega
    by_contra hcon
    have hqm := Nat.div_add_mod Q (2 ^ Ln)
    have hrlt := Nat.mod_lt Q hGpos
    generalize hq : Q / 2 ^ Ln = q at hq1 hup hqm
    generalize hr : Q % 2 ^ Ln = r at hup hqm hrlt
    have hnr : n * Q = q * (n * 2 ^ Ln) + n * r := by rw [← hqm]; ring
    by_cases hhalf : 2 ^ (Ln - 1) < r
    · have hm := hup hhalf
      have hq0 : q + 1 ≤ 10066329 := by omega
      have h1 : (q + 1) * (n * 2 ^ Ln) ≤ 10066329 * (n * 2 ^ Ln) := Nat.mul_le_mul_right _ hq0
      have h2 : n * (r + 1) ≤ n * 2 ^ Ln := Nat.mul_le_mul_left _ (by omega)
      have h3 : (q + 1) * (n * 2 ^ Ln) = q * (n * 2 ^ Ln) + n * 2 ^ Ln := by ring
      have h4 : n * (r + 1) = n * r + n := by ring
      omega
    · have hr' : r ≤ 2 ^ (Ln - 1) := by omega
      have hq0 : q ≤ 10066329 := by omega
      have h1 : q * (n * 2 ^ Ln) ≤ 10066329 * (n * 2 ^ Ln) := Nat.mul_le_mul_right _ hq0
      have h2 : n * r ≤ n * 2 ^ (Ln - 1) := Nat.mul_le_mul_left _ hr'
      have h3 : 2 * (n * 2 ^ (Ln - 1)) = n * 2 ^ Ln := by
        have : 2 ^ Ln = 2 * 2 ^ (Ln - 1) := by
          rw [← pow_succ']; congr 1; omega
        rw [this]; ring
      by_cases hG16 : 16 ≤ 2 ^ Ln
      · have h5 : n * 16 ≤ n * 2 ^ Ln := Nat.mul_le_mul_left _ hG16
        omega
      · have hs : 3 * n + 1 ≤ 20 * c := by omega
        have := hkeys hs
        omega
  · -- the quotient is at least 1/4
    have h23 : 2 ^ 23 ≤ res.m := by
      refine Nat.le_trans ?_ hq1
      rw [Nat.le_div_iff_mul_le (Nat.two_pow_pos _), ← pow_add]
      have : 24 + Ln + d - 1 = 23 + (Ln + d) := by omega
      rw [this] at hLlow
      exact hLlow
    have h30 : 2 ^ 30 ≤ 2 ^ (29 + d) := Nat.pow_le_pow_right (by decide) (by omega)
    have hmul := Nat.mul_le_mul h23 h30
    have : (2 : Nat) ^ 23 * 2 ^ 30 = 9007199254740992 := by norm_num
    omega


/-- The count of changed pixels is at most the number of pixels. -/
theorem changed_pixels_le (curr bg : List Nat) (pixels : Nat) :
    changed_pixels curr bg pixels ≤ pixels := by
  unfold changed_pixels
  refine Nat.le_trans (List.countP_le_length _) ?_
  rw [List.length_range']

/-- On frames of fewer than `2^24` pixels, whose pixel count `float` holds exactly, a
comparison in which at least 15 percent of the pixels changed returns `true`. -/
theorem camera_motion_below_float_limit (st : CamState) (bg : List Nat) (f : Frame)
    (hbg : st.has_background bg) (hwf : f.well_formed)
    (hw : f.w = st.img_w) (hh : f.h = st.img_h)
    (hpix : f.w * f.h < 2 ^ 24) (hpos : 0 < f.w * f.h)
    (h : 15 * (f.w * f.h) ≤ 100 * changed_pixels f.data bg (f.w * f.h)) :
    Option.map Prod.snd (camera_check_motion st (some f)) = some true := by
  obtain ⟨bg', hrun, -, -⟩ := camera_check_motion_compare st bg f hbg hwf hw hh
  rw [hrun, Option.map_some', motion_verdict_sufficient _ _ hpix hpos
    (changed_pixels_le f.data bg (f.w * f.h)) h]

/-- C11 (amended): with an existing background of the same dimensions `w x h` and fewer
than `2^24` pixels, so that `float` holds the pixel count exactly, let `changed` be the
number of pixels whose red-channel byte satisfies `|new - background| > 60` (strict; a
difference of exactly 60 is not counted). If `changed / (w*h) > 0.15` then
`camera_check_motion` ends and returns true. -/
theorem camera_motion_sufficient (st : CamState) (bg : List Nat) (f : Frame)
    (hbg : st.has_background bg) (hwf : f.well_formed)
    (hw : f.w = st.img_w) (hh : f.h = st.img_h)
    (hpix : f.w * f.h < 2 ^ 24)
    (h : 15 * (f.w * f.h) < 100 * changed_pixels f.data bg (f.w * f.h)) :
    (∀ q : Nat, changed_pixel f.data bg q = true ↔
      60 < |(f.data.getD (3 * q) 0 : Int) - (bg.getD (3 * q) 0 : Int)|) ∧
    changed_pixels f.data bg (f.w * f.h) =
      (List.range' 0 (f.w * f.h)).countP (changed_pixel f.data bg) ∧
    (∃ st', camera_check_motion st (some f) = some (st', true)) := by
  refine ⟨?_, rfl, ?_⟩
  · intro q
    simp only [changed_pixel, PIXEL_THRESH, decide_eq_true_eq]
    rw [← Int.natCast_natAbs]
    exact Int.ofNat_lt.symm
  · have hle := changed_pixels_le f.data bg (f.w * f.h)
    have hpos : 0 < f.w * f.h := by omega
    obtain ⟨bg', hrun, -, -⟩ := camera_check_motion_compare st bg f hbg hwf hw hh
    refine ⟨{ bg_buffer := some bg', img_w := st.img_w, img_h := st.img_h }, ?_⟩
    rw [hrun, motion_verdict_sufficient _ _ hpix hpos hle (Nat.le_of_lt h)]

/-- Witness of `camera_motion_sufficient`: on a 5x4 frame, 4 changed pixels of 20 are
20 percent and motion is reported. -/
theorem camera_motion_sufficient_witness :
    (15 * (5 * 4) <
      100 * changed_pixels (List.replicate 12 255 ++ List.replicate 48 0)
        (List.replicate 60 0) (5 * 4)) ∧
    (∃ st', camera_check_motion
        { bg_buffer := some (List.replicate 60 0), img_w := 5, img_h := 4 }
        (some { w := 5, h := 4, data := List.replicate 12 255 ++ List.replicate 48 0 }) =
      some (st', true)) :=
  ⟨by decide,
   (camera_motion_sufficient { bg_buffer := some (List.replicate 60 0), img_w := 5, img_h := 4 }
      (List.replicate 60 0)
      { w := 5, h := 4, data := List.replicate 12 255 ++ List.replicate 48 0 }
      (by decide) (by decide) rfl rfl (by decide) (by decide)).2.2⟩

/-! ## Doorbell button -/

/-- The calls of every tick from the pairs of previous and current sample. -/
theorem doorbell_run_zip (was : Bool) (samples : List Bool) :
    doorbell_run was samples =
      ((was :: samples).zip samples).map
        (fun p => if is_rising p = true then doorbell_event else []) := by
  induction samples generalizing was with
  | nil => rfl
  | cons s ss ih =>
    rw [doorbell_run, ih]
    cases was <;> cases s <;> rfl

/-- Section A on a sequence continued by another one. -/
theorem doorbell_run_append (was : Bool) (a b : List Bool) :
    doorbell_run was (a ++ b) = doorbell_run was a ++ doorbell_run ((was :: a).getLast (by simp)) b := by
  induction a generalizing was with
  | nil => rfl
  | cons s ss ih =>
    rw [List.cons_append, doorbell_run, doorbell_run, ih]
    simp [doorbell_step]

/-- The number of doorbell events of a run. -/
theorem doorbell_run_count (was : Bool) (samples : List Bool) :
    (doorbell_run was samples).count doorbell_event =
      ((was :: samples).zip samples).countP is_rising := by
  rw [doorbell_run_zip, List.count, List.countP_map]
  apply List.countP_congr
  intro p _
  cases h : is_rising p <;> simp [h, doorbell_event]

/-- A button that stays pressed gives no further event. -/
theorem doorbell_run_held (k : Nat) :
    doorbell_run true (List.replicate k true) = List.replicate k [] := by
  induction k with
  | zero => rfl
  | succ k ih => rw [List.replicate_succ, doorbell_run, List.replicate_succ]; exact congrArg _ ih

/-- C21: for every sequence of per-tick button samples, the button counting as not
pressed before the first tick, section A calls `sound_play_doorbell()` and sends the
notification `Doorbell Button Pressed` in a tick if and only if the button is pressed in
that tick and was not pressed in the tick before, and calls nothing otherwise; the number
of doorbell events is the number of false-to-true transitions; a button held across
`k + 1` ticks, at the start or after any earlier samples ending in a release, gives
exactly one event, in the first tick of the hold. -/
theorem doorbell_rising_edge (samples : List Bool) :
    (doorbell_run false samples).length = samples.length ∧
    (∀ (i : Nat) (prev cur : Bool), (false :: samples)[i]? = some prev → samples[i]? = some cur →
      (doorbell_run false samples)[i]? =
        some (if cur = true ∧ prev = false then doorbell_event else []) ∧
      ((doorbell_run false samples)[i]? = some doorbell_event ↔ cur = true ∧ prev = false)) ∧
    (doorbell_run false samples).count doorbell_event = rising_edges samples ∧
    (∀ k : Nat, doorbell_run false (List.replicate (k + 1) true) =
      doorbell_event :: List.replicate k []) ∧
    (∀ k : Nat, doorbell_run false (samples ++ false :: List.replicate (k + 1) true) =
      doorbell_run false samples ++ [] :: doorbell_event :: List.replicate k []) := by
  refine ⟨?_, ?_, ?_, ?_, ?_⟩
  · rw [doorbell_run_zip]
    simp
  · intro i prev cur hprev hcur
    have hget : (doorbell_run false samples)[i]? =
        some (if cur = true ∧ prev = false then doorbell_event else []) := by
      rw [doorbell_run_zip, List.getElem?_map, (List.getElem?_zip_eq_some (z := (prev, cur))).mpr ⟨hprev, hcur⟩]
      cases prev <;> cases cur <;> rfl
    refine ⟨hget, ?_⟩
    rw [hget]
    cases prev <;> cases cur <;> simp [doorbell_event]
  · exact doorbell_run_count false samples
  · intro k
    rw [List.replicate_succ, doorbell_run]
    exact congrArg _ (doorbell_run_held k)
  · intro k
    rw [doorbell_run_append, List.replicate_succ, doorbell_run, doorbell_run]
    exact congrArg _ (congrArg _ (congrArg _ (doorbell_run_held k)))

/-- Witness of `doorbell_rising_edge`: press, hold, release, press again gives two
events, in the ticks of the two presses. -/
theorem doorbell_rising_edge_witness :
    doorbell_run false [false, true, true, true, false, true] =
      [[], doorbell_event, [], [], [], doorbell_event] ∧
    (doorbell_run false [false, true, true, true, false, true]).count doorbell_event =
      rising_edges [false, true, true, true, false, true] ∧
    rising_edges [false, true, true, true, false, true] = 2 :=
  ⟨by decide, (doorbell_rising_edge [false, true, true, true, false, true]).2.2.1, by decide⟩

/-! ## Motion check gating -/

/-- C22: in every tick, section E calls `camera_capture` if and only if more than 200 ms
have passed since `last_motion_check` and `input_count = 0`, and it calls
`camera_check_motion` only after a capture that returned 0; the section ends whenever
the motion detector does. While a PIN entry is in progress (`1 ≤ input_count ≤ 3`)
the section ends having made no call at all, so no frame is fetched, and the static
variables of the motion detector are what they were; only `last_motion_check` moves, to
`now`, when the 200 ms have passed. -/
theorem motion_check_gating (input_count last_motion_check now capture : Int)
    (curr : Option Frame) (cam : CamState) :
    (∀ r, motion_step input_count last_motion_check now capture curr cam = some r →
      (MotionCall.camera_capture ESP32_IP ∈ r.calls ↔
        (now - last_motion_check > 200 ∧ input_count = 0)) ∧
      (MotionCall.camera_check_motion ∈ r.calls ↔
        (now - last_motion_check > 200 ∧ input_count = 0 ∧ capture = 0)) ∧
      (∀ ip, MotionCall.camera_capture ip ∈ r.calls → ip = ESP32_IP)) ∧
    ((now - last_motion_check > 200 ∧ input_count = 0 ∧ capture = 0) →
      (motion_step input_count last_motion_check now capture curr cam).isSome =
        (camera_check_motion cam curr).isSome) ∧
    ((now - last_motion_check > 200 ∧ input_count = 0 ∧ capture ≠ 0) →
      motion_step input_count last_motion_check now capture curr cam =
        some { last_motion_check := now, cam := cam,
               calls := [MotionCall.camera_capture ESP32_IP] }) ∧
    ((1 ≤ input_count ∧ input_count ≤ 3) →
      motion_step input_count last_motion_check now capture curr cam =
        some { last_motion_check :=
                 if now - last_motion_check > 200 then now else last_motion_check,
               cam := cam, calls := [] }) ∧
    (¬ now - last_motion_check > 200 →
      motion_step input_count last_motion_check now capture curr cam =
        some { last_motion_check := last_motion_check, cam := cam, calls := [] }) := by
  refine ⟨?_, ?_, ?_, ?_, ?_⟩
  · intro r hr
    unfold motion_step at hr
    by_cases h200 : now - last_motion_check > 200
    · by_cases hic : input_count = 0
      · by_cases hcap : capture = 0
        · rw [if_pos h200, if_pos hic, if_pos hcap] at hr
          match hm : camera_check_motion cam curr, hr with
          | some (cam', true), hr =>
            simp only [Option.some.injEq] at hr
            subst hr
            simp [h200, hic, hcap]
          | some (cam', false), hr =>
            simp only [Option.some.injEq] at hr
            subst hr
            simp [h200, hic, hcap]
        · rw [if_pos h200, if_pos hic, if_neg hcap] at hr
          simp only [Option.some.injEq] at hr
          subst hr
          simp [h200, hic, hcap]
      · rw [if_pos h200, if_neg hic] at hr
        simp only [Option.some.injEq] at hr
        subst hr
        simp [hic]
    · rw [if_neg h200] at hr
      simp only [Option.some.injEq] at hr
      subst hr
      simp [h200]
  · rintro ⟨h200, hic, hcap⟩
    unfold motion_step
    rw [if_pos h200, if_pos hic, if_pos hcap]
    match camera_check_motion cam curr with
    | none => rfl
    | some (cam', true) => rfl
    | some (cam', false) => rfl
  · rintro ⟨h200, hic, hcap⟩
    unfold motion_step
    rw [if_pos h200, if_pos hic, if_neg hcap]
  · rintro ⟨h1, h3⟩
    have hic : ¬ input_count = 0 := by omega
    unfold motion_step
    by_cases h200 : now - last_motion_check > 200
    · rw [if_pos h200, if_neg hic, if_pos h200]
    · rw [if_neg h200, if_neg h200]
  · intro h200
    unfold motion_step
    rw [if_neg h200]

/-- Witness of `motion_check_gating`: with two directions of a PIN stored and a second
gone by since the last check, the tick fetches nothing and leaves the background model
alone; with no PIN entry in progress it fetches. -/
theorem motion_check_gating_witness :
    ((1 : Int) ≤ 2 ∧ (2 : Int) ≤ 3) ∧
    motion_step 2 5000 6000 0 (some { w := 1, h := 1, data := [9, 9, 9] })
        { bg_buffer := some [0, 0, 0], img_w := 1, img_h := 1 } =
      some { last_motion_check := 6000,
             cam := { bg_buffer := some [0, 0, 0], img_w := 1, img_h := 1 }, calls := [] } ∧
    motion_step 0 5000 6000 0 (some { w := 1, h := 1, data := [9, 9, 9] })
        { bg_buffer := some [0, 0, 0], img_w := 1, img_h := 1 } =
      some { last_motion_check := 6000,
             cam := { bg_buffer := some [1, 0, 0], img_w := 1, img_h := 1 },
             calls := [MotionCall.camera_capture ESP32_IP, MotionCall.camera_check_motion] } :=
  ⟨⟨by decide, by decide⟩,
   (motion_check_gating 2 5000 6000 0 (some { w := 1, h := 1, data := [9, 9, 9] })
      { bg_buffer := some [0, 0, 0], img_w := 1, img_h := 1 }).2.2.2.1 ⟨by decide, by decide⟩,
   by decide⟩

/-! ## LED driver -/

/-- The two fields of a `timespec` built from a millisecond count ask for that many
milliseconds. -/
theorem requested_ns_of_ms (ms : Int) :
    requested_ns (HalCall.nanosleep (Int.tdiv ms 1000) (Int.tmod ms 1000 * 1000000)) =
      ms * 1000000 := by
  have h := Int.tdiv_add_tmod ms 1000
  simp only [requested_ns]
  omega

/-- The calls and the requested sleep of `k` iterations of the flash loop. -/
theorem flash_red_loop_spec (period_ms half_ms : Int) (h0 : 0 ≤ half_ms)
    (h1 : half_ms ≤ period_ms) (k : Nat) :
    flash_red_loop period_ms half_ms k =
      (List.replicate k (red_cycle half_ms (period_ms - half_ms))).flatten ∧
    total_requested_ns (flash_red_loop period_ms half_ms k) = (k : Int) * period_ms * 1000000 := by
  induction k with
  | zero => exact ⟨rfl, by simp [flash_red_loop, total_requested_ns]⟩
  | succ k ih =>
    obtain ⟨ih1, ih2⟩ := ih
    constructor
    · rw [flash_red_loop, ih1, List.replicate_succ, List.flatten_cons]
      simp only [red_cycle, hal_led_red_on, hal_led_red_off, List.cons_append, List.nil_append,
        List.append_assoc]
      rw [Int.tdiv_eq_ediv h0 (by decide), Int.tmod_eq_emod h0 (by decide),
        Int.tdiv_eq_ediv (by omega) (by decide), Int.tmod_eq_emod (by omega) (by decide)]
    · have ha := requested_ns_of_ms half_ms
      have hb := requested_ns_of_ms (period_ms - half_ms)
      simp only [total_requested_ns] at ih2 ⊢
      simp only [flash_red_loop, hal_led_red_on, hal_led_red_off, List.cons_append,
        List.nil_append, List.append_assoc, List.map_cons, List.map_append, List.sum_cons,
        List.sum_append, ih2, ha, hb]
      simp only [requested_ns]
      push_cast
      ring

/-- C23 (counterexample): the PIN deny call `hal_led_flash_red_n_times(3, 500)` performs
three red on/off cycles whose six sleeps ask for 83 ms each, 498 ms in all and not
500 ms. -/
theorem flash_duration_counterexample :
    hal_led_flash_red_n_times 3 500 =
      red_cycle 83 83 ++ red_cycle 83 83 ++ red_cycle 83 83 ∧
    total_requested_ns (hal_led_flash_red_n_times 3 500) = 498 * 1000000 ∧
    total_requested_ns (hal_led_flash_red_n_times 3 500) ≠ 500 * 1000000 := by
  decide

/-- C23 (amended): for `n ≤ 0` or `total_ms ≤ 0` the function performs no LED write and
no sleep. For `n > 0` and `total_ms > 0` it performs exactly `n` red on/off cycles, each
sleeping `(total_ms / n) / 2` ms with the LED on and the rest of `total_ms / n` ms with
it off; the sum of all requested sleep durations is `n * (total_ms / n)` ms, that is
`total_ms` less the remainder of `total_ms` by `n`: more than `total_ms - n`, at most
`total_ms`, and equal to `total_ms` exactly when `n` divides `total_ms`. -/
theorem flash_duration (n total_ms : Int) :
    ((n ≤ 0 ∨ total_ms ≤ 0) → hal_led_flash_red_n_times n total_ms = []) ∧
    ((0 < n ∧ 0 < total_ms) →
      hal_led_flash_red_n_times n total_ms =
        (List.replicate n.toNat
          (red_cycle (total_ms / n / 2) (total_ms / n - total_ms / n / 2))).flatten ∧
      (hal_led_flash_red_n_times n total_ms).count (HalCall.write_led LED_RED_PATH 1) = n.toNat ∧
      (hal_led_flash_red_n_times n total_ms).count (HalCall.write_led LED_RED_PATH 0) = n.toNat ∧
      total_requested_ns (hal_led_flash_red_n_times n total_ms) =
        n * (total_ms / n) * 1000000 ∧
      total_requested_ns (hal_led_flash_red_n_times n total_ms) =
        (total_ms - total_ms % n) * 1000000 ∧
      (total_ms - n) * 1000000 < total_requested_ns (hal_led_flash_red_n_times n total_ms) ∧
      total_requested_ns (hal_led_flash_red_n_times n total_ms) ≤ total_ms * 1000000 ∧
      (total_requested_ns (hal_led_flash_red_n_times n total_ms) = total_ms * 1000000 ↔
        n ∣ total_ms)) := by
  constructor
  · intro h
    simp only [hal_led_flash_red_n_times, if_pos h]
  · rintro ⟨hn, ht⟩
    have hcond : ¬ (n ≤ 0 ∨ total_ms ≤ 0) := by omega
    have hdiv : Int.tdiv total_ms n = total_ms / n :=
      Int.tdiv_eq_ediv (Int.le_of_lt ht) (Int.le_of_lt hn)
    have hp0 : 0 ≤ total_ms / n := Int.ediv_nonneg (Int.le_of_lt ht) (Int.le_of_lt hn)
    have hhalf : Int.tdiv (total_ms / n) 2 = total_ms / n / 2 :=
      Int.tdiv_eq_ediv hp0 (by decide)
    have hrun : hal_led_flash_red_n_times n total_ms =
        flash_red_loop (total_ms / n) (total_ms / n / 2) n.toNat := by
      simp only [hal_led_flash_red_n_times, if_neg hcond, hdiv, hhalf]
    obtain ⟨hcalls, hsum⟩ := flash_red_loop_spec (total_ms / n) (total_ms / n / 2)
      (by omega) (by omega) n.toNat
    have hnat : ((n.toNat : Nat) : Int) = n := Int.toNat_of_nonneg (Int.le_of_lt hn)
    rw [hnat] at hsum
    have hdm := Int.ediv_add_emod total_ms n
    have hm0 := Int.emod_nonneg total_ms (Int.ne_of_gt hn)
    have hmlt := Int.emod_lt_of_pos total_ms hn
    have hsum2 : total_requested_ns (hal_led_flash_red_n_times n total_ms) =
        (total_ms - total_ms % n) * 1000000 := by
      rw [hrun, hsum]
      have : n * (total_ms / n) = total_ms - total_ms % n := by omega
      rw [this]
    refine ⟨by rw [hrun, hcalls], ?_, ?_, by rw [hrun, hsum], hsum2, ?_, ?_, ?_⟩
    · rw [hrun, hcalls, List.count_flatten, List.map_replicate, List.sum_replicate]
      simp [red_cycle, List.count_cons]
    · rw [hrun, hcalls, List.count_flatten, List.map_replicate, List.sum_replicate]
      simp [red_cycle, List.count_cons]
    · rw [hsum2]; omega
    · rw [hsum2]; omega
    · rw [hsum2, Int.dvd_iff_emod_eq_zero]
      constructor
      · intro h; omega
      · intro h; rw [h]; simp

/-- Witness of `flash_duration`: the RFID deny call `(2, 200)` asks for 200 ms in all,
the PIN deny call `(3, 500)` for 498 ms. -/
theorem flash_duration_witness :
    (((0 : Int) < 2 ∧ (0 : Int) < 200) ∧
      total_requested_ns (hal_led_flash_red_n_times 2 200) = 2 * (200 / 2) * 1000000 ∧
      (2 : Int) * (200 / 2) * 1000000 = 200 * 1000000) ∧
    (((0 : Int) < 3 ∧ (0 : Int) < 500) ∧
      total_requested_ns (hal_led_flash_red_n_times 3 500) = 3 * (500 / 3) * 1000000 ∧
      (3 : Int) * (500 / 3) * 1000000 = 498 * 1000000) :=
  ⟨⟨⟨by decide, by decide⟩,
    ((flash_duration 2 200).2 ⟨by decide, by decide⟩).2.2.2.1, by decide⟩,
   ⟨⟨by decide, by decide⟩,
    ((flash_duration 3 500).2 ⟨by decide, by decide⟩).2.2.2.1, by decide⟩⟩

/-! ## Direction source -/

/-- A reading that `hal_joystick_read_raw` delivers is a 12-bit sample when the bytes
received from the ADC are bytes. -/
theorem hal_joystick_read_raw_range (spi_fd : Int) (bus : Int → SpiTransfer) (xv yv : Int)
    (h6 : (bus 6).rx2 < 256) (h7 : (bus 7).rx2 < 256)
    (hraw : hal_joystick_read_raw spi_fd bus = some (xv, yv)) :
    0 ≤ xv ∧ xv < 4096 ∧ 0 ≤ yv ∧ yv < 4096 := by
  have hbits : ∀ a b : Nat, b < 256 → ((a &&& 0x0F) <<< 8 ||| b) < 4096 := by
    intro a b hb
    have ha : a &&& 0x0F < 16 := Nat.lt_of_le_of_lt Nat.and_le_right (by decide)
    have hs : (a &&& 0x0F) <<< 8 < 2 ^ 12 := by
      rw [Nat.shiftLeft_eq]
      omega
    exact Nat.or_lt_two_pow hs (Nat.lt_of_lt_of_le hb (by decide))
  unfold hal_joystick_read_raw at hraw
  by_cases hfd : spi_fd < 0
  · rw [if_pos hfd] at hraw; cases hraw
  · rw [if_neg hfd] at hraw
    simp only at hraw
    split at hraw
    · cases hraw
    · rename_i hneg
      simp only [Option.some.injEq, Prod.mk.injEq] at hraw
      obtain ⟨hx, hy⟩ := hraw
      subst hx; subst hy
      have hx0 : ¬ hal_spi_adc_read_ch spi_fd 6 (bus 6) < 0 := fun h => hneg (Or.inl h)
      have hy0 : ¬ hal_spi_adc_read_ch spi_fd 7 (bus 7) < 0 := fun h => hneg (Or.inr h)
      refine ⟨by omega, ?_, by omega, ?_⟩
      · unfold hal_spi_adc_read_ch at hx0 ⊢
        split
        · rename_i h; rw [if_pos h] at hx0; omega
        · rename_i h
          rw [if_neg h] at hx0
          split
          · rename_i h2; rw [if_pos h2] at hx0; omega
          · exact_mod_cast hbits _ _ h6
      · unfold hal_spi_adc_read_ch at hy0 ⊢
        split
        · rename_i h; rw [if_pos h] at hy0; omega
        · rename_i h
          rw [if_neg h] at hy0
          split
          · rename_i h2; rw [if_pos h2] at hy0; omega
          · exact_mod_cast hbits _ _ h7

/-- A value built by the two nested tests of the direction mapping is not `JOY_CENTER`. -/
theorem direction_ne_center (c1 c2 c3 c4 : Prop) [Decidable c1] [Decidable c2] [Decidable c3]
    [Decidable c4] :
    (if c1 then (if c2 then JOY_UP else JOY_DOWN)
      else if c3 then (if c4 then JOY_RIGHT else JOY_LEFT) else JOY_NONE) ≠ JOY_CENTER := by
  by_cases h1 : c1 <;> by_cases h2 : c2 <;> by_cases h3 : c3 <;> by_cases h4 : c4 <;>
    simp [h1, h2, h3, h4]

/-- C24: whenever the raw read delivers the readings `xv`, `yv`, the direction returned
by `hal_joystick_read_direction` is a function of `dx = xv - x_center` and
`dy = yv - y_center`: it is `JOY_NONE` if and only if `max(|dx|, |dy|) ≤ 1000`;
otherwise, when `|dy| ≥ |dx|` it is `JOY_UP` for positive `dy` and `JOY_DOWN` for
negative `dy`, and when `|dx| > |dy|` it is `JOY_RIGHT` for positive `dx` and `JOY_LEFT`
for negative `dx`, so a diagonal tie goes to the vertical axis. The function never
returns `JOY_CENTER`, also when the raw read fails. -/
theorem joystick_direction_mapping (spi_fd x_center y_center : Int) (bus : Int → SpiTransfer) :
    (∀ xv yv : Int, hal_joystick_read_raw spi_fd bus = some (xv, yv) →
      (hal_joystick_read_direction spi_fd x_center y_center bus = JOY_NONE ↔
        max (abs (xv - x_center)) (abs (yv - y_center)) ≤ 1000) ∧
      (1000 < max (abs (xv - x_center)) (abs (yv - y_center)) →
        abs (xv - x_center) ≤ abs (yv - y_center) →
        hal_joystick_read_direction spi_fd x_center y_center bus =
          if 0 < yv - y_center then JOY_UP else JOY_DOWN) ∧
      (1000 < max (abs (xv - x_center)) (abs (yv - y_center)) →
        abs (yv - y_center) < abs (xv - x_center) →
        hal_joystick_read_direction spi_fd x_center y_center bus =
          if 0 < xv - x_center then JOY_RIGHT else JOY_LEFT)) ∧
    hal_joystick_read_direction spi_fd x_center y_center bus ≠ JOY_CENTER := by
  constructor
  · intro xv yv hraw
    simp only [hal_joystick_read_direction, hraw, abs_eq_max_neg]
    refine ⟨?_, ?_, ?_⟩
    · split_ifs <;> simp <;> omega
    · intro h1 h2
      rw [if_pos (by split_ifs <;> omega)]
    · intro h1 h2
      rw [if_neg (by split_ifs <;> omega), if_pos (by split_ifs <;> omega)]
  · unfold hal_joystick_read_direction
    split
    · decide
    · exact direction_ne_center _ _ _ _

/-- Witness of `joystick_direction_mapping`: with the centre at (2048, 2048) the
readings (4095, 4095), a diagonal tie, give `JOY_UP`; the readings (848, 2148) give
`JOY_LEFT`; the readings (3048, 1048), exactly 1000 off on both axes, give
`JOY_NONE`. -/
theorem joystick_direction_mapping_witness :
    hal_joystick_read_raw 3 (fun _ => { ret := 3, rx1 := 15, rx2 := 255 }) = some (4095, 4095) ∧
    hal_joystick_read_direction 3 2048 2048 (fun _ => { ret := 3, rx1 := 15, rx2 := 255 }) =
      (if (0 : Int) < 4095 - 2048 then JOY_UP else JOY_DOWN) ∧
    hal_joystick_read_direction 3 2048 2048 (fun _ => { ret := 3, rx1 := 15, rx2 := 255 }) =
      JOY_UP ∧
    hal_joystick_read_direction 3 2048 2048
      (fun ch => if ch = 6 then { ret := 3, rx1 := 3, rx2 := 80 }
                 else { ret := 3, rx1 := 8, rx2 := 100 }) = JOY_LEFT ∧
    hal_joystick_read_direction 3 2048 2048
      (fun ch => if ch = 6 then { ret := 3, rx1 := 11, rx2 := 232 }
                 else { ret := 3, rx1 := 4, rx2 := 24 }) = JOY_NONE :=
  ⟨by decide,
   ((joystick_direction_mapping 3 2048 2048 (fun _ => { ret := 3, rx1 := 15, rx2 := 255 })).1
      4095 4095 (by decide)).2.1 (by decide) (by decide),
   by decide, by decide, by decide⟩

/-! ## RFID token extraction -/

/-- A chunk splits into its token and a rest that is empty or starts with a carriage
return, a line feed or a NUL. -/
theorem token_of_split (chunk : List Nat) :
    ∃ rest, chunk = token_of chunk ++ rest ∧
      (rest = [] ∨ ∃ b rest', rest = b :: rest' ∧ (b = 0x0D ∨ b = 0x0A ∨ b = 0)) := by
  induction chunk with
  | nil => exact ⟨[], rfl, Or.inl rfl⟩
  | cons a t ih =>
    by_cases ha : is_token_byte a = true
    · obtain ⟨rest, hsplit, hrest⟩ := ih
      refine ⟨rest, ?_, hrest⟩
      simp only [token_of] at hsplit
      simp only [token_of, List.takeWhile_cons, ha, if_true, List.cons_append]
      exact congrArg _ hsplit
    · refine ⟨a :: t, by simp [token_of, List.takeWhile_cons, ha], Or.inr ⟨a, t, rfl, ?_⟩⟩
      simp [is_token_byte] at ha
      omega

/-- The token of a tag followed by a line terminator is the tag. -/
theorem token_of_terminated (token rest : List Nat) (t : Nat)
    (htok : ∀ b ∈ token, is_token_byte b = true) (ht : is_token_byte t = false) :
    token_of (token ++ t :: rest) = token := by
  induction token with
  | nil => simp [token_of, List.takeWhile_cons, ht]
  | cons a s ih =>
    have ha := htok a (List.mem_cons_self _ _)
    have hs : ∀ b ∈ s, is_token_byte b = true := fun b hb => htok b (List.mem_cons_of_mem _ hb)
    have := ih hs
    simp only [token_of] at this
    simp only [token_of, List.cons_append, List.takeWhile_cons, ha, if_true, this]

/-- C25: for every chunk of 1 to 63 bytes that one serial read delivers into the 64-byte
`rfid_buffer`, section C ends and the C string handed to the comparison is the token of
the chunk: the prefix of the chunk before its first carriage return, line feed or NUL
byte (the whole chunk when it holds none), whatever follows that byte being discarded;
the decision is the one of that token. Hence a chunk that starts with `5A5992` followed
by a carriage return or line feed is granted whatever follows; a chunk that begins with
a carriage return or line feed gives the empty token and no decision, even when a valid
tag follows; a chunk with no terminator is compared as a whole. -/
theorem rfid_token_extraction (uart_fd : Int) (rfid_buffer chunk : List Nat)
    (hfd : uart_fd ≠ -1) (hbuf : rfid_buffer.length = 64)
    (h1 : 1 ≤ chunk.length) (h63 : chunk.length ≤ 63) :
    (∃ tail, rfid_step uart_fd rfid_buffer (UartRead.bytes chunk) =
      some { rfid_buffer := token_of chunk ++ 0 :: tail,
             outcome := (rfid_decision (token_of chunk)).1,
             actions := (rfid_decision (token_of chunk)).2 }) ∧
    (∃ rest, chunk = token_of chunk ++ rest ∧
      (rest = [] ∨ ∃ b rest', rest = b :: rest' ∧ (b = 0x0D ∨ b = 0x0A ∨ b = 0))) ∧
    (∀ b ∈ token_of chunk, b ≠ 0x0D ∧ b ≠ 0x0A ∧ b ≠ 0) ∧
    (∀ (t : Nat) (rest : List Nat), (t = 0x0D ∨ t = 0x0A) → chunk = SECRET_TAG ++ t :: rest →
      ∃ buf, rfid_step uart_fd rfid_buffer (UartRead.bytes chunk) =
        some { rfid_buffer := buf, outcome := some Outcome.Granted,
               actions := perform_unlock "RFID" }) ∧
    (∀ (t : Nat) (rest : List Nat), (t = 0x0D ∨ t = 0x0A) → chunk = t :: rest →
      token_of chunk = [] ∧
      ∃ buf, rfid_step uart_fd rfid_buffer (UartRead.bytes chunk) =
        some { rfid_buffer := buf, outcome := none, actions := [] }) ∧
    ((∀ b ∈ chunk, b ≠ 0x0D ∧ b ≠ 0x0A ∧ b ≠ 0) →
      token_of chunk = chunk ∧
      ∃ tail, rfid_step uart_fd rfid_buffer (UartRead.bytes chunk) =
        some { rfid_buffer := chunk ++ 0 :: tail,
               outcome := (rfid_decision chunk).1,
               actions := (rfid_decision chunk).2 }) := by
  have htake : chunk.take (rfid_buffer.length - 1) = chunk := by
    rw [hbuf]
    exact List.take_of_length_le h63
  have hne : chunk.take (rfid_buffer.length - 1) ≠ [] := by
    rw [htake]
    intro h
    rw [h] at h1
    simp at h1
  obtain ⟨tail, hstep⟩ := rfid_step_bytes uart_fd rfid_buffer chunk hfd hne
  rw [htake] at hstep
  refine ⟨⟨tail, hstep⟩, token_of_split chunk, ?_, ?_, ?_, ?_⟩
  · intro b hb
    have := List.mem_takeWhile_imp hb
    simp [is_token_byte] at this
    omega
  · intro t rest ht hchunk
    have htok : token_of chunk = SECRET_TAG := by
      rw [hchunk]
      refine token_of_terminated SECRET_TAG rest t (by decide) ?_
      rcases ht with rfl | rfl <;> decide
    rw [htok] at hstep
    exact ⟨_, hstep⟩
  · intro t rest ht hchunk
    have htok : token_of chunk = [] := by
      rw [hchunk]
      rcases ht with rfl | rfl <;> simp [token_of, List.takeWhile_cons, is_token_byte]
    rw [htok] at hstep
    exact ⟨htok, _, hstep⟩
  · intro hall
    have htok : token_of chunk = chunk := by
      unfold token_of
      rw [List.takeWhile_eq_self_iff]
      intro b hb
      have := hall b hb
      simp [is_token_byte]
      omega
    rw [htok] at hstep
    exact ⟨htok, tail, hstep⟩

/-- Witness of `rfid_token_extraction`: the tag, a carriage return and a line feed,
then further bytes, are granted; the same bytes after a leading line feed give no
decision. -/
theorem rfid_token_extraction_witness :
    ((3 : Int) ≠ -1 ∧ (List.replicate 64 0).length = 64 ∧
      1 ≤ ("5A5992\r\nXYZ".toList.map Char.toNat).length ∧
      ("5A5992\r\nXYZ".toList.map Char.toNat).length ≤ 63) ∧
    (∃ buf, rfid_step 3 (List.replicate 64 0)
        (UartRead.bytes ("5A5992\r\nXYZ".toList.map Char.toNat)) =
      some { rfid_buffer := buf, outcome := some Outcome.Granted,
             actions := perform_unlock "RFID" }) ∧
    (rfid_step 3 (List.replicate 64 0)
        (UartRead.bytes ("\n5A5992\r\n".toList.map Char.toNat))).map RfidResult.outcome =
      some none :=
  ⟨⟨by decide, by decide, by decide, by decide⟩,
   (rfid_token_extraction 3 (List.replicate 64 0) ("5A5992\r\nXYZ".toList.map Char.toNat)
      (by decide) (by decide) (by decide) (by decide)).2.2.2.1 0x0D
      ("\nXYZ".toList.map Char.toNat) (Or.inl rfl) (by decide),
   by decide⟩
end SmartDoorbell
